import Mathlib

/-!
# Rover decision tree: an embedding of `tree.c` and its verified properties

The C program builds a decision tree of candidate rover moves (`initializeTree`,
`createChildren`, `buildTree`, `assignRandomMove`), resolves it against a terrain map
(`validateAndUpdateMove`, `traverseTree`) and reads goal-reaching paths out of it
(`findPath`, `findBestPath`, `printPath`).

Conventions of the embedding.

* C `int` is `Int`; the sums of a few map costs and the decrements of small counters
  performed by the program stay far from the 32-bit range, so no wrap-around is modelled.
* The flags `is_end` and `found_base` only ever hold 0 or 1 and are only tested for
  truth, so they are `Bool`.
* `t_move` is an enumeration on which the program does arithmetic (`movement--`, `-1`),
  so a move is its integer code.
* A node owns its children: `children` is `none` for the null pointer and `some l` for an
  array holding the nodes `l`. The `parent` back-pointer is not stored; the functions that
  read through it receive the parent's record as an argument (`none` for the root).
* In-place updates become functions returning the updated node or tree.
* A pointer to a node of the tree is the path of child indices leading to it from the root.
* The headers `loc.h`, `map.h` and `moves.h` are not part of the sources at hand; what the
  program uses from them is taken as a parameter (`Collab`, `t_map`, `BuildEnv`).
* `malloc` is taken to succeed for every positive size.
* A node is visited when `traverseTree` is called on it; `callAt` gives the call made for
  the node at a path, if any.
-/

namespace RoverRun

/-! ## Data model (tree.h) -/

/-- Modelled from the spec: `loc.h` is absent; the orientation is "one of a fixed
compass-like enumeration", of which `tree.c` names `EAST`. -/
inductive t_orientation where
  | NORTH
  | EAST
  | SOUTH
  | WEST
deriving DecidableEq, Repr

/-- Grid coordinates (`t_position` of `loc.h`, fields `x` and `y` as used by `tree.c`). -/
structure t_position where
  x : Int
  y : Int
deriving DecidableEq, Repr

/-- Position and orientation (`t_localisation`, fields `pos` and `ori`). -/
structure t_localisation where
  pos : t_position
  ori : t_orientation
deriving DecidableEq, Repr

/-- Terrain kinds. `tree.c` names four values of `t_soil`; `OTHER` stands for every value
of the absent `map.h` enumeration that `tree.c` does not name. -/
inductive t_soil where
  | BASE_STATION
  | CREVASSE
  | REG
  | ERG
  | OTHER
deriving DecidableEq, Repr

/-- The map as `tree.c` reads it: the two grids indexed `[y][x]`, and the dimensions. -/
structure t_map where
  soils : Int → Int → t_soil
  costs : Int → Int → Int
  x_max : Int
  y_max : Int

/-- The record `t_info` of tree.h. -/
structure t_info where
  movement : Int
  is_end : Bool
  value : Int
  found_base : Bool
  cost : Int
  location : t_localisation
  num_children : Int
deriving DecidableEq, Repr

/-- The record `t_node` of tree.h, without the non-owning `parent` pointer. -/
inductive t_node where
  | mk (children : Option (List t_node)) (info : t_info) : t_node

/-- Field `info` of a node. -/
def t_node.info : t_node → t_info
  | .mk _ info => info

/-- Field `children` of a node. -/
def t_node.children : t_node → Option (List t_node)
  | .mk children _ => children

/-- What the build takes from outside: the move sampler `getRandomMoves` of `moves.h`
(the k-th request made, for `count` moves, yields an array or the null pointer), and the
indeterminate content `indet v` of the block that `malloc` returns for the node that is
given the identifier `v`. -/
structure BuildEnv where
  getRandomMoves : Nat → Int → Option (Nat → Int)
  indet : Int → t_info

/-- The mutable state threaded through the build: the global counter `num` of tree.c and
the number of requests made to the sampler so far. -/
structure BuildState where
  num : Int
  calls : Nat
deriving DecidableEq, Repr

/-- What traversal takes from `moves.h` and `loc.h`: the codes of the four moves that
`validateAndUpdateMove` names, `updateLocalisation` and `isValidLocalisation`. -/
structure Collab where
  F_10 : Int
  B_10 : Int
  T_LEFT : Int
  T_RIGHT : Int
  updateLocalisation : t_localisation → Int → t_localisation
  isValidLocalisation : t_position → Int → Int → Bool

/-! ## Tree initialisation and construction (tree.c, lines 21-103) -/

/-- The `i`-th iteration of the loop of `createChildren`, for the child given id `v`. -/
def newChild (E : BuildEnv) (parent : t_info) (v : Int) : t_node :=
  .mk none
    { E.indet v with
      cost := 0
      is_end := false
      found_base := false
      num_children := parent.num_children - 1
      value := v }

/-- The loop of `createChildren`: `k` children, with consecutive ids from `num` on. -/
def createLoop (E : BuildEnv) (parent : t_info) : Nat → Int → List t_node
  | 0, _ => []
  | k + 1, num => newChild E parent num :: createLoop E parent k (num + 1)

/-- `createChildren` (tree.c 21-42). A negative `num_children` makes the requested size
wrap around to a size no allocator grants: the array is the null pointer and the loop does
not run. For `num_children = 0` the array is an empty, non-null block (the behaviour of
glibc for `malloc(0)`). Returns the array and the new value of `num`. -/
def createChildren (E : BuildEnv) (parent : t_info) (num : Int) : Option (List t_node) × Int :=
  if parent.num_children < 0 then (none, num)
  else (some (createLoop E parent parent.num_children.toNat num), num + parent.num_children)

/-- `initializeTree` (tree.c 45-59). The source leaves `children` and `location` unset; the
root's `children` is modelled as the null pointer. -/
def initializeTree (E : BuildEnv) (num_choices : Int) : t_node :=
  .mk none
    { E.indet (-1) with
      value := -1
      num_children := num_choices
      movement := -1
      found_base := false
      is_end := false
      cost := 0 }

/-- The loop of `assignRandomMove` (tree.c 97-99) over the children `i, i+1, ...` while
`i < num_children`: `k` is the number of iterations left. -/
def setMoves (random_moves : Nat → Int) : List t_node → Nat → Nat → List t_node
  | [], _, _ => []
  | l, 0, _ => l
  | .mk ch info :: xs, k + 1, i =>
    .mk ch { info with movement := random_moves i } :: setMoves random_moves xs k (i + 1)

/-- `assignRandomMove` (tree.c 83-103): one request to the sampler for `5*num_children`
moves; on failure the node is left as it is. -/
def assignRandomMove (E : BuildEnv) (node : t_node) (st : BuildState) : t_node × BuildState :=
  let num_children := node.info.num_children
  match E.getRandomMoves st.calls (5 * num_children) with
  | none => (node, { st with calls := st.calls + 1 })
  | some random_moves =>
    (.mk (node.children.map fun l => setMoves random_moves l num_children.toNat 0) node.info,
      { st with calls := st.calls + 1 })

/-- The loop of `buildTree` (tree.c 70-73) from index `i` on, `todo` iterations left;
`build` is the recursive call. An iteration whose child is missing is skipped (this does
not arise: `createChildren` has just made `num_children` children). -/
def buildLoop (E : BuildEnv) (build : t_node → BuildState → Option (t_node × BuildState)) :
    Nat → Nat → t_node → BuildState → Option (t_node × BuildState)
  | 0, _, root, st => some (root, st)
  | todo + 1, i, root, st =>
    let r := assignRandomMove E root st
    match r.1.children with
    | none => buildLoop E build todo (i + 1) r.1 r.2
    | some l =>
      match l[i]? with
      | none => buildLoop E build todo (i + 1) r.1 r.2
      | some c =>
        match build c r.2 with
        | none => none
        | some (c', st') => buildLoop E build todo (i + 1) (.mk (some (l.set i c')) r.1.info) st'

/-- `buildTree` (tree.c 62-74) with a bound `fuel` on the recursion depth; `none` when the
bound is hit. -/
def buildTreeAux (E : BuildEnv) (min_choices : Int) :
    Nat → t_node → BuildState → Option (t_node × BuildState)
  | 0, _, _ => none
  | fuel + 1, root, st =>
    if root.info.num_children = min_choices - 1 then some (root, st)
    else
      let r := createChildren E root.info st.num
      buildLoop E (buildTreeAux E min_choices fuel) root.info.num_children.toNat 0
        (.mk r.1 root.info) { st with num := r.2 }

/-- `buildTree`: the recursion depth never exceeds the root's `num_children`, which the
bound given here covers. -/
def buildTree (E : BuildEnv) (root : t_node) (min_choices : Int) (st : BuildState) :
    Option (t_node × BuildState) :=
  buildTreeAux E min_choices (root.info.num_children.toNat + 1) root st

/-! ## Reading the tree by paths -/

/-- The node reached from `t` by following the child indices of the path. -/
def nodeAt : t_node → List Nat → Option t_node
  | t, [] => some t
  | .mk none _, _ :: _ => none
  | .mk (some l) _, i :: p =>
    match l[i]? with
    | none => none
    | some c => nodeAt c p

mutual
/-- Number of nodes of the tree at depth `d` below (and including, for `d = 0`) the node. -/
def nodesAtDepth : t_node → Nat → Nat
  | .mk _ _, 0 => 1
  | .mk none _, _ + 1 => 0
  | .mk (some l) _, d + 1 => nodesAtDepthList l d
/-- Sum of `nodesAtDepth` over an array of children. -/
def nodesAtDepthList : List t_node → Nat → Nat
  | [], _ => 0
  | x :: xs, d => nodesAtDepth x d + nodesAtDepthList xs d
end

/-! ## Tree navigation and simulation (tree.c, lines 105-178) -/

/-- The value that a C `int` holds when the exact result of an addition is `v`: the
representative of `v` modulo 2^32 in the range from -2^31 to 2^31 - 1 (two's-complement
wrap-around). -/
def wrapInt (v : Int) : Int :=
  (v + 2147483648) % 4294967296 - 2147483648

/-- `validateAndUpdateMove` (tree.c 106-144): the node's record is updated from its
parent's record `parent`; returns the return code, the updated record and the updated
value of `*remainingMoves`. The two additions of tree.c 118 into the `int` field `cost`
wrap around. -/
def validateAndUpdateMove (K : Collab) (parent node : t_info) (map : t_map)
    (remainingMoves : Int) : Int × t_info × Int :=
  let node := { node with location := parent.location }
  let x := node.location.pos.x
  let y := node.location.pos.y
  let movement := node.movement
  let node := { node with cost := wrapInt (node.cost + wrapInt (parent.cost + map.costs y x)) }
  let soil := map.soils y x
  if soil = t_soil.BASE_STATION then
    (-1, { node with is_end := true, found_base := true }, remainingMoves)
  else if soil = t_soil.CREVASSE then
    (-1, { node with is_end := true }, remainingMoves)
  else
    let remainingMoves := if soil = t_soil.REG then remainingMoves - 1 else remainingMoves
    if soil = t_soil.ERG then
      if ¬ (movement = K.F_10 ∨ movement = K.B_10 ∨ movement = K.T_LEFT ∨ movement = K.T_RIGHT)
      then (1, { node with movement := node.movement - 1 }, remainingMoves)
      else (0, node, remainingMoves)
    else (1, node, remainingMoves)

/-- The bounds test of `traverseTree` (tree.c 169-172): the record, and the budget handed
to the loop over the children when the loop is reached. -/
def boundsCheck (K : Collab) (map : t_map) (info : t_info) (remainingMoves : Int) :
    t_info × Option Int :=
  if ¬ K.isValidLocalisation info.location.pos map.x_max map.y_max then
    ({ info with is_end := true }, none)
  else (info, some remainingMoves)

/-- The body of `traverseTree` before its loop (tree.c 148-172), for a node with record
`info` whose `children` pointer is null exactly when `noChildren`. `parent` is the record of
the parent, `none` for the root. Returns the updated record and, when the loop over the
children is reached, the budget handed to them. -/
def traverseStep (K : Collab) (map : t_map) (parent : Option t_info) (noChildren : Bool)
    (info : t_info) (remainingMoves : Int) : t_info × Option Int :=
  match parent with
  | some p =>
    match validateAndUpdateMove K p info map remainingMoves with
    | (checkResult, info, remainingMoves) =>
      if checkResult = -1 then (info, none)
      else
        let info :=
          if checkResult = 1 then
            { info with location := K.updateLocalisation info.location info.movement }
          else info
        let remainingMoves := remainingMoves - 1
        if remainingMoves = 0 ∨ noChildren = true then ({ info with is_end := true }, none)
        else boundsCheck K map info remainingMoves
  | none => boundsCheck K map info remainingMoves

mutual
/-- `traverseTree` (tree.c 147-178). The loop visits `children[i]` for `i < num_children`;
the model visits those of them that exist. On a root without an array of children that
passes the bounds test with `num_children ≥ 1`, the source reads `children[0]` through a
pointer that was never set (the subject of C18); the model returns the root's record there,
and says nothing of what the source does after that read. `childReadsOk` below tells
whether the loop reads only children that exist. -/
def traverseTree (K : Collab) (map : t_map) (parent : Option t_info) : t_node → Int → t_node
  | .mk none info, remainingMoves =>
    .mk none (traverseStep K map parent true info remainingMoves).1
  | .mk (some l) info, remainingMoves =>
    match traverseStep K map parent false info remainingMoves with
    | (info', none) => .mk (some l) info'
    | (info', some r) => .mk (some (traverseLoop K map info' l info'.num_children.toNat r)) info'
/-- The loop of `traverseTree` (tree.c 175-177) over the remaining children, `k`
iterations left; `parent` is the resolved record of the node whose children these are. -/
def traverseLoop (K : Collab) (map : t_map) (parent : t_info) :
    List t_node → Nat → Int → List t_node
  | [], _, _ => []
  | x :: xs, 0, _ => x :: xs
  | x :: xs, k + 1, r => traverseTree K map (some parent) x r :: traverseLoop K map parent xs k r
end

mutual
/-- Whether every `children[i]` that `traverseTree` reads in its loop (tree.c 175-177),
here and below, exists: a node whose loop is reached with `num_children ≥ 1` has an array of
at least `num_children` children. When this holds, the result of `traverseTree` above is
that of the source. -/
def childReadsOk (K : Collab) (map : t_map) (parent : Option t_info) : t_node → Int → Bool
  | .mk none info, remainingMoves =>
    match traverseStep K map parent true info remainingMoves with
    | (_, none) => true
    | (info', some _) => decide (info'.num_children ≤ 0)
  | .mk (some l) info, remainingMoves =>
    match traverseStep K map parent false info remainingMoves with
    | (_, none) => true
    | (info', some r) =>
      decide (info'.num_children.toNat ≤ l.length) &&
        childReadsOkLoop K map info' l info'.num_children.toNat r
/-- `childReadsOk` for the calls made by the loop of `traverseTree` over the remaining
children, `k` iterations left. -/
def childReadsOkLoop (K : Collab) (map : t_map) (parent : t_info) :
    List t_node → Nat → Int → Bool
  | [], _, _ => true
  | _ :: _, 0, _ => true
  | x :: xs, k + 1, r =>
    childReadsOk K map (some parent) x r && childReadsOkLoop K map parent xs k r
end

/-- The call of `traverseTree` made for the node at a path, when traversal is started on
`node` with parent record `parent` and budget `remainingMoves`: the parent record, the node
as it is before the call and the budget the call receives; `none` when traversal never
calls `traverseTree` on that node. -/
def callAt (K : Collab) (map : t_map) :
    Option t_info → t_node → Int → List Nat → Option (Option t_info × t_node × Int)
  | parent, node, remainingMoves, [] => some (parent, node, remainingMoves)
  | _, .mk none _, _, _ :: _ => none
  | parent, .mk (some l) info, remainingMoves, i :: p =>
    match traverseStep K map parent false info remainingMoves with
    | (_, none) => none
    | (info', some r) =>
      if i < info'.num_children.toNat then
        match l[i]? with
        | none => none
        | some c => callAt K map (some info') c r p
      else none

/-! ## Pathfinding (tree.c, lines 186-254) -/

/-- One line of the table printed by `printPath`: position, orientation and the move, which
is `none` for the root's line (printed as `START`, below the column headers). -/
structure Row where
  y : Int
  x : Int
  ori : t_orientation
  move : Option Int
deriving DecidableEq, Repr

/-- One block printed by `findPath` for a node that found the base: the arrival line, the
table printed by `printPath` and the cost line. -/
structure PathReport where
  arrival : t_localisation
  path : List Row
  cost : Int
deriving DecidableEq, Repr

/-- `printPath` (tree.c 228-254). The argument is the chain of records met by following
`parent` pointers from the node: the node first, the root last; the null pointer is the
empty chain. -/
def printPath : List t_info → List Row
  | [] => []
  | node :: ancestors =>
    printPath ancestors ++
      [if ancestors = [] then
          { y := node.location.pos.y, x := node.location.pos.x, ori := node.location.ori,
            move := none }
        else
          { y := node.location.pos.y, x := node.location.pos.x, ori := node.location.ori,
            move := some node.movement }]

mutual
/-- `findPath` (tree.c 187-203); `ancestors` is the parent chain of the node (parent
first, root last). Returns the blocks printed, in order. -/
def findPath (ancestors : List t_info) : t_node → List PathReport
  | .mk none info =>
    if info.found_base = true then
      [{ arrival := info.location, path := printPath ancestors, cost := info.cost }]
    else []
  | .mk (some l) info =>
    (if info.found_base = true then
      [{ arrival := info.location, path := printPath ancestors, cost := info.cost }]
    else []) ++
    (if info.is_end = true then []
    else findPathLoop (info :: ancestors) l info.num_children.toNat)
/-- The loop of `findPath` (tree.c 200-202), `k` iterations left. -/
def findPathLoop (ancestors : List t_info) : List t_node → Nat → List PathReport
  | [], _ => []
  | _ :: _, 0 => []
  | x :: xs, k + 1 => findPath ancestors x ++ findPathLoop ancestors xs k
end

/-- The test and assignment of `findBestPath` at one node (tree.c 211-216); `here` is the
pointer (path from the root) to the node. -/
def updateBest (here : List Nat) (node : t_node) (best : Option (List Nat × t_node)) :
    Option (List Nat × t_node) :=
  if node.info.found_base = true then
    match best with
    | none => some (here, node)
    | some b => if node.info.cost < b.2.info.cost then some (here, node) else some b
  else best

mutual
/-- `findBestPath` (tree.c 206-225); `here` is the path from the root of the whole tree to
the node, `best` the content of `*best`. Returns the final content of `*best`. -/
def findBestPath (here : List Nat) : t_node → Option (List Nat × t_node) →
    Option (List Nat × t_node)
  | .mk none info, best => updateBest here (.mk none info) best
  | .mk (some l) info, best =>
    if info.is_end = true then updateBest here (.mk (some l) info) best
    else
      findBestLoop here l info.num_children.toNat 0 (updateBest here (.mk (some l) info) best)
/-- The loop of `findBestPath` (tree.c 222-224) from index `i` on, `k` iterations left. -/
def findBestLoop (here : List Nat) : List t_node → Nat → Nat → Option (List Nat × t_node) →
    Option (List Nat × t_node)
  | [], _, _, best => best
  | _ :: _, 0, _, best => best
  | x :: xs, k + 1, i, best =>
    let best := findBestPath (here ++ [i]) x best
    findBestLoop here xs k (i + 1) best
end

/-! ## Specification vocabulary -/

/-- Reachability under the pruning rule: from a node one descends to the child `i`
(`i < num_children`) only when the node has a children array and is not marked `is_end`. -/
inductive Reachable : t_node → List Nat → t_node → Prop
  | here (t : t_node) : Reachable t [] t
  | child (l : List t_node) (info : t_info) (i : Nat) (c : t_node) (p : List Nat) (n : t_node) :
      info.is_end = false → (i : Int) < info.num_children → l[i]? = some c →
      Reachable c p n → Reachable (.mk (some l) info) (i :: p) n

/-- The records of the strict ancestors of the node at a path, nearest ancestor first and
the root last: the chain that `parent` pointers give from the node's parent. -/
def ancestorsAt : t_node → List Nat → List t_info
  | _, [] => []
  | .mk none _, _ :: _ => []
  | .mk (some l) info, i :: p =>
    match l[i]? with
    | none => []
    | some c => ancestorsAt c p ++ [info]

/-- The nodes have the fields that the build gives them: zero cost and cleared flags. -/
def Fresh (t : t_node) : Prop :=
  ∀ p n, nodeAt t p = some n →
    n.info.cost = 0 ∧ n.info.is_end = false ∧ n.info.found_base = false

/-- The tests of `traverseTree` that mark a node with record `info` and budget `r` as an end
(tree.c 162-172): budget exactly zero, null `children`, or position out of bounds. -/
def endMark (K : Collab) (map : t_map) (noChildren : Bool) (info : t_info) (r : Int) : Bool :=
  decide (r = 0) || noChildren ||
    !K.isValidLocalisation info.location.pos map.x_max map.y_max

/-- Sets the root's location, as `executePhase` does (tree.c 274) before traversal. -/
def setLocation (t : t_node) (loc : t_localisation) : t_node :=
  .mk t.children { t.info with location := loc }

/-! ## The shape of built trees -/

/-- The fields that `createChildren` and `initializeTree` clear. -/
def Zeroed (info : t_info) : Prop :=
  info.cost = 0 ∧ info.is_end = false ∧ info.found_base = false

/-- Two nodes that differ at most by the `movement` field of their record. -/
def MoveEq (a b : t_node) : Prop :=
  b.children = a.children ∧ ∃ mv, b.info = { a.info with movement := mv }

/-- The trees that `buildTree` leaves below a node, for the parameter `min_choices = m`:
a node whose `num_children` is `m - 1` is not expanded; any other node has received an
array of `num_children` children (no array when the count is negative), each entitled to one
child less and itself built. -/
inductive Built (m : Int) : t_node → Prop
  | leaf (info : t_info) : Zeroed info → info.num_children = m - 1 → Built m (.mk none info)
  | failed (info : t_info) : Zeroed info → info.num_children ≠ m - 1 → info.num_children < 0 →
      Built m (.mk none info)
  | node (info : t_info) (l : List t_node) : Zeroed info → info.num_children ≠ m - 1 →
      0 ≤ info.num_children → l.length = info.num_children.toNat →
      (∀ c ∈ l, c.info.num_children = info.num_children - 1) → (∀ c ∈ l, Built m c) →
      Built m (.mk (some l) info)

/-! ## The steps of `traverseTree` at one node, named -/

/-- The terrain kind of the cell under a location, as `validateAndUpdateMove` reads it from
`map.soils[y][x]`. -/
def soilUnder (map : t_map) (loc : t_localisation) : t_soil :=
  map.soils loc.pos.y loc.pos.x

/-- The cost of the cell under a location, as read from `map.costs[y][x]`. -/
def costUnder (map : t_map) (loc : t_localisation) : Int :=
  map.costs loc.pos.y loc.pos.x

/-- Membership in the subset of moves listed by `validateAndUpdateMove` for ERG terrain. -/
def listedMove (K : Collab) (movement : Int) : Prop :=
  movement = K.F_10 ∨ movement = K.B_10 ∨ movement = K.T_LEFT ∨ movement = K.T_RIGHT

instance (K : Collab) (movement : Int) : Decidable (listedMove K movement) := by
  unfold listedMove
  infer_instance

/-- The record of a node once `validateAndUpdateMove` has copied the parent's location
into it and added, in the arithmetic of `int`, the parent's cost and the cost of the cell at
that location. -/
def inherited (map : t_map) (p info : t_info) : t_info :=
  { info with
    location := p.location
    cost := wrapInt (info.cost + wrapInt (p.cost + map.costs p.location.pos.y p.location.pos.x)) }

/-- The record of a node that is not stopped by its terrain, after the call of
`updateLocalisation` (tree.c 153-154) when it is made. -/
def movedInfo (K : Collab) (map : t_map) (p info : t_info) : t_info :=
  if soilUnder map p.location = t_soil.ERG then
    if listedMove K info.movement then inherited map p info
    else
      { inherited map p info with
        movement := info.movement - 1
        location := K.updateLocalisation p.location (info.movement - 1) }
  else
    { inherited map p info with location := K.updateLocalisation p.location info.movement }

/-- The budget of a node that is not stopped by its terrain, after the decrements of
tree.c 132 and 159. -/
def budgetAfter (map : t_map) (p : t_info) (r : Int) : Int :=
  if soilUnder map p.location = t_soil.REG then r - 2 else r - 1

/-- The tests of tree.c 162-172 on the record and budget reached before them. -/
def endTests (K : Collab) (map : t_map) (noChildren : Bool) (info : t_info) (r : Int) :
    t_info × Option Int :=
  if r = 0 ∨ noChildren = true then ({ info with is_end := true }, none)
  else boundsCheck K map info r

mutual
/-- The nodes that `findPath` and `findBestPath` look at below (and including) a node, each
with its path from that node, in the order in which the walks reach them. -/
def reach : t_node → List (List Nat × t_node)
  | .mk none info => [([], .mk none info)]
  | .mk (some l) info =>
    ([], .mk (some l) info) ::
      (if info.is_end = true then [] else reachLoop l info.num_children.toNat 0)
/-- The nodes looked at by the loop over the children from index `i` on, `k` iterations
left. -/
def reachLoop : List t_node → Nat → Nat → List (List Nat × t_node)
  | [], _, _ => []
  | _ :: _, 0, _ => []
  | x :: xs, k + 1, i => (reach x).map (fun e => (i :: e.1, e.2)) ++ reachLoop xs k (i + 1)
end

/-! ## Concrete collaborators and scenarios -/

/-- A sampler that always succeeds and puts the move of code `i` in slot `i`; fresh blocks
hold zeroes. -/
def demoEnv : BuildEnv :=
  { getRandomMoves := fun _ _ => some (fun i => (i : Int))
    indet := fun _ =>
      { movement := 0, is_end := false, value := 0, found_base := false, cost := 0,
        location := ⟨⟨0, 0⟩, .NORTH⟩, num_children := 0 } }

/-- A step of `k` cells in the direction faced. -/
def demoAdvance (loc : t_localisation) (k : Int) : t_localisation :=
  match loc.ori with
  | .NORTH => ⟨⟨loc.pos.x, loc.pos.y - k⟩, .NORTH⟩
  | .EAST => ⟨⟨loc.pos.x + k, loc.pos.y⟩, .EAST⟩
  | .SOUTH => ⟨⟨loc.pos.x, loc.pos.y + k⟩, .SOUTH⟩
  | .WEST => ⟨⟨loc.pos.x - k, loc.pos.y⟩, .WEST⟩

/-- Collaborators with the move codes 0..6 for forward 1, 2, 3 cells, backward 1 cell,
turn left, turn right and U-turn, and the usual bounds test. -/
def demoCollab : Collab :=
  { F_10 := 0
    B_10 := 3
    T_LEFT := 4
    T_RIGHT := 5
    updateLocalisation := fun loc m =>
      if m = 0 then demoAdvance loc 1
      else if m = 1 then demoAdvance loc 2
      else if m = 2 then demoAdvance loc 3
      else if m = 3 then demoAdvance loc (-1)
      else if m = 4 then
        ⟨loc.pos, match loc.ori with
          | .NORTH => .WEST | .WEST => .SOUTH | .SOUTH => .EAST | .EAST => .NORTH⟩
      else if m = 5 then
        ⟨loc.pos, match loc.ori with
          | .NORTH => .EAST | .EAST => .SOUTH | .SOUTH => .WEST | .WEST => .NORTH⟩
      else if m = 6 then
        ⟨loc.pos, match loc.ori with
          | .NORTH => .SOUTH | .EAST => .WEST | .SOUTH => .NORTH | .WEST => .EAST⟩
      else loc
    isValidLocalisation := fun pos x_max y_max =>
      decide (0 ≤ pos.x ∧ pos.x < x_max ∧ 0 ≤ pos.y ∧ pos.y < y_max) }

/-- The 2x2 scenario of the specification: every cell is Open (REG) with cost 1, except
the goal cell x = 0, y = 1, which is Goal terrain (cost 0). -/
def scenarioMap : t_map :=
  { soils := fun y x => if x = 0 ∧ y = 1 then .BASE_STATION else .REG
    costs := fun y x => if x = 0 ∧ y = 1 then 0 else 1
    x_max := 2
    y_max := 2 }

/-- A 100x100 map of Open (REG) cells of cost 1. -/
def regMap : t_map :=
  { soils := fun _ _ => .REG, costs := fun _ _ => 1, x_max := 100, y_max := 100 }

/-- A 100x100 map of Restricted (ERG) cells of cost 1. -/
def ergMap : t_map :=
  { soils := fun _ _ => .ERG, costs := fun _ _ => 1, x_max := 100, y_max := 100 }

/-- The start of the scenarios: cell x = 0, y = 0, facing south (towards growing y). -/
def startLoc : t_localisation := ⟨⟨0, 0⟩, .SOUTH⟩

/-- A record with the given id, move and entitlement, cleared as the build leaves it. -/
def demoInfo (value movement num_children : Int) : t_info :=
  { movement := movement, is_end := false, value := value, found_base := false, cost := 0,
    location := ⟨⟨0, 0⟩, .NORTH⟩, num_children := num_children }

/-- The tree built for `numChoices = 2`, `minChoices = 1` with `demoEnv`. -/
def tree21 : t_node :=
  .mk (some [.mk (some [.mk none (demoInfo 2 0 0)]) (demoInfo 0 0 1),
             .mk (some [.mk none (demoInfo 3 0 0)]) (demoInfo 1 1 1)]) (demoInfo (-1) (-1) 2)

/-- The tree built for `numChoices = 0`, `minChoices = 1` with `demoEnv`: the root alone. -/
def tree01 : t_node :=
  .mk none (demoInfo (-1) (-1) 0)

/-! ## Further specification vocabulary -/

/-- The line that `printPath` prints for the root (tree.c 239-245): its position and
orientation, and `START` in place of a move. -/
def startRow (a : t_info) : Row :=
  { y := a.location.pos.y, x := a.location.pos.x, ori := a.location.ori, move := none }

/-- The line that `printPath` prints for a node that has a parent (tree.c 248-252): its
position, orientation and move. -/
def stepRow (a : t_info) : Row :=
  { y := a.location.pos.y, x := a.location.pos.x, ori := a.location.ori,
    move := some a.movement }

/-- Two records that agree on every field except possibly the cost. -/
def EqExceptCost (a b : t_info) : Prop :=
  b = { a with cost := b.cost }

/-! ## The run (tree.c, lines 256-300) -/

/-- What `executePhase` prints at its step 6: a block of `findPath` (headed `Path`), the
block headed `Best Path`, or the line `Invalid mode selected.` -/
inductive Printed where
  | path (block : PathReport)
  | bestPath (block : PathReport)
  | invalidMode
deriving DecidableEq, Repr

/-- `executePhase` (tree.c 263-300). `loc_init` is the constructor of `loc.h`; the value of
`getBaseStationPosition(map)` is computed and never used, it is left out. Returns the root,
what step 6 prints, and the state of the build; `none` only if `buildTree` hits its bound
(which it does not, see `buildTree_built`). In mode 2 nothing is printed when `bestNode`
stays null. For `min_choices = num_choices + 1 ≥ 2` the root is traversed without an array
of children, where the source reads `children[0]` through a pointer that was never set (the
subject of C18): the value given here for that case is that of the model of
`traverseTree`. -/
def executePhase (E : BuildEnv) (K : Collab)
    (loc_init : Int → Int → t_orientation → t_localisation) (num_choices min_choices : Int)
    (map : t_map) (mode : Int) (st : BuildState) :
    Option (t_node × List Printed × BuildState) :=
  let root := initializeTree E num_choices
  match buildTree E root min_choices st with
  | none => none
  | some (root, st) =>
    let root := setLocation root (loc_init 4 1 .EAST)
    let root := traverseTree K map none root 5
    let out :=
      if mode = 1 then (findPath [] root).map Printed.path
      else if mode = 2 then
        match findBestPath [] root none with
        | some (p, bestNode) =>
          [Printed.bestPath
            { arrival := bestNode.info.location
              path := printPath (ancestorsAt root p)
              cost := bestNode.info.cost }]
        | none => []
      else [Printed.invalidMode]
    some (root, out, st)

/-! ## The requests that the build makes to the sampler -/

mutual
/-- The number of requests that `buildTree` makes to the sampler while it builds below a
node, read off the built tree: one for each child (one per iteration of the loop, tree.c
70-73), and those made while the children are built. -/
def requests : t_node → Nat
  | .mk none _ => 0
  | .mk (some l) _ => requestsList l
/-- The requests made by the iterations of the loop of `buildTree` for the given children. -/
def requestsList : List t_node → Nat
  | [] => 0
  | x :: xs => (1 + requests x) + requestsList xs
end

mutual
/-- The number of nodes that `buildTree` has expanded (given an array of children) in a
built tree. -/
def expansions : t_node → Nat
  | .mk none _ => 0
  | .mk (some l) _ => 1 + expansionsList l
/-- Sum of `expansions` over an array of children. -/
def expansionsList : List t_node → Nat
  | [] => 0
  | x :: xs => expansions x + expansionsList xs
end

/-- The index of the request made by iteration `i` of the loop of `buildTree` for a node
with children `l`, when `c` requests were made before `buildTree` was called on the node:
the iterations before it have made one request each, and the builds of the children before
`i` the requests counted by `requests`. -/
def requestAt (c : Nat) (l : List t_node) (i : Nat) : Nat :=
  c + requestsList (l.take i)

/-- The number of requests made before `buildTree` is called on the node at a path, when
`c` requests were made before it was called on `t`: the call on child `i` follows the
request of iteration `i`. -/
def startAt : Nat → t_node → List Nat → Option Nat
  | c, _, [] => some c
  | _, .mk none _, _ :: _ => none
  | c, .mk (some l) _, i :: p =>
    match l[i]? with
    | none => none
    | some x => startAt (requestAt c l i + 1) x p

mutual
/-- The moves that the build leaves in a tree built from the moment when `c` requests were
made: the children of every expanded node hold, in child order, the moves of the batch
requested by the last iteration of the loop for that node (when that request succeeded). -/
def Stamped (E : BuildEnv) : Nat → t_node → Prop
  | _, .mk none _ => True
  | c, .mk (some l) info =>
    (∀ rm, E.getRandomMoves (requestAt c l (l.length - 1)) (5 * info.num_children) = some rm →
      ∀ (i : Nat) (x : t_node), l[i]? = some x → x.info.movement = rm i) ∧
    StampedList E c l
/-- `Stamped` for the children built by the iterations of the loop, the first of them
starting when `c` requests were made. -/
def StampedList (E : BuildEnv) : Nat → List t_node → Prop
  | _, [] => True
  | c, x :: xs => Stamped E (c + 1) x ∧ StampedList E (c + 1 + requests x) xs
end

/-! ## Further collaborators and scenarios -/

/-- A 2x3 map of cells of cost 1, all Open (REG) except the two Goal cells x = 0, y = 1 and
x = 0, y = 2. -/
def twoGoalMap : t_map :=
  { soils := fun y x => if x = 0 ∧ (y = 1 ∨ y = 2) then .BASE_STATION else .REG
    costs := fun _ _ => 1
    x_max := 2
    y_max := 3 }

/-- A 100x100 map of cells of cost 1: the start cell x = 0, y = 0 is Restricted (ERG), the
cell x = 0, y = 1 is Goal, every other cell is of a kind that `tree.c` does not name. -/
def ergGoalMap : t_map :=
  { soils := fun y x =>
      if x = 0 ∧ y = 0 then .ERG else if x = 0 ∧ y = 1 then .BASE_STATION else .OTHER
    costs := fun _ _ => 1
    x_max := 100
    y_max := 100 }

/-- A sampler that always succeeds and puts the move of code `i + 2` in slot `i`; fresh
blocks hold zeroes. -/
def farEnv : BuildEnv :=
  { getRandomMoves := fun _ _ => some (fun i => (i : Int) + 2)
    indet := demoEnv.indet }

/-- A sampler that always succeeds and stamps its batches: the batch of the request of
index `k` holds `10 * k + i` in slot `i`; fresh blocks hold zeroes. -/
def stampEnv : BuildEnv :=
  { getRandomMoves := fun k _ => some (fun i => 10 * (k : Int) + (i : Int))
    indet := demoEnv.indet }

/-- A 100x100 map of Open (REG) cells with one Goal cell at x = 0, y = 2, where every cell
has the cost 1000000000. -/
def bigCostMap : t_map :=
  { soils := fun y x => if x = 0 ∧ y = 2 then .BASE_STATION else .REG
    costs := fun _ _ => 1000000000
    x_max := 100
    y_max := 100 }

/-- A 100x100 map of cells of cost 1: the start cell x = 0, y = 0 is Restricted (ERG), every
other cell is Open (REG). -/
def ergStartMap : t_map :=
  { soils := fun y x => if x = 0 ∧ y = 0 then .ERG else .REG
    costs := fun _ _ => 1
    x_max := 100
    y_max := 100 }

/-- A 100x100 map of cells of cost 1: the start cell x = 0, y = 0 is Open (REG), every other
cell is Restricted (ERG). -/
def regStartMap : t_map :=
  { soils := fun y x => if x = 0 ∧ y = 0 then .REG else .ERG
    costs := fun _ _ => 1
    x_max := 100
    y_max := 100 }

/-- A 100x100 map of Open (REG) cells of cost 1 with one Goal cell at x = 50, y = 50. -/
def farGoalMap : t_map :=
  { soils := fun y x => if x = 50 ∧ y = 50 then .BASE_STATION else .REG
    costs := fun _ _ => 1
    x_max := 100
    y_max := 100 }

/-- A `loc_init` that stores its arguments: x, y and the orientation. -/
def demoLocInit (x y : Int) (ori : t_orientation) : t_localisation := ⟨⟨x, y⟩, ori⟩

/-! ## Properties of the build -/

theorem MoveEq.refl (a : t_node) : MoveEq a a :=
  ⟨rfl, a.info.movement, rfl⟩

theorem setMoves_length (rm : Nat → Int) :
    ∀ (l : List t_node) (k i : Nat), (setMoves rm l k i).length = l.length := by
  intro l
  induction l with
  | nil => intro k i; simp [setMoves]
  | cons x xs ih =>
    intro k i
    cases k with
    | zero => simp [setMoves]
    | succ k =>
      cases x with
      | mk ch info => simp [setMoves, ih]

theorem setMoves_getElem (rm : Nat → Int) :
    ∀ (l : List t_node) (k i j : Nat) (c : t_node), (setMoves rm l k i)[j]? = some c →
      ∃ c0, l[j]? = some c0 ∧ MoveEq c0 c := by
  intro l
  induction l with
  | nil => intro k i j c h; simp [setMoves] at h
  | cons x xs ih =>
    intro k i j c h
    cases k with
    | zero =>
      simp only [setMoves] at h
      exact ⟨c, h, MoveEq.refl c⟩
    | succ k =>
      cases x with
      | mk ch info =>
        simp only [setMoves] at h
        cases j with
        | zero =>
          simp only [List.getElem?_cons_zero, Option.some.injEq] at h
          subst h
          exact ⟨.mk ch info, by simp, rfl, rm i, rfl⟩
        | succ j =>
          simp only [List.getElem?_cons_succ] at h
          obtain ⟨c0, h0, hm⟩ := ih k (i + 1) j c h
          exact ⟨c0, by simpa using h0, hm⟩

theorem assignRandomMove_some (E : BuildEnv) (l : List t_node) (info : t_info) (st : BuildState) :
    ∃ l1 : List t_node, (assignRandomMove E (.mk (some l) info) st).1 = .mk (some l1) info ∧
      l1.length = l.length ∧
      ∀ (j : Nat) (c : t_node), l1[j]? = some c → ∃ c0, l[j]? = some c0 ∧ MoveEq c0 c := by
  simp only [assignRandomMove, t_node.info, t_node.children]
  cases h : E.getRandomMoves st.calls (5 * info.num_children) with
  | none => exact ⟨l, rfl, rfl, fun j c hc => ⟨c, hc, MoveEq.refl c⟩⟩
  | some rm =>
    exact ⟨setMoves rm l info.num_children.toNat 0, rfl, setMoves_length rm l _ _,
      fun j c hc => setMoves_getElem rm l _ _ j c hc⟩

theorem assignRandomMove_none (E : BuildEnv) (info : t_info) (st : BuildState) :
    (assignRandomMove E (.mk none info) st).1 = .mk none info := by
  simp only [assignRandomMove, t_node.info, t_node.children]
  cases E.getRandomMoves st.calls (5 * info.num_children) <;> rfl

theorem buildLoop_inv (E : BuildEnv)
    (build : t_node → BuildState → Option (t_node × BuildState)) (Pre Post : t_node → Prop)
    (hPre : ∀ a b, MoveEq a b → Pre a → Pre b) (hPost : ∀ a b, MoveEq a b → Post a → Post b)
    (hbuild : ∀ c st, Pre c → ∃ c' st', build c st = some (c', st') ∧ Post c') :
    ∀ (todo i : Nat) (l : List t_node) (info : t_info) (st : BuildState),
      l.length = i + todo →
      (∀ (j : Nat) (c : t_node), l[j]? = some c → (j < i → Post c) ∧ (i ≤ j → Pre c)) →
      ∃ l' st', buildLoop E build todo i (.mk (some l) info) st = some (.mk (some l') info, st') ∧
        l'.length = l.length ∧ ∀ c ∈ l', Post c := by
  intro todo
  induction todo with
  | zero =>
    intro i l info st hlen hinv
    refine ⟨l, st, by simp [buildLoop], rfl, ?_⟩
    intro c hc
    obtain ⟨j, hj, hjc⟩ := List.getElem_of_mem hc
    have : l[j]? = some c := by rw [List.getElem?_eq_getElem hj, hjc]
    exact (hinv j c this).1 (by omega)
  | succ todo ih =>
    intro i l info st hlen hinv
    obtain ⟨l1, h1, hlen1, hmv⟩ := assignRandomMove_some E l info st
    have hi : i < l1.length := by omega
    have hc1 : l1[i]? = some (l1[i]) := List.getElem?_eq_getElem hi
    obtain ⟨c0, hc0, hm0⟩ := hmv i _ hc1
    have hpre : Pre l1[i] := hPre _ _ hm0 ((hinv i c0 hc0).2 (le_refl i))
    obtain ⟨c', st', hb, hpost⟩ := hbuild l1[i] (assignRandomMove E (.mk (some l) info) st).2 hpre
    have hrec := ih (i + 1) (l1.set i c') info st' (by simp; omega) (by
      intro j c hj
      rw [List.getElem?_set] at hj
      by_cases hij : i = j
      · subst hij
        simp [hi] at hj
        subst hj
        exact ⟨fun _ => hpost, fun h => by omega⟩
      · simp [hij] at hj
        obtain ⟨d0, hd0, hmd⟩ := hmv j c hj
        have := hinv j d0 hd0
        exact ⟨fun h => hPost _ _ hmd (this.1 (by omega)), fun h => hPre _ _ hmd (this.2 (by omega))⟩)
    obtain ⟨l', st'', hl', hlen', hall⟩ := hrec
    refine ⟨l', st'', ?_, by simpa [hlen1] using hlen', hall⟩
    simp only [buildLoop, h1, t_node.children, t_node.info, hc1, hb]
    exact hl'

theorem createLoop_length (E : BuildEnv) (parent : t_info) :
    ∀ (k : Nat) (num : Int), (createLoop E parent k num).length = k := by
  intro k
  induction k with
  | zero => intro num; rfl
  | succ k ih => intro num; simp [createLoop, ih]

theorem createLoop_mem (E : BuildEnv) (parent : t_info) :
    ∀ (k : Nat) (num : Int) (c : t_node), c ∈ createLoop E parent k num →
      ∃ v, c = newChild E parent v := by
  intro k
  induction k with
  | zero => intro num c h; simp [createLoop] at h
  | succ k ih =>
    intro num c h
    simp only [createLoop, List.mem_cons] at h
    rcases h with h | h
    · exact ⟨num, h⟩
    · exact ih (num + 1) c h

theorem Built.moveEq {m : Int} {a b : t_node} (hab : MoveEq a b) (h : Built m a) : Built m b := by
  obtain ⟨hch, mv, hinfo⟩ := hab
  cases b with
  | mk chb infob =>
    simp only [t_node.children, t_node.info] at hch hinfo
    cases h with
    | leaf info hz hn =>
      simp only [t_node.children, t_node.info] at hch hinfo
      subst hch hinfo
      exact Built.leaf _ hz hn
    | failed info hz hn hneg =>
      simp only [t_node.children, t_node.info] at hch hinfo
      subst hch hinfo
      exact Built.failed _ hz hn hneg
    | node info l hz hn hpos hlen hnc hall =>
      simp only [t_node.children, t_node.info] at hch hinfo
      subst hch hinfo
      exact Built.node _ l hz hn hpos hlen hnc hall

/-- With a recursion bound above the node's `num_children`, `buildTree` returns, and
returns a built tree whose root record is the one it was given. -/
theorem buildTreeAux_built (E : BuildEnv) (m : Int) :
    ∀ (fuel : Nat) (info : t_info) (st : BuildState), Zeroed info →
      info.num_children.toNat < fuel →
      ∃ t st', buildTreeAux E m fuel (.mk none info) st = some (t, st') ∧ Built m t ∧
        t.info = info := by
  intro fuel
  induction fuel with
  | zero => intro info st _ h; omega
  | succ fuel ih =>
    intro info st hz hfuel
    by_cases hstop : info.num_children = m - 1
    · exact ⟨.mk none info, st, by simp [buildTreeAux, t_node.info, hstop], Built.leaf info hz hstop, rfl⟩
    · by_cases hneg : info.num_children < 0
      · have h0 : info.num_children.toNat = 0 := by omega
        exact ⟨.mk none info, { st with num := st.num },
          by simp [buildTreeAux, t_node.info, hstop, createChildren, hneg, h0, buildLoop],
          Built.failed info hz hstop hneg, rfl⟩
      · by_cases hzero : info.num_children.toNat = 0
        · exact ⟨.mk (some []) info, { st with num := st.num + info.num_children },
            by simp [buildTreeAux, t_node.info, hstop, createChildren, hneg, hzero, buildLoop, createLoop],
            Built.node info [] hz hstop (by omega) (by simp [hzero]) (by simp) (by simp), rfl⟩
        · have hloop := buildLoop_inv E (buildTreeAux E m fuel)
            (fun c => c.children = none ∧ Zeroed c.info ∧
              c.info.num_children = info.num_children - 1)
            (fun c => Built m c ∧ c.info.num_children = info.num_children - 1)
            (by
              rintro a b ⟨hch, mv, hinfo⟩ ⟨h1, h2, h3⟩
              refine ⟨by rw [hch, h1], ?_, by rw [hinfo]; exact h3⟩
              rw [hinfo]; exact h2)
            (by
              rintro a b hab ⟨h1, h2⟩
              refine ⟨h1.moveEq hab, ?_⟩
              obtain ⟨_, mv, hinfo⟩ := hab
              rw [hinfo]; exact h2)
            (by
              rintro ⟨ch, ci⟩ st1 ⟨h1, h2, h3⟩
              simp only [t_node.children, t_node.info] at h1 h2 h3
              subst h1
              obtain ⟨t, st', ht, hb, hi⟩ := ih ci st1 h2 (by omega)
              exact ⟨t, st', ht, hb, by rw [hi]; exact h3⟩)
            info.num_children.toNat 0 (createLoop E info info.num_children.toNat st.num) info
            { st with num := st.num + info.num_children }
            (by simp [createLoop_length])
            (by
              intro j c hj
              refine ⟨fun h => by omega, fun _ => ?_⟩
              obtain ⟨v, hv⟩ := createLoop_mem E info _ _ c (List.getElem?_mem hj)
              subst hv
              exact ⟨rfl, ⟨rfl, rfl, rfl⟩, rfl⟩)
          obtain ⟨l', st', hl', hlen', hall⟩ := hloop
          refine ⟨.mk (some l') info, st', ?_, ?_, rfl⟩
          · simp only [buildTreeAux, t_node.info, hstop, createChildren, hneg, if_false]
            exact hl'
          · exact Built.node info l' hz hstop (by omega)
              (by rw [hlen', createLoop_length]) (fun c hc => (hall c hc).2)
              (fun c hc => (hall c hc).1)

/-- `buildTree` on the root made by `initializeTree` returns a built tree, for every pair of
parameters. -/
theorem buildTree_built (E : BuildEnv) (n m : Int) (st : BuildState) :
    ∃ t st', buildTree E (initializeTree E n) m st = some (t, st') ∧ Built m t ∧
      t.info = (initializeTree E n).info :=
  buildTreeAux_built E m _ _ st ⟨rfl, rfl, rfl⟩ (Nat.lt_succ_self _)

theorem nodesAtDepthList_const (d v : Nat) :
    ∀ l : List t_node, (∀ c ∈ l, nodesAtDepth c d = v) → nodesAtDepthList l d = l.length * v := by
  intro l
  induction l with
  | nil => intro _; simp [nodesAtDepthList]
  | cons x xs ih =>
    intro h
    simp only [nodesAtDepthList, List.length_cons]
    rw [h x (List.mem_cons_self _ _), ih (fun c hc => h c (List.mem_cons_of_mem _ hc))]
    ring

/-- Level sizes of a built tree whose root is `k` levels above the stop count `m - 1`. -/
theorem Built.count {m : Int} (hm : 1 ≤ m) {t : t_node} (h : Built m t) :
    ∀ (k : Nat), t.info.num_children = m - 1 + k → ∀ d : Nat,
      nodesAtDepth t d = if d ≤ k then Nat.descFactorial t.info.num_children.toNat d else 0 := by
  induction h with
  | leaf info hz hn =>
    intro k hk d
    simp only [t_node.info] at hk ⊢
    have hk0 : k = 0 := by omega
    subst hk0
    cases d with
    | zero => simp [nodesAtDepth]
    | succ d => simp [nodesAtDepth]
  | failed info hz hn hneg =>
    intro k hk d
    simp only [t_node.info] at hk
    omega
  | node info l hz hn hpos hlen hnc hall ih =>
    intro k hk d
    simp only [t_node.info] at hk ⊢
    cases d with
    | zero => simp [nodesAtDepth]
    | succ d =>
      obtain ⟨k', rfl⟩ : ∃ k', k = k' + 1 := ⟨k - 1, by omega⟩
      obtain ⟨a, ha⟩ : ∃ a : Nat, info.num_children = a + 1 := ⟨(info.num_children - 1).toNat, by omega⟩
      have hchild : ∀ c ∈ l, nodesAtDepth c d = if d ≤ k' then Nat.descFactorial a d else 0 := by
        intro c hc
        have h1 := hnc c hc
        have := ih c hc k' (by rw [h1]; push_cast at hk ⊢; omega) d
        rw [this, h1, ha]
        simp
      simp only [nodesAtDepth]
      rw [nodesAtDepthList_const d _ l hchild, hlen, ha]
      have : ((a : Int) + 1).toNat = a + 1 := by omega
      rw [this]
      by_cases hd : d ≤ k'
      · rw [if_pos hd, if_pos (by omega), Nat.succ_descFactorial_succ]
      · rw [if_neg hd, if_neg (by omega), Nat.mul_zero]

/-! ## How traversal rewrites the tree -/

theorem traverseLoop_length (K : Collab) (map : t_map) (par : t_info) :
    ∀ (l : List t_node) (k : Nat) (r : Int), (traverseLoop K map par l k r).length = l.length := by
  intro l
  induction l with
  | nil => intro k r; simp [traverseLoop]
  | cons x xs ih =>
    intro k r
    cases k with
    | zero => simp [traverseLoop]
    | succ k => simp [traverseLoop, ih]

theorem traverseLoop_getElem_lt (K : Collab) (map : t_map) (par : t_info) :
    ∀ (l : List t_node) (k : Nat) (r : Int) (i : Nat) (c : t_node), i < k → l[i]? = some c →
      (traverseLoop K map par l k r)[i]? = some (traverseTree K map (some par) c r) := by
  intro l
  induction l with
  | nil => intro k r i c _ h; simp at h
  | cons x xs ih =>
    intro k r i c hik h
    cases k with
    | zero => omega
    | succ k =>
      cases i with
      | zero =>
        simp only [List.getElem?_cons_zero, Option.some.injEq] at h
        subst h
        simp [traverseLoop]
      | succ i =>
        simp only [List.getElem?_cons_succ] at h
        simp only [traverseLoop, List.getElem?_cons_succ]
        exact ih k r i c (by omega) h

theorem traverseLoop_getElem_ge (K : Collab) (map : t_map) (par : t_info) :
    ∀ (l : List t_node) (k : Nat) (r : Int) (i : Nat), k ≤ i →
      (traverseLoop K map par l k r)[i]? = l[i]? := by
  intro l
  induction l with
  | nil => intro k r i _; simp [traverseLoop]
  | cons x xs ih =>
    intro k r i hki
    cases k with
    | zero => simp [traverseLoop]
    | succ k =>
      cases i with
      | zero => omega
      | succ i =>
        simp only [traverseLoop, List.getElem?_cons_succ]
        exact ih k r i (by omega)

theorem traverseLoop_getElem_none (K : Collab) (map : t_map) (par : t_info)
    (l : List t_node) (k : Nat) (r : Int) (i : Nat) (h : l[i]? = none) :
    (traverseLoop K map par l k r)[i]? = none := by
  rw [List.getElem?_eq_none_iff] at h ⊢
  rw [traverseLoop_length]
  exact h

/-- The record of a node after `traverseTree` is the one computed by `traverseStep`. -/
theorem traverseTree_info (K : Collab) (map : t_map) (parent : Option t_info) (t : t_node)
    (r : Int) :
    (traverseTree K map parent t r).info =
      (traverseStep K map parent t.children.isNone t.info r).1 := by
  cases t with
  | mk ch info =>
    cases ch with
    | none => simp [traverseTree, t_node.info, t_node.children]
    | some l =>
      simp only [traverseTree, t_node.info, t_node.children, Option.isNone_some]
      cases h : traverseStep K map parent false info r with
      | mk info' o =>
        cases o with
        | none => simp [t_node.info]
        | some r' => simp [t_node.info]

/-- When `traverseStep` does not reach the loop, the whole array of children is left as it
was. -/
theorem traverseTree_children_of_stop (K : Collab) (map : t_map) (parent : Option t_info)
    (t : t_node) (r : Int)
    (h : (traverseStep K map parent t.children.isNone t.info r).2 = none) :
    (traverseTree K map parent t r).children = t.children := by
  cases t with
  | mk ch info =>
    cases ch with
    | none => simp [traverseTree, t_node.children]
    | some l =>
      simp only [t_node.info, t_node.children, Option.isNone_some] at h
      simp only [traverseTree, t_node.children]
      cases hs : traverseStep K map parent false info r with
      | mk info' o =>
        rw [hs] at h
        simp only at h
        subst h
        simp [t_node.children]

/-- Within the range of `int` an addition is exact. -/
theorem wrapInt_of_range (v : Int) (h1 : -2147483648 ≤ v) (h2 : v < 2147483648) :
    wrapInt v = v := by
  unfold wrapInt; omega

/-- The value held by an `int` lies in the range of `int`. -/
theorem wrapInt_range (v : Int) : -2147483648 ≤ wrapInt v ∧ wrapInt v < 2147483648 := by
  unfold wrapInt; omega

/-- Two additions that wrap give the sum of the three terms, wrapped once. -/
theorem wrapInt_add_wrapInt (a b : Int) : wrapInt (a + wrapInt b) = wrapInt (a + b) := by
  unfold wrapInt; omega

theorem wrapInt_wrapInt_add (a b : Int) : wrapInt (wrapInt a + b) = wrapInt (a + b) := by
  unfold wrapInt; omega

theorem inherited_cost (map : t_map) (p info : t_info) :
    (inherited map p info).cost = wrapInt (info.cost + (p.cost + costUnder map p.location)) := by
  simp only [inherited, costUnder, wrapInt_add_wrapInt]

theorem validate_base (K : Collab) (map : t_map) (p info : t_info) (r : Int)
    (hs : map.soils p.location.pos.y p.location.pos.x = t_soil.BASE_STATION) :
    validateAndUpdateMove K p info map r =
      (-1, { inherited map p info with is_end := true, found_base := true }, r) := by
  simp [validateAndUpdateMove, hs, inherited]

theorem validate_crevasse (K : Collab) (map : t_map) (p info : t_info) (r : Int)
    (hs : map.soils p.location.pos.y p.location.pos.x = t_soil.CREVASSE) :
    validateAndUpdateMove K p info map r =
      (-1, { inherited map p info with is_end := true }, r) := by
  simp [validateAndUpdateMove, hs, inherited]

theorem validate_reg (K : Collab) (map : t_map) (p info : t_info) (r : Int)
    (hs : map.soils p.location.pos.y p.location.pos.x = t_soil.REG) :
    validateAndUpdateMove K p info map r = (1, inherited map p info, r - 1) := by
  simp [validateAndUpdateMove, hs, inherited]

theorem validate_other (K : Collab) (map : t_map) (p info : t_info) (r : Int)
    (hs : map.soils p.location.pos.y p.location.pos.x = t_soil.OTHER) :
    validateAndUpdateMove K p info map r = (1, inherited map p info, r) := by
  simp [validateAndUpdateMove, hs, inherited]

theorem validate_erg_listed (K : Collab) (map : t_map) (p info : t_info) (r : Int)
    (hs : map.soils p.location.pos.y p.location.pos.x = t_soil.ERG)
    (hm : listedMove K info.movement) :
    validateAndUpdateMove K p info map r = (0, inherited map p info, r) := by
  unfold listedMove at hm
  simp [validateAndUpdateMove, hs, inherited, hm]

theorem validate_erg_unlisted (K : Collab) (map : t_map) (p info : t_info) (r : Int)
    (hs : map.soils p.location.pos.y p.location.pos.x = t_soil.ERG)
    (hm : ¬ listedMove K info.movement) :
    validateAndUpdateMove K p info map r =
      (1, { inherited map p info with movement := info.movement - 1 }, r) := by
  unfold listedMove at hm
  simp [validateAndUpdateMove, hs, inherited, hm]

theorem traverseStep_root (K : Collab) (map : t_map) (nc : Bool) (info : t_info) (r : Int) :
    traverseStep K map none nc info r = boundsCheck K map info r := rfl

/-- `traverseStep` at a node with a parent, by terrain: Goal and Obstacle stop the node;
otherwise the record and budget reached before the tests of tree.c 162-172 are those named
`movedInfo` and `budgetAfter`. -/
theorem traverseStep_some (K : Collab) (map : t_map) (p : t_info) (nc : Bool) (info : t_info)
    (r : Int) :
    traverseStep K map (some p) nc info r =
      if soilUnder map p.location = t_soil.BASE_STATION then
        ({ inherited map p info with is_end := true, found_base := true }, none)
      else if soilUnder map p.location = t_soil.CREVASSE then
        ({ inherited map p info with is_end := true }, none)
      else endTests K map nc (movedInfo K map p info) (budgetAfter map p r) := by
  cases hs : map.soils p.location.pos.y p.location.pos.x with
  | BASE_STATION =>
    simp [traverseStep, validate_base K map p info r hs, soilUnder, hs]
  | CREVASSE =>
    simp [traverseStep, validate_crevasse K map p info r hs, soilUnder, hs]
  | REG =>
    simp [traverseStep, validate_reg K map p info r hs, soilUnder, hs, endTests, movedInfo,
      budgetAfter, inherited]
    ring_nf
  | OTHER =>
    simp [traverseStep, validate_other K map p info r hs, soilUnder, hs, endTests, movedInfo,
      budgetAfter, inherited]
  | ERG =>
    by_cases hm : listedMove K info.movement
    · simp [traverseStep, validate_erg_listed K map p info r hs hm, soilUnder, hs, endTests,
        movedInfo, budgetAfter, hm]
    · simp [traverseStep, validate_erg_unlisted K map p info r hs hm, soilUnder, hs, endTests,
        movedInfo, budgetAfter, hm, inherited]

theorem boundsCheck_num_children (K : Collab) (map : t_map) (info : t_info) (r : Int) :
    (boundsCheck K map info r).1.num_children = info.num_children := by
  unfold boundsCheck; split_ifs <;> rfl

theorem endTests_num_children (K : Collab) (map : t_map) (nc : Bool) (info : t_info) (r : Int) :
    (endTests K map nc info r).1.num_children = info.num_children := by
  unfold endTests; split_ifs
  · rfl
  · exact boundsCheck_num_children K map info r

theorem movedInfo_num_children (K : Collab) (map : t_map) (p info : t_info) :
    (movedInfo K map p info).num_children = info.num_children := by
  unfold movedInfo; split_ifs <;> rfl

theorem traverseStep_num_children (K : Collab) (map : t_map) (par : Option t_info)
    (nc : Bool) (info : t_info) (r : Int) :
    (traverseStep K map par nc info r).1.num_children = info.num_children := by
  cases par with
  | none => exact boundsCheck_num_children K map info r
  | some p =>
    rw [traverseStep_some]
    split_ifs
    · rfl
    · rfl
    · rw [endTests_num_children, movedInfo_num_children]

theorem callAt_nil (K : Collab) (map : t_map) (par : Option t_info) (t : t_node) (r : Int) :
    callAt K map par t r [] = some (par, t, r) := by
  cases t with
  | mk ch info => cases ch <;> simp [callAt]

/-- The call made for a node below the child `i` of a node, spelled out. -/
theorem callAt_cons (K : Collab) (map : t_map) (par : Option t_info) (t : t_node) (r : Int)
    (i : Nat) (p : List Nat) (x : Option t_info × t_node × Int) :
    callAt K map par t r (i :: p) = some x ↔
      ∃ l r' c, t.children = some l ∧
        (traverseStep K map par false t.info r).2 = some r' ∧
        i < t.info.num_children.toNat ∧ l[i]? = some c ∧
        callAt K map (some (traverseStep K map par false t.info r).1) c r' p = some x := by
  cases t with
  | mk ch info =>
    cases ch with
    | none => simp [callAt, t_node.children]
    | some l =>
      simp only [callAt, t_node.children, t_node.info, Option.some.injEq]
      have hnc := traverseStep_num_children K map par false info r
      cases hs : traverseStep K map par false info r with
      | mk info' o =>
        rw [hs] at hnc
        simp only at hnc
        cases o with
        | none => simp
        | some r1 =>
          simp only [hnc]
          by_cases hi : i < info.num_children.toNat
          · simp only [hi, if_true]
            cases hc : l[i]? with
            | none => simp [hc]
            | some c => simp [hc]
          · simp [hi]

theorem nodeAt_cons (t : t_node) (i : Nat) (p : List Nat) (n : t_node) :
    nodeAt t (i :: p) = some n ↔ ∃ l c, t.children = some l ∧ l[i]? = some c ∧ nodeAt c p = some n := by
  cases t with
  | mk ch info =>
    cases ch with
    | none => simp [nodeAt, t_node.children]
    | some l =>
      simp only [nodeAt, t_node.children, Option.some.injEq]
      cases hc : l[i]? with
      | none => simp [hc]
      | some c => simp [hc]

theorem nodeAt_append (p q : List Nat) :
    ∀ t : t_node, nodeAt t (p ++ q) = (nodeAt t p).bind (fun n => nodeAt n q) := by
  induction p with
  | nil => intro t; simp [nodeAt]
  | cons i p ih =>
    intro t
    cases t with
    | mk ch info =>
      cases ch with
      | none => simp [nodeAt]
      | some l =>
        simp only [List.cons_append, nodeAt]
        cases hc : l[i]? with
        | none => simp
        | some c => simpa using ih c

theorem callAt_append (K : Collab) (map : t_map) (p q : List Nat) :
    ∀ (par : Option t_info) (t : t_node) (r : Int),
      callAt K map par t r (p ++ q) =
        (callAt K map par t r p).bind (fun x => callAt K map x.1 x.2.1 x.2.2 q) := by
  induction p with
  | nil => intro par t r; simp [callAt_nil]
  | cons i p ih =>
    intro par t r
    cases t with
    | mk ch info =>
      cases ch with
      | none => simp [callAt]
      | some l =>
        simp only [List.cons_append, callAt]
        cases hs : traverseStep K map par false info r with
        | mk info' o =>
          cases o with
          | none => simp
          | some r1 =>
            simp only
            split_ifs
            · cases hc : l[i]? with
              | none => simp
              | some c => simpa using ih (some info') c r1
            · simp

/-- The node on which a call is made is the node found at that path before traversal. -/
theorem callAt_nodeAt (K : Collab) (map : t_map) (p : List Nat) :
    ∀ (par : Option t_info) (t : t_node) (r : Int) (x : Option t_info × t_node × Int),
      callAt K map par t r p = some x → nodeAt t p = some x.2.1 := by
  induction p with
  | nil =>
    intro par t r x h
    rw [callAt_nil] at h
    cases h
    simp [nodeAt]
  | cons i p ih =>
    intro par t r x h
    obtain ⟨l, r', c, hl, _, _, hc, hrec⟩ := (callAt_cons K map par t r i p x).1 h
    exact (nodeAt_cons t i p x.2.1).2 ⟨l, c, hl, hc, ih _ c r' x hrec⟩

/-- After traversal, the node at a visited path is the result of the call made for it. -/
theorem nodeAt_traverseTree (K : Collab) (map : t_map) (p : List Nat) :
    ∀ (par : Option t_info) (t : t_node) (r : Int) (x : Option t_info × t_node × Int),
      callAt K map par t r p = some x →
      nodeAt (traverseTree K map par t r) p = some (traverseTree K map x.1 x.2.1 x.2.2) := by
  induction p with
  | nil =>
    intro par t r x h
    rw [callAt_nil] at h
    cases h
    simp [nodeAt]
  | cons i p ih =>
    intro par t r x h
    obtain ⟨l, r', c, hl, hr, hi, hc, hrec⟩ := (callAt_cons K map par t r i p x).1 h
    cases t with
    | mk ch info =>
      simp only [t_node.children] at hl
      subst hl
      simp only [t_node.info] at hr hi hrec
      have hnc := traverseStep_num_children K map par false info r
      cases hs : traverseStep K map par false info r with
      | mk info' o =>
        rw [hs] at hr hrec hnc
        simp only at hr hrec hnc
        subst hr
        simp only [traverseTree, hs, nodeAt]
        rw [traverseLoop_getElem_lt K map info' l _ r' i c (by rw [hnc]; exact hi) hc]
        exact ih _ c r' x hrec

/-- Traversal neither adds nor removes nodes, and a node on which no call is made is left
exactly as it was, with everything below it. -/
theorem nodeAt_traverseTree_unvisited (K : Collab) (map : t_map) (p : List Nat) :
    ∀ (par : Option t_info) (t : t_node) (r : Int),
      callAt K map par t r p = none →
      nodeAt (traverseTree K map par t r) p = nodeAt t p := by
  induction p with
  | nil => intro par t r h; rw [callAt_nil] at h; cases h
  | cons i p ih =>
    intro par t r h
    cases t with
    | mk ch info =>
      cases ch with
      | none => simp [traverseTree, nodeAt]
      | some l =>
        have hnc := traverseStep_num_children K map par false info r
        simp only [callAt] at h
        cases hs : traverseStep K map par false info r with
        | mk info' o =>
          rw [hs] at h hnc
          simp only at hnc
          cases o with
          | none => simp [traverseTree, hs, nodeAt]
          | some r1 =>
            simp only [traverseTree, hs, nodeAt]
            simp only at h
            by_cases hi : i < info'.num_children.toNat
            · simp only [hi, if_true] at h
              cases hc : l[i]? with
              | none => rw [traverseLoop_getElem_none K map info' l _ r1 i hc]
              | some c =>
                rw [hc] at h
                rw [traverseLoop_getElem_lt K map info' l _ r1 i c hi hc]
                exact ih _ c r1 h
            · rw [traverseLoop_getElem_ge K map info' l _ r1 i (by omega)]

theorem boundsCheck_fst (K : Collab) (map : t_map) (info : t_info) (r : Int) :
    (boundsCheck K map info r).1 =
      { info with
        is_end := info.is_end || !K.isValidLocalisation info.location.pos map.x_max map.y_max } := by
  unfold boundsCheck
  cases h : K.isValidLocalisation info.location.pos map.x_max map.y_max <;> simp [h]

theorem boundsCheck_snd (K : Collab) (map : t_map) (info : t_info) (r : Int) :
    (boundsCheck K map info r).2 =
      if K.isValidLocalisation info.location.pos map.x_max map.y_max = true then some r
      else none := by
  unfold boundsCheck
  cases h : K.isValidLocalisation info.location.pos map.x_max map.y_max <;> simp [h]

theorem endTests_fst (K : Collab) (map : t_map) (nc : Bool) (info : t_info) (r : Int) :
    (endTests K map nc info r).1 =
      { info with is_end := info.is_end || endMark K map nc info r } := by
  unfold endTests endMark
  by_cases h : r = 0 ∨ nc = true
  · rw [if_pos h]
    rcases h with h | h <;> simp [h]
  · rw [if_neg h, boundsCheck_fst]
    have h1 : ¬ r = 0 := fun e => h (Or.inl e)
    have h2 : nc = false := by cases nc <;> simp_all
    simp [h1, h2]

theorem endTests_snd (K : Collab) (map : t_map) (nc : Bool) (info : t_info) (r : Int) :
    (endTests K map nc info r).2 = if endMark K map nc info r = true then none else some r := by
  unfold endTests endMark
  by_cases h : r = 0 ∨ nc = true
  · rw [if_pos h]
    rcases h with h | h <;> simp [h]
  · rw [if_neg h, boundsCheck_snd]
    have h1 : ¬ r = 0 := fun e => h (Or.inl e)
    have h2 : nc = false := by cases nc <;> simp_all
    cases hv : K.isValidLocalisation info.location.pos map.x_max map.y_max <;> simp [h1, h2, hv]

/-! ## Visited nodes of a freshly built tree -/

theorem built_of_buildTree {E : BuildEnv} {n m : Int} {st st' : BuildState} {t0 : t_node}
    (hb : buildTree E (initializeTree E n) m st = some (t0, st')) :
    Built m t0 ∧ t0.info = (initializeTree E n).info := by
  obtain ⟨t, st1, h, hB, hi⟩ := buildTree_built E n m st
  rw [h] at hb
  cases hb
  exact ⟨hB, hi⟩

theorem Built.fresh {m : Int} {t : t_node} (h : Built m t) : Fresh t := by
  induction h with
  | leaf info hz hn =>
    intro p n hp
    cases p with
    | nil => simp only [nodeAt, Option.some.injEq] at hp; subst hp; exact hz
    | cons i p => simp [nodeAt] at hp
  | failed info hz hn hneg =>
    intro p n hp
    cases p with
    | nil => simp only [nodeAt, Option.some.injEq] at hp; subst hp; exact hz
    | cons i p => simp [nodeAt] at hp
  | node info l hz hn hpos hlen hnc hall ih =>
    intro p n hp
    cases p with
    | nil => simp only [nodeAt, Option.some.injEq] at hp; subst hp; exact hz
    | cons i p =>
      obtain ⟨l', c, hl, hc, hrec⟩ := (nodeAt_cons _ i p n).1 hp
      simp only [t_node.children, Option.some.injEq] at hl
      subst hl
      exact ih c (List.getElem?_mem hc) p n hrec

theorem nodeAt_setLocation_cons (t : t_node) (loc : t_localisation) (i : Nat) (p : List Nat) :
    nodeAt (setLocation t loc) (i :: p) = nodeAt t (i :: p) := by
  cases t with
  | mk ch info => cases ch <;> simp [setLocation, nodeAt, t_node.children]

theorem Fresh.setLocation {t : t_node} (h : Fresh t) (loc : t_localisation) :
    Fresh (setLocation t loc) := by
  intro p n hp
  cases p with
  | nil =>
    simp only [nodeAt, Option.some.injEq] at hp
    subst hp
    exact h [] t (by simp [nodeAt])
  | cons i p =>
    rw [nodeAt_setLocation_cons] at hp
    exact h _ n hp

/-- What a call on the child `i` of the node at `p` tells: the call on the parent reached
its loop, handing over the budget the child receives, and the parent record the child reads
is the one the parent has after traversal. -/
theorem visit_child (K : Collab) (map : t_map) (par0 : Option t_info) (t : t_node) (r0 : Int)
    (p : List Nat) (i : Nat) (x : Option t_info × t_node × Int)
    (hv : callAt K map par0 t r0 (p ++ [i]) = some x) :
    ∃ (y : Option t_info × t_node × Int) (P N : t_node),
      callAt K map par0 t r0 p = some y ∧
      nodeAt (traverseTree K map par0 t r0) p = some P ∧
      nodeAt (traverseTree K map par0 t r0) (p ++ [i]) = some N ∧
      nodeAt t (p ++ [i]) = some x.2.1 ∧
      x.1 = some P.info ∧
      (traverseStep K map y.1 false y.2.1.info y.2.2) = (P.info, some x.2.2) ∧
      N = traverseTree K map (some P.info) x.2.1 x.2.2 ∧
      N.info = (traverseStep K map (some P.info) x.2.1.children.isNone x.2.1.info x.2.2).1 := by
  have hN := nodeAt_traverseTree K map _ par0 t r0 x hv
  have hc := callAt_nodeAt K map _ par0 t r0 x hv
  rw [callAt_append] at hv
  cases hy : callAt K map par0 t r0 p with
  | none => rw [hy] at hv; simp at hv
  | some y =>
    rw [hy] at hv
    simp only [Option.some_bind] at hv
    obtain ⟨l, r', c, hl, hr, hi, hlc, hrec⟩ := (callAt_cons K map _ _ _ i [] x).1 hv
    rw [callAt_nil] at hrec
    cases hrec
    have hP := nodeAt_traverseTree K map p par0 t r0 y hy
    have hPi := traverseTree_info K map y.1 y.2.1 y.2.2
    rw [hl] at hPi
    simp only [Option.isNone_some] at hPi
    refine ⟨y, _, _, rfl, hP, hN, hc, ?_, ?_, ?_, ?_⟩
    · simp only [hPi]
    · rw [hPi]
      exact Prod.ext rfl hr
    · simp only [hPi]
    · simp only
      rw [traverseTree_info, hPi]

theorem movedInfo_cost (K : Collab) (map : t_map) (p info : t_info) :
    (movedInfo K map p info).cost =
      wrapInt (info.cost + (p.cost + costUnder map p.location)) := by
  rw [← inherited_cost]
  unfold movedInfo; split_ifs <;> rfl

theorem movedInfo_is_end (K : Collab) (map : t_map) (p info : t_info) :
    (movedInfo K map p info).is_end = info.is_end := by
  unfold movedInfo; split_ifs <;> rfl

theorem movedInfo_found_base (K : Collab) (map : t_map) (p info : t_info) :
    (movedInfo K map p info).found_base = info.found_base := by
  unfold movedInfo; split_ifs <;> rfl

/-- The record left by `traverseStep` at a node with a parent, when neither Goal nor
Obstacle terrain stops it. -/
theorem traverseStep_some_go (K : Collab) (map : t_map) (p : t_info) (nc : Bool)
    (info : t_info) (r : Int) (h1 : soilUnder map p.location ≠ t_soil.BASE_STATION)
    (h2 : soilUnder map p.location ≠ t_soil.CREVASSE) :
    traverseStep K map (some p) nc info r =
      endTests K map nc (movedInfo K map p info) (budgetAfter map p r) := by
  rw [traverseStep_some, if_neg h1, if_neg h2]

theorem traverseStep_some_cost (K : Collab) (map : t_map) (p : t_info) (nc : Bool)
    (info : t_info) (r : Int) :
    (traverseStep K map (some p) nc info r).1.cost =
      wrapInt (info.cost + (p.cost + costUnder map p.location)) := by
  rw [traverseStep_some]
  split_ifs
  · exact inherited_cost map p info
  · exact inherited_cost map p info
  · rw [endTests_fst]; exact movedInfo_cost K map p info

theorem traverseStep_some_found_base (K : Collab) (map : t_map) (p : t_info) (nc : Bool)
    (info : t_info) (r : Int) :
    (traverseStep K map (some p) nc info r).1.found_base =
      (info.found_base || decide (soilUnder map p.location = t_soil.BASE_STATION)) := by
  rw [traverseStep_some]
  split_ifs with h1 h2
  · simp [h1]
  · simp [h1, inherited]
  · rw [endTests_fst]; simp [h1, movedInfo_found_base]

/-- When the loop over the children is reached, the node's `is_end` flag is as before. -/
theorem traverseStep_continue (K : Collab) (map : t_map) (par : Option t_info) (nc : Bool)
    (info : t_info) (r r' : Int) (h : (traverseStep K map par nc info r).2 = some r') :
    (traverseStep K map par nc info r).1.is_end = info.is_end := by
  cases par with
  | none =>
    rw [traverseStep_root] at h ⊢
    rw [boundsCheck_snd] at h
    rw [boundsCheck_fst]
    split_ifs at h with hv
    simp [hv]
  | some p =>
    rw [traverseStep_some] at h ⊢
    split_ifs at h ⊢ with h1 h2
    rw [endTests_snd] at h
    rw [endTests_fst]
    split_ifs at h with hm
    simp [hm, movedInfo_is_end]

/-- The budget handed to the children by a node with a parent: the budget received minus
2 on REG terrain, minus 1 on any other terrain that does not stop the node. -/
theorem traverseStep_some_snd (K : Collab) (map : t_map) (p : t_info) (nc : Bool)
    (info : t_info) (r r' : Int) (h : (traverseStep K map (some p) nc info r).2 = some r') :
    r' = budgetAfter map p r ∧ soilUnder map p.location ≠ t_soil.BASE_STATION ∧
      soilUnder map p.location ≠ t_soil.CREVASSE ∧ budgetAfter map p r ≠ 0 := by
  rw [traverseStep_some] at h
  split_ifs at h with h1 h2
  rw [endTests_snd] at h
  split_ifs at h with hm
  simp only [Option.some.injEq] at h
  refine ⟨h.symm, h1, h2, ?_⟩
  intro h0
  apply hm
  simp [endMark, h0]

theorem nodeAt_cons_congr {a b : t_node} (h : a.children = b.children) (i : Nat) (p : List Nat) :
    nodeAt a (i :: p) = nodeAt b (i :: p) := by
  cases a with
  | mk cha ia =>
    cases b with
    | mk chb ib =>
      simp only [t_node.children] at h
      subst h
      cases cha <;> simp [nodeAt]

theorem nodeAt_nil (t : t_node) : nodeAt t [] = some t := by
  cases t with
  | mk ch info => cases ch <;> rfl

/-! ## The two path-finding walks -/

mutual
theorem t_node.induct_children (P : t_node → Prop)
    (h : ∀ ch info, (∀ l, ch = some l → ∀ c ∈ l, P c) → P (.mk ch info)) :
    ∀ t, P t
  | .mk none info => h none info (fun l hl => by cases hl)
  | .mk (some l) info =>
    h (some l) info (fun l' hl c hc => by
      cases hl
      exact t_node.induct_list P h l c hc)
theorem t_node.induct_list (P : t_node → Prop)
    (h : ∀ ch info, (∀ l, ch = some l → ∀ c ∈ l, P c) → P (.mk ch info)) :
    ∀ (l : List t_node) (c : t_node), c ∈ l → P c
  | [], c, hc => by cases hc
  | x :: xs, c, hc => by
    rcases List.mem_cons.1 hc with h1 | h1
    · rw [h1]; exact t_node.induct_children P h x
    · exact t_node.induct_list P h xs c h1
end

theorem reach_none (info : t_info) : reach (.mk none info) = [([], .mk none info)] := by
  simp [reach]

theorem reach_some (l : List t_node) (info : t_info) :
    reach (.mk (some l) info) =
      ([], .mk (some l) info) ::
        (if info.is_end = true then [] else reachLoop l info.num_children.toNat 0) := by
  simp [reach]

/-- Membership in the list of a loop: the entry comes from the child at some offset `j`
below the bound, and its path starts with that child's index. -/
theorem mem_reachLoop (p : List Nat) (n : t_node) :
    ∀ (l : List t_node) (k i : Nat),
      (p, n) ∈ reachLoop l k i ↔
        ∃ j q c, p = (i + j) :: q ∧ j < k ∧ l[j]? = some c ∧ (q, n) ∈ reach c := by
  intro l
  induction l with
  | nil => intro k i; simp [reachLoop]
  | cons x xs ih =>
    intro k i
    cases k with
    | zero => simp [reachLoop]
    | succ k =>
      simp only [reachLoop, List.mem_append, List.mem_map, Prod.mk.injEq, Prod.exists, ih]
      constructor
      · rintro (⟨q, n', hq, rfl, rfl⟩ | ⟨j, q, c, rfl, hj, hc, hq⟩)
        · exact ⟨0, q, x, by simp, by omega, by simp, hq⟩
        · exact ⟨j + 1, q, c, by simp; omega, by omega, by simpa using hc, hq⟩
      · rintro ⟨j, q, c, rfl, hj, hc, hq⟩
        cases j with
        | zero =>
          simp only [List.getElem?_cons_zero, Option.some.injEq] at hc
          subst hc
          exact Or.inl ⟨q, n, hq, by simp, rfl⟩
        | succ j =>
          simp only [List.getElem?_cons_succ] at hc
          exact Or.inr ⟨j, q, c, by simp; omega, by omega, hc, hq⟩

/-- The list `reach` holds exactly the nodes reachable under the pruning rule. -/
theorem mem_reach_iff : ∀ (t : t_node) (p : List Nat) (n : t_node),
    (p, n) ∈ reach t ↔ Reachable t p n := by
  intro t
  induction t using t_node.induct_children with
  | h ch info ih =>
    intro p n
    cases ch with
    | none =>
      rw [reach_none]
      constructor
      · intro h
        simp only [List.mem_singleton, Prod.mk.injEq] at h
        obtain ⟨rfl, rfl⟩ := h
        exact Reachable.here _
      · intro h
        cases h
        simp
    | some l =>
      rw [reach_some]
      constructor
      · intro h
        rcases List.mem_cons.1 h with h | h
        · simp only [Prod.mk.injEq] at h
          obtain ⟨rfl, rfl⟩ := h
          exact Reachable.here _
        · by_cases he : info.is_end = true
          · simp [he] at h
          · rw [if_neg he] at h
            obtain ⟨j, q, c, rfl, hj, hc, hq⟩ := (mem_reachLoop p n l _ 0).1 h
            rw [Nat.zero_add]
            exact Reachable.child l info j c q n (by simpa using he) (by omega) hc
              ((ih l rfl c (List.getElem?_mem hc) q n).1 hq)
      · intro h
        cases h with
        | here => exact List.mem_cons_self _ _
        | child _ _ i c q _ he hi hc hr =>
          refine List.mem_cons_of_mem _ ?_
          rw [if_neg (by simp [he])]
          exact (mem_reachLoop _ n l _ 0).2 ⟨i, q, c, by simp, by omega, hc,
            (ih l rfl c (List.getElem?_mem hc) q n).2 hr⟩

/-- The order of the walks is the lexicographic order of the paths: depth-first,
left-to-right pre-order, no node twice. -/
theorem reach_pairwise : ∀ t : t_node,
    (reach t).Pairwise (fun a b => List.Lex (fun x y : Nat => x < y) a.1 b.1) := by
  intro t
  induction t using t_node.induct_children with
  | h ch info ih =>
    cases ch with
    | none => rw [reach_none]; exact List.pairwise_singleton _ _
    | some l =>
      rw [reach_some]
      have hloop : ∀ (l' : List t_node), (∀ c ∈ l', (reach c).Pairwise
          (fun a b => List.Lex (fun x y : Nat => x < y) a.1 b.1)) → ∀ (k i : Nat),
          (reachLoop l' k i).Pairwise (fun a b => List.Lex (fun x y : Nat => x < y) a.1 b.1) := by
        intro l'
        induction l' with
        | nil => intro _ k i; simp [reachLoop]
        | cons x xs ihl =>
          intro hall k i
          cases k with
          | zero => simp [reachLoop]
          | succ k =>
            simp only [reachLoop]
            rw [List.pairwise_append]
            refine ⟨?_, ihl (fun c hc => hall c (List.mem_cons_of_mem _ hc)) k (i + 1), ?_⟩
            · rw [List.pairwise_map]
              exact (hall x (List.mem_cons_self _ _)).imp (fun h => List.Lex.cons h)
            · intro a ha b hb
              obtain ⟨e, _, rfl⟩ := List.mem_map.1 ha
              obtain ⟨pb, nb⟩ := b
              obtain ⟨j, q, c, rfl, _, _, _⟩ := (mem_reachLoop pb nb xs k (i + 1)).1 hb
              exact List.Lex.rel (by omega)
      rw [List.pairwise_cons]
      constructor
      · intro b hb
        by_cases he : info.is_end = true
        · simp [he] at hb
        · rw [if_neg he] at hb
          obtain ⟨pb, nb⟩ := b
          obtain ⟨j, q, c, rfl, _, _, _⟩ := (mem_reachLoop pb nb l _ 0).1 hb
          exact List.Lex.nil
      · by_cases he : info.is_end = true
        · simp [he]
        · rw [if_neg he]
          exact hloop l (ih l rfl) _ 0

/-- `findBestPath` is the left fold of `updateBest` over the nodes it looks at. -/
theorem findBestPath_eq_foldl : ∀ (t : t_node) (here : List Nat)
    (best : Option (List Nat × t_node)),
    findBestPath here t best =
      (reach t).foldl (fun b e => updateBest (here ++ e.1) e.2 b) best := by
  intro t
  induction t using t_node.induct_children with
  | h ch info ih =>
    intro here best
    cases ch with
    | none => simp [findBestPath, reach_none]
    | some l =>
      have hloop : ∀ (l' : List t_node), (∀ c ∈ l', ∀ (here : List Nat)
          (best : Option (List Nat × t_node)), findBestPath here c best =
            (reach c).foldl (fun b e => updateBest (here ++ e.1) e.2 b) best) →
          ∀ (k i : Nat) (best : Option (List Nat × t_node)),
          findBestLoop here l' k i best =
            (reachLoop l' k i).foldl (fun b e => updateBest (here ++ e.1) e.2 b) best := by
        intro l'
        induction l' with
        | nil => intro _ k i best; simp [findBestLoop, reachLoop]
        | cons x xs ihl =>
          intro hall k i best
          cases k with
          | zero => simp [findBestLoop, reachLoop]
          | succ k =>
            simp only [findBestLoop, reachLoop, List.foldl_append, List.foldl_map]
            rw [ihl (fun c hc => hall c (List.mem_cons_of_mem _ hc)) k (i + 1),
              hall x (List.mem_cons_self _ _)]
            simp only [List.append_assoc, List.singleton_append]
      rw [reach_some]
      by_cases he : info.is_end = true
      · simp [findBestPath, he]
      · simp only [findBestPath, he, if_false, List.foldl_cons, List.append_nil]
        exact hloop l (ih l rfl) _ 0 _

/-- What a fold of `updateBest` returns: nothing only if it started with nothing and no
entry found the base; otherwise the initial best or an entry that found the base, of cost
at most that of the initial best and of every entry that found the base. -/
theorem foldl_updateBest (here : List Nat) :
    ∀ (L : List (List Nat × t_node)) (b0 : Option (List Nat × t_node)),
      ((L.foldl (fun b e => updateBest (here ++ e.1) e.2 b) b0 = none ↔
          b0 = none ∧ ∀ e ∈ L, e.2.info.found_base = false) ∧
        ∀ r, L.foldl (fun b e => updateBest (here ++ e.1) e.2 b) b0 = some r →
          (b0 = some r ∨ ∃ e ∈ L, r = (here ++ e.1, e.2) ∧ e.2.info.found_base = true) ∧
          (∀ b, b0 = some b → r.2.info.cost ≤ b.2.info.cost) ∧
          ∀ e ∈ L, e.2.info.found_base = true → r.2.info.cost ≤ e.2.info.cost) := by
  intro L
  induction L with
  | nil =>
    intro b0
    refine ⟨⟨fun h => ⟨h, fun e he => by cases he⟩, fun h => h.1⟩, ?_⟩
    intro r hr
    refine ⟨Or.inl hr, ?_, fun e he => by cases he⟩
    intro b hb
    have hr' : b0 = some r := hr
    rw [hr'] at hb
    cases hb
    exact le_refl _
  | cons e L ih =>
    intro b0
    simp only [List.foldl_cons]
    obtain ⟨ih1, ih2⟩ := ih (updateBest (here ++ e.1) e.2 b0)
    by_cases hf : e.2.info.found_base = true
    · cases b0 with
      | none =>
        have hu : updateBest (here ++ e.1) e.2 none = some (here ++ e.1, e.2) := by
          simp [updateBest, hf]
        rw [hu] at ih1 ih2 ⊢
        constructor
        · constructor
          · intro h; exact absurd (ih1.1 h).1 (by simp)
          · rintro ⟨_, h⟩
            have := h e (List.mem_cons_self _ _)
            rw [hf] at this
            cases this
        · intro r hr
          obtain ⟨h1, h2, h3⟩ := ih2 r hr
          refine ⟨Or.inr ?_, (fun b hb => by cases hb), ?_⟩
          · rcases h1 with h1 | ⟨e', he', hr', hf'⟩
            · exact ⟨e, List.mem_cons_self _ _, (Option.some.inj h1).symm, hf⟩
            · exact ⟨e', List.mem_cons_of_mem _ he', hr', hf'⟩
          · intro e' he' hf'
            rcases List.mem_cons.1 he' with rfl | he'
            · exact h2 (here ++ e'.1, e'.2) rfl
            · exact h3 e' he' hf'
      | some b =>
        by_cases hlt : e.2.info.cost < b.2.info.cost
        · have hu : updateBest (here ++ e.1) e.2 (some b) = some (here ++ e.1, e.2) := by
            simp [updateBest, hf, hlt]
          rw [hu] at ih1 ih2 ⊢
          constructor
          · constructor
            · intro h; exact absurd (ih1.1 h).1 (by simp)
            · rintro ⟨h, _⟩; cases h
          · intro r hr
            obtain ⟨h1, h2, h3⟩ := ih2 r hr
            have hre : r.2.info.cost ≤ e.2.info.cost := h2 (here ++ e.1, e.2) rfl
            refine ⟨Or.inr ?_, ?_, ?_⟩
            · rcases h1 with h1 | ⟨e', he', hr', hf'⟩
              · exact ⟨e, List.mem_cons_self _ _, (Option.some.inj h1).symm, hf⟩
              · exact ⟨e', List.mem_cons_of_mem _ he', hr', hf'⟩
            · intro b' hb'
              cases hb'
              omega
            · intro e' he' hf'
              rcases List.mem_cons.1 he' with rfl | he'
              · exact hre
              · exact h3 e' he' hf'
        · have hu : updateBest (here ++ e.1) e.2 (some b) = some b := by
            simp [updateBest, hf, hlt]
          rw [hu] at ih1 ih2 ⊢
          constructor
          · constructor
            · intro h; exact absurd (ih1.1 h).1 (by simp)
            · rintro ⟨h, _⟩; cases h
          · intro r hr
            obtain ⟨h1, h2, h3⟩ := ih2 r hr
            have hrb : r.2.info.cost ≤ b.2.info.cost := h2 b rfl
            refine ⟨?_, ?_, ?_⟩
            · rcases h1 with h1 | ⟨e', he', hr', hf'⟩
              · exact Or.inl h1
              · exact Or.inr ⟨e', List.mem_cons_of_mem _ he', hr', hf'⟩
            · intro b' hb'
              cases hb'
              exact hrb
            · intro e' he' hf'
              rcases List.mem_cons.1 he' with rfl | he'
              · omega
              · exact h3 e' he' hf'
    · have hu : updateBest (here ++ e.1) e.2 b0 = b0 := by
        simp [updateBest, hf]
      rw [hu] at ih1 ih2 ⊢
      have hf' : e.2.info.found_base = false := by simpa using hf
      constructor
      · rw [ih1]
        constructor
        · rintro ⟨h0, h⟩
          refine ⟨h0, ?_⟩
          intro e' he'
          rcases List.mem_cons.1 he' with rfl | he'
          · exact hf'
          · exact h e' he'
        · rintro ⟨h0, h⟩
          exact ⟨h0, fun e' he' => h e' (List.mem_cons_of_mem _ he')⟩
      · intro r hr
        obtain ⟨h1, h2, h3⟩ := ih2 r hr
        refine ⟨?_, h2, ?_⟩
        · rcases h1 with h1 | ⟨e', he', hr', hfe⟩
          · exact Or.inl h1
          · exact Or.inr ⟨e', List.mem_cons_of_mem _ he', hr', hfe⟩
        · intro e' he' hfe
          rcases List.mem_cons.1 he' with rfl | he'
          · exact absurd hfe hf
          · exact h3 e' he' hfe

theorem info_mk (ch : Option (List t_node)) (info : t_info) : (t_node.mk ch info).info = info :=
  rfl

theorem ancestorsAt_nil (t : t_node) : ancestorsAt t [] = [] := by
  cases t with
  | mk ch info => cases ch <;> rfl

theorem ancestorsAt_cons (l : List t_node) (info : t_info) (i : Nat) (q : List Nat)
    (c : t_node) (h : l[i]? = some c) :
    ancestorsAt (.mk (some l) info) (i :: q) = ancestorsAt c q ++ [info] := by
  simp [ancestorsAt, h]

/-- `findPath` prints one block for each node it looks at that found the base, in the
order of the walk, with the table of the node's ancestors. -/
theorem findPath_eq_map : ∀ (t : t_node) (anc : List t_info),
    findPath anc t =
      ((reach t).filter (fun e => e.2.info.found_base)).map (fun e =>
        { arrival := e.2.info.location, path := printPath (ancestorsAt t e.1 ++ anc),
          cost := e.2.info.cost }) := by
  intro t
  induction t using t_node.induct_children with
  | h ch info ih =>
    intro anc
    cases ch with
    | none =>
      rw [reach_none]
      by_cases hf : info.found_base = true
      · simp [findPath, hf, info_mk, ancestorsAt_nil]
      · simp [findPath, hf, info_mk]
    | some l0 =>
      have hloop : ∀ (l : List t_node) (k i : Nat), (∀ j : Nat, l[j]? = l0[i + j]?) →
          (∀ c ∈ l, ∀ (anc : List t_info), findPath anc c =
            ((reach c).filter (fun e => e.2.info.found_base)).map (fun e =>
              { arrival := e.2.info.location, path := printPath (ancestorsAt c e.1 ++ anc),
                cost := e.2.info.cost })) →
          findPathLoop (info :: anc) l k =
            ((reachLoop l k i).filter (fun e => e.2.info.found_base)).map (fun e =>
              { arrival := e.2.info.location,
                path := printPath (ancestorsAt (.mk (some l0) info) e.1 ++ anc),
                cost := e.2.info.cost }) := by
        intro l
        induction l with
        | nil => intro k i _ _; simp [findPathLoop, reachLoop]
        | cons x xs ihl =>
          intro k i hidx hall
          cases k with
          | zero => simp [findPathLoop, reachLoop]
          | succ k =>
            have hx : l0[i]? = some x := by
              have := hidx 0
              simpa using this.symm
            simp only [findPathLoop, reachLoop, List.filter_append, List.map_append,
              List.filter_map, List.map_map]
            rw [ihl k (i + 1) (fun j => by
                have := hidx (j + 1)
                rw [List.getElem?_cons_succ] at this
                rw [this]
                congr 1
                omega)
              (fun c hc => hall c (List.mem_cons_of_mem _ hc)),
              hall x (List.mem_cons_self _ _)]
            congr 1
            apply List.map_congr_left
            intro e _
            simp [ancestorsAt_cons l0 info i e.1 x hx]
      have hl := hloop l0 info.num_children.toNat 0 (fun j => by rw [Nat.zero_add]) (ih l0 rfl)
      rw [reach_some]
      cases hf : info.found_base <;> cases he : info.is_end <;>
        simp [findPath, hf, he, info_mk, ancestorsAt_nil, hl]

theorem printPath_length : ∀ chain : List t_info, (printPath chain).length = chain.length := by
  intro chain
  induction chain with
  | nil => rfl
  | cons a rest ih => simp [printPath, ih]

/-- The chain of ancestors of an existing node has one record per level above it. -/
theorem ancestorsAt_length : ∀ (p : List Nat) (t n : t_node), nodeAt t p = some n →
    (ancestorsAt t p).length = p.length := by
  intro p
  induction p with
  | nil => intro t n _; rw [ancestorsAt_nil]; rfl
  | cons i q ih =>
    intro t n h
    obtain ⟨l, c, hl, hc, hrec⟩ := (nodeAt_cons t i q n).1 h
    cases t with
    | mk ch info =>
      simp only [t_node.children] at hl
      subst hl
      rw [ancestorsAt_cons l info i q c hc]
      simp [ih c n hrec]

theorem Reachable.nodeAt {t : t_node} {p : List Nat} {n : t_node} (h : Reachable t p n) :
    nodeAt t p = some n := by
  induction h with
  | here t => exact nodeAt_nil t
  | child l info i c p n _ _ hc _ ih => simp [RoverRun.nodeAt, hc, ih]

/-! ## Further properties of the path-finding walks -/

theorem printPath_cons (node : t_info) (ancestors : List t_info) :
    printPath (node :: ancestors) =
      printPath ancestors ++ [if ancestors = [] then startRow node else stepRow node] := rfl

/-- `printPath` on a non-empty chain: the line of the root, then the lines of the other
nodes, from the one below the root to the node the chain starts from. -/
theorem printPath_reverse : ∀ (chain : List t_info) (root : t_info) (rest : List t_info),
    chain.reverse = root :: rest → printPath chain = startRow root :: rest.map stepRow := by
  intro chain
  induction chain with
  | nil => intro root rest h; simp at h
  | cons a anc ih =>
    intro root rest h
    rw [printPath_cons]
    rw [List.reverse_cons] at h
    cases hanc : anc.reverse with
    | nil =>
      have hnil : anc = [] := by simpa using hanc
      subst hnil
      simp only [List.reverse_nil, List.nil_append, List.cons.injEq] at h
      obtain ⟨rfl, rfl⟩ := h
      simp [printPath]
    | cons r0 rs =>
      rw [hanc] at h
      simp only [List.cons_append, List.cons.injEq] at h
      obtain ⟨rfl, rfl⟩ := h
      have hne : anc ≠ [] := by
        intro e
        rw [e] at hanc
        simp at hanc
      rw [ih r0 rs hanc, if_neg hne]
      simp

theorem updateBest_none (here : List Nat) (node : t_node) :
    updateBest here node none = if node.info.found_base = true then some (here, node) else none := by
  unfold updateBest
  split_ifs <;> rfl

/-- The one way in which `updateBest` changes a best that is already set: the node has found
the base and its cost is strictly smaller. -/
theorem updateBest_some (here : List Nat) (node : t_node) (b : List Nat × t_node) :
    updateBest here node (some b) =
      if node.info.found_base = true ∧ node.info.cost < b.2.info.cost then some (here, node)
      else some b := by
  unfold updateBest
  by_cases hf : node.info.found_base = true
  · by_cases hc : node.info.cost < b.2.info.cost
    · simp [hf, hc]
    · simp [hf, hc]
  · simp [hf]

/-- Where the result of a fold of `updateBest` comes from: either it is the initial best,
which no entry beat, or it is an entry that found the base, strictly cheaper than the
initial best and than every earlier entry that found the base, and at most as expensive as
every later one. -/
theorem foldl_updateBest_first (here : List Nat) :
    ∀ (L : List (List Nat × t_node)) (b0 : Option (List Nat × t_node)) (r : List Nat × t_node),
      L.foldl (fun b e => updateBest (here ++ e.1) e.2 b) b0 = some r →
      (b0 = some r ∧ ∀ e ∈ L, e.2.info.found_base = true → r.2.info.cost ≤ e.2.info.cost) ∨
      ∃ L1 e L2, L = L1 ++ e :: L2 ∧ r = (here ++ e.1, e.2) ∧ e.2.info.found_base = true ∧
        (∀ b, b0 = some b → e.2.info.cost < b.2.info.cost) ∧
        (∀ e' ∈ L1, e'.2.info.found_base = true → e.2.info.cost < e'.2.info.cost) ∧
        ∀ e' ∈ L2, e'.2.info.found_base = true → e.2.info.cost ≤ e'.2.info.cost := by
  intro L
  induction L with
  | nil =>
    intro b0 r h
    exact Or.inl ⟨h, fun e he => by cases he⟩
  | cons e0 L ih =>
    intro b0 r h
    simp only [List.foldl_cons] at h
    -- the best after the first entry, and how it compares with what came before
    have hstep : (updateBest (here ++ e0.1) e0.2 b0 = b0 ∧
          (e0.2.info.found_base = true → ∀ b, b0 = some b → b.2.info.cost ≤ e0.2.info.cost) ∧
          (e0.2.info.found_base = true → b0 ≠ none)) ∨
        (updateBest (here ++ e0.1) e0.2 b0 = some (here ++ e0.1, e0.2) ∧
          e0.2.info.found_base = true ∧
          ∀ b, b0 = some b → e0.2.info.cost < b.2.info.cost) := by
      cases b0 with
      | none =>
        rw [updateBest_none]
        by_cases hf : e0.2.info.found_base = true
        · exact Or.inr ⟨by rw [if_pos hf], hf, fun b hb => by cases hb⟩
        · exact Or.inl ⟨by rw [if_neg hf], fun h' => absurd h' hf, fun h' => absurd h' hf⟩
      | some b =>
        rw [updateBest_some]
        by_cases hc : e0.2.info.found_base = true ∧ e0.2.info.cost < b.2.info.cost
        · refine Or.inr ⟨by rw [if_pos hc], hc.1, ?_⟩
          intro b' hb'
          cases hb'
          exact hc.2
        · refine Or.inl ⟨by rw [if_neg hc], ?_, fun _ => by simp⟩
          intro hf b' hb'
          cases hb'
          by_contra hlt
          exact hc ⟨hf, by omega⟩
    rcases hstep with ⟨hu, hle, hnn⟩ | ⟨hu, hf0, hlt⟩
    · rw [hu] at h
      rcases ih b0 r h with ⟨hb, hall⟩ | ⟨L1, e, L2, hL, hr, hf, hb, h1, h2⟩
      · refine Or.inl ⟨hb, ?_⟩
        intro e' he' hf'
        rcases List.mem_cons.1 he' with rfl | he'
        · exact hle hf' r hb
        · exact hall e' he' hf'
      · refine Or.inr ⟨e0 :: L1, e, L2, by rw [hL]; rfl, hr, hf, hb, ?_, h2⟩
        intro e' he' hf'
        rcases List.mem_cons.1 he' with rfl | he'
        · cases hb0 : b0 with
          | none => exact absurd hb0 (hnn hf')
          | some b =>
            have := hle hf' b hb0
            have := hb b hb0
            omega
        · exact h1 e' he' hf'
    · rw [hu] at h
      rcases ih _ r h with ⟨hb, hall⟩ | ⟨L1, e, L2, hL, hr, hf, hb, h1, h2⟩
      · cases hb
        exact Or.inr ⟨[], e0, L, rfl, rfl, hf0, hlt, (fun e' he' => by cases he'), hall⟩
      · refine Or.inr ⟨e0 :: L1, e, L2, by rw [hL]; rfl, hr, hf, ?_, ?_, h2⟩
        · intro b hb0
          have := hlt b hb0
          have := hb (here ++ e0.1, e0.2) rfl
          simp only at this
          omega
        · intro e' he' hf'
          rcases List.mem_cons.1 he' with rfl | he'
          · exact hb (here ++ e'.1, e'.2) rfl
          · exact h1 e' he' hf'

/-- What `findBestPath` returns from an empty best: a reachable node that found the base, of
cost at most that of every reachable node that found the base. -/
theorem findBestPath_some_spec (root : t_node) (p : List Nat) (n : t_node)
    (h : findBestPath [] root none = some (p, n)) :
    Reachable root p n ∧ n.info.found_base = true ∧
      ∀ q k, Reachable root q k → k.info.found_base = true → n.info.cost ≤ k.info.cost := by
  rw [findBestPath_eq_foldl] at h
  obtain ⟨hsrc, _, hmin⟩ := (foldl_updateBest [] (reach root) none).2 (p, n) h
  rcases hsrc with h0 | ⟨e, he, heq, hf⟩
  · cases h0
  · simp only [List.nil_append, Prod.mk.injEq] at heq
    obtain ⟨rfl, rfl⟩ := heq
    exact ⟨(mem_reach_iff root e.1 e.2).1 he, hf,
      fun q k hr hk => hmin (q, k) ((mem_reach_iff root q k).2 hr) hk⟩

/-- Among the reachable nodes that found the base, the one returned by `findBestPath` is
strictly cheaper than each one met before it, and at most as expensive as each one met
after it. -/
theorem findBestPath_first (root : t_node) (p : List Nat) (n : t_node)
    (h : findBestPath [] root none = some (p, n)) (q : List Nat) (k : t_node)
    (hr : Reachable root q k) (hk : k.info.found_base = true) :
    (List.Lex (fun x y : Nat => x < y) q p → n.info.cost < k.info.cost) ∧
    (¬ List.Lex (fun x y : Nat => x < y) q p → q = p ∨ List.Lex (fun x y : Nat => x < y) p q) := by
  rw [findBestPath_eq_foldl] at h
  rcases foldl_updateBest_first [] (reach root) none (p, n) h with ⟨h0, _⟩ |
    ⟨L1, e, L2, hL, hr', hf, _, h1, h2⟩
  · cases h0
  · simp only [List.nil_append, Prod.mk.injEq] at hr'
    obtain ⟨rfl, rfl⟩ := hr'
    have hmem : (q, k) ∈ reach root := (mem_reach_iff root q k).2 hr
    have hpw := reach_pairwise root
    rw [hL, List.pairwise_append] at hpw
    obtain ⟨_, hpw2, hcross⟩ := hpw
    rw [List.pairwise_cons] at hpw2
    have hirr : ∀ a : List Nat, ¬ List.Lex (fun x y : Nat => x < y) a a := by
      intro a
      induction a with
      | nil => intro hh; cases hh
      | cons x xs iha =>
        intro hh
        cases hh with
        | cons h' => exact iha h'
        | rel h' => exact absurd h' (lt_irrefl x)
    have hasymm : ∀ a b : List Nat, List.Lex (fun x y : Nat => x < y) a b →
        ¬ List.Lex (fun x y : Nat => x < y) b a := by
      intro a
      induction a with
      | nil => intro b _ hba; cases hba
      | cons x xs iha =>
        intro b hab hba
        cases hab with
        | cons h' =>
          cases hba with
          | cons h'' => exact iha _ h' h''
          | rel h'' => exact absurd h'' (lt_irrefl x)
        | rel h' =>
          cases hba with
          | cons h'' => exact absurd h' (lt_irrefl x)
          | rel h'' => omega
    rw [hL, List.mem_append, List.mem_cons] at hmem
    rcases hmem with hm | hm | hm
    · refine ⟨fun _ => h1 (q, k) hm hk, fun hn => ?_⟩
      exact absurd (hcross (q, k) hm e (List.mem_cons_self _ _)) hn
    · have hq : q = e.1 := congrArg Prod.fst hm
      refine ⟨fun hlex => ?_, fun _ => Or.inl hq⟩
      rw [hq] at hlex
      exact absurd hlex (hirr _)
    · have hlex : List.Lex (fun x y : Nat => x < y) e.1 q := hpw2.1 (q, k) hm
      exact ⟨fun hqp => absurd hqp (hasymm _ _ hlex), fun _ => Or.inr hlex⟩

/-! ## Further properties of traversal -/

/-- The record of the root after traversal (tree.c 169-172). -/
theorem traverseTree_root_info (K : Collab) (map : t_map) (t : t_node) (B : Int) :
    (traverseTree K map none t B).info =
      { t.info with
        is_end := t.info.is_end ||
          !K.isValidLocalisation t.info.location.pos map.x_max map.y_max } := by
  rw [traverseTree_info, traverseStep_root, boundsCheck_fst]

/-- The cost that traversal gives to a visited node with a parent, on any tree: the sum of
the cost it had, its parent's cost and the cost of the parent's cell, as an `int` holds it. -/
theorem visit_child_cost (K : Collab) (map : t_map) (t : t_node) (B : Int)
    (p : List Nat) (i : Nat) (x : Option t_info × t_node × Int)
    (hv : callAt K map none t B (p ++ [i]) = some x) :
    ∃ P N, nodeAt (traverseTree K map none t B) p = some P ∧
      nodeAt (traverseTree K map none t B) (p ++ [i]) = some N ∧
      N.info.cost =
        wrapInt (x.2.1.info.cost + (P.info.cost + costUnder map P.info.location)) := by
  obtain ⟨y, P, N, _, hP, hN, _, _, _, _, hNi⟩ := visit_child K map none t B p i x hv
  exact ⟨P, N, hP, hN, by rw [hNi, traverseStep_some_cost]⟩

/-- A call on a node is made only after a call on its parent. -/
theorem callAt_prefix (K : Collab) (map : t_map) (par : Option t_info) (t : t_node) (r : Int)
    (p q : List Nat) (x : Option t_info × t_node × Int)
    (h : callAt K map par t r (p ++ q) = some x) :
    ∃ y, callAt K map par t r p = some y := by
  rw [callAt_append] at h
  cases hy : callAt K map par t r p with
  | none => rw [hy] at h; simp at h
  | some y => exact ⟨y, rfl⟩

/-- On a map whose cells all cost `c`, a visited node of a freshly built tree has the cost
that an `int` holds for `c` times its depth. -/
theorem visited_cost_uniform {E : BuildEnv} {n m : Int} {st st' : BuildState} {t0 : t_node}
    (hb : buildTree E (initializeTree E n) m st = some (t0, st'))
    (K : Collab) (map : t_map) (loc : t_localisation) (B c : Int)
    (hmap : ∀ y x, map.costs y x = c) :
    ∀ (p : List Nat) (x : Option t_info × t_node × Int),
      callAt K map none (setLocation t0 loc) B p = some x →
      ∃ N, nodeAt (traverseTree K map none (setLocation t0 loc) B) p = some N ∧
        N.info.cost = wrapInt (c * (p.length : Int)) := by
  have hfresh := ((built_of_buildTree hb).1.fresh).setLocation loc
  intro p
  induction p using List.reverseRecOn with
  | nil =>
    intro x _
    refine ⟨_, nodeAt_nil _, ?_⟩
    rw [traverseTree_root_info]
    have h0 : wrapInt 0 = 0 := by decide
    simpa [h0] using (hfresh [] _ (nodeAt_nil _)).1
  | append_singleton q i ih =>
    intro x hv
    obtain ⟨y, hy⟩ := callAt_prefix K map none _ B q [i] x hv
    obtain ⟨P', hP', hcost⟩ := ih y hy
    obtain ⟨P, N, hP, hN, hc⟩ := visit_child_cost K map _ B q i x hv
    rw [hP'] at hP
    cases hP
    refine ⟨N, hN, ?_⟩
    rw [hc, (hfresh _ _ (callAt_nodeAt K map _ none _ B x hv)).1, hcost, zero_add,
      wrapInt_wrapInt_add]
    simp only [costUnder, hmap, List.length_append, List.length_singleton]
    congr 1
    push_cast
    ring

/-- After traversal of a freshly built tree, a node with `found_base = true` was visited. -/
theorem found_base_visited {E : BuildEnv} {n m : Int} {st st' : BuildState} {t0 : t_node}
    (hb : buildTree E (initializeTree E n) m st = some (t0, st'))
    (K : Collab) (map : t_map) (loc : t_localisation) (B : Int) (p : List Nat) (k : t_node)
    (hk : nodeAt (traverseTree K map none (setLocation t0 loc) B) p = some k)
    (hf : k.info.found_base = true) :
    ∃ x, callAt K map none (setLocation t0 loc) B p = some x := by
  have hfresh := ((built_of_buildTree hb).1.fresh).setLocation loc
  cases hc : callAt K map none (setLocation t0 loc) B p with
  | some x => exact ⟨x, rfl⟩
  | none =>
    rw [nodeAt_traverseTree_unvisited K map p none _ B hc] at hk
    have := (hfresh p k hk).2.2
    rw [hf] at this
    cases this

/-! ## Further properties of the build -/

/-- A node of a built tree is itself built, and is entitled to as many children less than
the root as its depth. -/
theorem Built.node_at {m : Int} : ∀ (p : List Nat) (t node : t_node), Built m t →
    nodeAt t p = some node →
    Built m node ∧ node.info.num_children = t.info.num_children - (p.length : Int) := by
  intro p
  induction p with
  | nil =>
    intro t node hB hn
    rw [nodeAt_nil] at hn
    cases hn
    exact ⟨hB, by simp⟩
  | cons i q ih =>
    intro t node hB hn
    obtain ⟨l, c, hl, hc, hrec⟩ := (nodeAt_cons t i q node).1 hn
    cases hB with
    | leaf info hz hstop => simp [t_node.children] at hl
    | failed info hz hstop hneg => simp [t_node.children] at hl
    | node info l' hz hstop hpos hlen hnc hall =>
      simp only [t_node.children, Option.some.injEq] at hl
      subst hl
      have hmem := List.getElem?_mem hc
      obtain ⟨h1, h2⟩ := ih c node (hall c hmem) hrec
      refine ⟨h1, ?_⟩
      rw [h2, hnc c hmem]
      simp only [info_mk, List.length_cons]
      push_cast
      ring

/-- The shape of a built node, read off its `num_children`. -/
theorem Built.shape {m : Int} {node : t_node} (h : Built m node) :
    Zeroed node.info ∧
    (node.info.num_children = m - 1 → node.children = none) ∧
    (m - 1 < node.info.num_children → 1 ≤ m →
      ∃ l, node.children = some l ∧ (l.length : Int) = node.info.num_children ∧
        ∀ c ∈ l, c.info.num_children = node.info.num_children - 1 ∧ Zeroed c.info ∧
          Built m c) := by
  cases h with
  | leaf info hz hstop => exact ⟨hz, fun _ => rfl, fun hlt _ => by simp only [info_mk] at hlt; omega⟩
  | failed info hz hstop hneg =>
    exact ⟨hz, fun _ => rfl, fun hlt hm => by simp only [info_mk] at hlt; omega⟩
  | node info l hz hstop hpos hlen hnc hall =>
    refine ⟨hz, fun h => absurd h hstop, fun _ _ => ⟨l, rfl, ?_, ?_⟩⟩
    · simp only [info_mk]
      omega
    · intro c hc
      refine ⟨hnc c hc, ?_, hall c hc⟩
      have := (hall c hc).fresh [] c (nodeAt_nil c)
      exact this

/-- Below a root entitled to at least `m - 1` children, no node of a built tree is entitled
to fewer. -/
theorem Built.lower {m : Int} : ∀ (p : List Nat) (t node : t_node), Built m t →
    m - 1 ≤ t.info.num_children → nodeAt t p = some node → m - 1 ≤ node.info.num_children := by
  intro p
  induction p with
  | nil =>
    intro t node _ hle hn
    rw [nodeAt_nil] at hn
    cases hn
    exact hle
  | cons i q ih =>
    intro t node hB hle hn
    obtain ⟨l, c, hl, hc, hrec⟩ := (nodeAt_cons t i q node).1 hn
    cases hB with
    | leaf info hz hstop => simp [t_node.children] at hl
    | failed info hz hstop hneg => simp [t_node.children] at hl
    | node info l' hz hstop hpos hlen hnc hall =>
      simp only [t_node.children, Option.some.injEq] at hl
      subst hl
      have hmem := List.getElem?_mem hc
      refine ih c node (hall c hmem) ?_ hrec
      rw [hnc c hmem]
      simp only [info_mk] at hle
      omega

theorem nodeAt_single (node : t_node) (l : List t_node) (i : Nat)
    (h : node.children = some l) : nodeAt node [i] = l[i]? := by
  cases node with
  | mk ch info =>
    simp only [t_node.children] at h
    subst h
    simp only [nodeAt]
    cases l[i]? <;> rfl

/-- The loop over the children is reached only from a node whose resolved position has
passed the bounds test. -/
theorem traverseStep_loop_valid (K : Collab) (map : t_map) (par : Option t_info) (nc : Bool)
    (info : t_info) (r r' : Int) (h : (traverseStep K map par nc info r).2 = some r') :
    K.isValidLocalisation (traverseStep K map par nc info r).1.location.pos map.x_max map.y_max
      = true := by
  cases par with
  | none =>
    rw [traverseStep_root] at h ⊢
    rw [boundsCheck_snd] at h
    rw [boundsCheck_fst]
    split_ifs at h with hv
    exact hv
  | some p =>
    rw [traverseStep_some] at h ⊢
    split_ifs at h ⊢ with h1 h2
    rw [endTests_snd] at h
    rw [endTests_fst]
    split_ifs at h with hm
    simp only [endMark, Bool.or_eq_true, Bool.not_eq_true', not_or, Bool.not_eq_false] at hm
    exact hm.2

/-- `validateAndUpdateMove` looks at the map only in the cell under the parent's location. -/
theorem validateAndUpdateMove_congr (K : Collab) (map map' : t_map) (p info : t_info) (r : Int)
    (hs : map'.soils p.location.pos.y p.location.pos.x = map.soils p.location.pos.y p.location.pos.x)
    (hc : map'.costs p.location.pos.y p.location.pos.x = map.costs p.location.pos.y p.location.pos.x) :
    validateAndUpdateMove K p info map' r = validateAndUpdateMove K p info map r := by
  simp only [validateAndUpdateMove, hs, hc]

/-! ## A second run of the traversal -/

/-- On terrain other than ERG the move of the node is applied as it is. -/
theorem movedInfo_of_not_erg (K : Collab) (map : t_map) (p info : t_info)
    (h : soilUnder map p.location ≠ t_soil.ERG) :
    movedInfo K map p info =
      { inherited map p info with
        location := K.updateLocalisation p.location info.movement } := by
  unfold movedInfo
  rw [if_neg h]

/-- A second run at the root: the bounds test gives the same record and the same outcome. -/
theorem traverseStep_root_again (K : Collab) (map : t_map) (nc : Bool) (info : t_info)
    (r : Int) :
    traverseStep K map none nc (traverseStep K map none nc info r).1 r =
      traverseStep K map none nc info r := by
  simp only [traverseStep_root, boundsCheck]
  cases hv : K.isValidLocalisation info.location.pos map.x_max map.y_max <;> simp [hv]

/-- A second run at a node with a parent, away from ERG terrain: when the parent stands
where it stood in the first run, the node gets the same record again except for the cost,
to which the parent's cost and the cost of the parent's cell are added once more (in the
arithmetic of `int`), and the same decision about its children. -/
theorem traverseStep_some_again (K : Collab) (map : t_map) (p1 p2 : t_info) (nc : Bool)
    (info : t_info) (r : Int) (hloc : p2.location = p1.location)
    (hs : soilUnder map p1.location ≠ t_soil.ERG) :
    traverseStep K map (some p2) nc (traverseStep K map (some p1) nc info r).1 r =
      ({ (traverseStep K map (some p1) nc info r).1 with
          cost := wrapInt ((traverseStep K map (some p1) nc info r).1.cost +
            (p2.cost + costUnder map p2.location)) },
        (traverseStep K map (some p1) nc info r).2) := by
  have hs2 : soilUnder map p2.location ≠ t_soil.ERG := by rw [hloc]; exact hs
  by_cases h1 : soilUnder map p1.location = t_soil.BASE_STATION
  · have h1' : soilUnder map p2.location = t_soil.BASE_STATION := by rw [hloc]; exact h1
    have e1 : traverseStep K map (some p1) nc info r =
        ({ inherited map p1 info with is_end := true, found_base := true }, none) := by
      rw [traverseStep_some, if_pos h1]
    rw [e1, traverseStep_some, if_pos h1']
    simp [inherited, hloc, costUnder, wrapInt_add_wrapInt]
  · have h1' : soilUnder map p2.location ≠ t_soil.BASE_STATION := by rw [hloc]; exact h1
    by_cases h2 : soilUnder map p1.location = t_soil.CREVASSE
    · have h2' : soilUnder map p2.location = t_soil.CREVASSE := by rw [hloc]; exact h2
      have e1 : traverseStep K map (some p1) nc info r =
          ({ inherited map p1 info with is_end := true }, none) := by
        rw [traverseStep_some, if_neg h1, if_pos h2]
      rw [e1, traverseStep_some, if_neg h1', if_pos h2']
      simp [inherited, hloc, costUnder, wrapInt_add_wrapInt]
    · have h2' : soilUnder map p2.location ≠ t_soil.CREVASSE := by rw [hloc]; exact h2
      have hb : budgetAfter map p2 r = budgetAfter map p1 r := by
        unfold budgetAfter; rw [hloc]
      rw [traverseStep_some_go K map p1 nc info r h1 h2,
        traverseStep_some_go K map p2 nc _ r h1' h2', hb,
        movedInfo_of_not_erg K map p2 _ hs2, endTests_fst,
        movedInfo_of_not_erg K map p1 info hs]
      apply Prod.ext
      · rw [endTests_fst]
        simp [inherited, hloc, endMark, costUnder, Bool.or_assoc, wrapInt_add_wrapInt]
      · rw [endTests_snd, endTests_snd]
        simp [inherited, hloc, endMark]

theorem traverseTree_mk_none (K : Collab) (map : t_map) (par : Option t_info) (info : t_info)
    (r : Int) :
    traverseTree K map par (.mk none info) r = .mk none (traverseStep K map par true info r).1 := by
  simp [traverseTree]

theorem traverseTree_mk_some (K : Collab) (map : t_map) (par : Option t_info)
    (l : List t_node) (info : t_info) (r : Int) :
    traverseTree K map par (.mk (some l) info) r =
      .mk (match (traverseStep K map par false info r).2 with
          | none => some l
          | some r' =>
            some (traverseLoop K map (traverseStep K map par false info r).1 l
              (traverseStep K map par false info r).1.num_children.toNat r'))
        (traverseStep K map par false info r).1 := by
  simp only [traverseTree]
  cases hs : traverseStep K map par false info r with
  | mk info' o => cases o <;> rfl

theorem EqExceptCost.same (a : t_info) : EqExceptCost a a := by
  unfold EqExceptCost
  rfl

/-- A second run below a node: when at every node the second run repeats the decision of
the first and changes the record at most in its cost, the tree after the second run has the
nodes of the tree after the first, with records equal except for the cost. -/
theorem traverseTree_again (K : Collab) (map : t_map)
    (hERG : ∀ y x, map.soils y x ≠ t_soil.ERG) :
    ∀ (t : t_node) (par1 par2 : Option t_info) (r : Int),
      (∀ (nc : Bool) (info : t_info), ∃ c',
        traverseStep K map par2 nc (traverseStep K map par1 nc info r).1 r =
          ({ (traverseStep K map par1 nc info r).1 with cost := c' },
            (traverseStep K map par1 nc info r).2)) →
      ∀ (q : List Nat) (N1 : t_node), nodeAt (traverseTree K map par1 t r) q = some N1 →
        ∃ N2, nodeAt (traverseTree K map par2 (traverseTree K map par1 t r) r) q = some N2 ∧
          EqExceptCost N1.info N2.info := by
  intro t
  induction t using t_node.induct_children with
  | h ch info ih =>
    intro par1 par2 r hstep q N1 hN1
    cases ch with
    | none =>
      obtain ⟨c', hc'⟩ := hstep true info
      rw [traverseTree_mk_none] at hN1 ⊢
      rw [traverseTree_mk_none, hc']
      cases q with
      | nil =>
        rw [nodeAt_nil] at hN1
        cases hN1
        exact ⟨_, nodeAt_nil _, rfl⟩
      | cons i q' => simp [nodeAt] at hN1
    | some l =>
      obtain ⟨c', hc'⟩ := hstep false info
      rw [traverseTree_mk_some] at hN1 ⊢
      cases hs2 : (traverseStep K map par1 false info r).2 with
      | none =>
        simp only [hs2] at hN1 hc'
        simp only
        rw [traverseTree_mk_some, hc']
        simp only
        cases q with
        | nil =>
          rw [nodeAt_nil] at hN1
          cases hN1
          exact ⟨_, nodeAt_nil _, rfl⟩
        | cons i q' =>
          refine ⟨N1, ?_, EqExceptCost.same _⟩
          rw [← hN1]
          exact nodeAt_cons_congr rfl i q'
      | some r' =>
        simp only [hs2] at hN1 hc'
        simp only
        rw [traverseTree_mk_some, hc']
        simp only
        cases q with
        | nil =>
          rw [nodeAt_nil] at hN1
          cases hN1
          exact ⟨_, nodeAt_nil _, rfl⟩
        | cons i q' =>
          obtain ⟨L, c1, hL, hc1, hrec⟩ := (nodeAt_cons _ i q' N1).1 hN1
          simp only [t_node.children, Option.some.injEq] at hL
          subst hL
          by_cases hi : i < (traverseStep K map par1 false info r).1.num_children.toNat
          · cases hc : l[i]? with
            | none =>
              rw [traverseLoop_getElem_none K map _ l _ r' i hc] at hc1
              cases hc1
            | some c =>
              rw [traverseLoop_getElem_lt K map _ l _ r' i c hi hc] at hc1
              cases hc1
              have hsoil : soilUnder map (traverseStep K map par1 false info r).1.location ≠
                  t_soil.ERG := hERG _ _
              obtain ⟨N2, hN2, hrel⟩ := ih l rfl c (List.getElem?_mem hc)
                (some (traverseStep K map par1 false info r).1)
                (some { (traverseStep K map par1 false info r).1 with cost := c' }) r'
                (fun nc info' =>
                  ⟨_, traverseStep_some_again K map _ _ nc info' r' rfl hsoil⟩)
                q' N1 hrec
              refine ⟨N2, ?_, hrel⟩
              simp only [nodeAt]
              rw [traverseLoop_getElem_lt K map _ _ _ r' i _ hi
                (traverseLoop_getElem_lt K map _ l _ r' i c hi hc)]
              exact hN2
          · refine ⟨N1, ?_, EqExceptCost.same _⟩
            simp only [nodeAt]
            rw [traverseLoop_getElem_ge K map _ _ _ r' i (by omega), hc1]
            exact hrec

/-! ## The run -/

/-- The run in terms of its steps: what `executePhase` returns when `buildTree` returns. -/
theorem executePhase_of_build {E : BuildEnv} {n m : Int} {st st' : BuildState} {t0 : t_node}
    (hb : buildTree E (initializeTree E n) m st = some (t0, st')) (K : Collab)
    (loc_init : Int → Int → t_orientation → t_localisation) (map : t_map) (mode : Int) :
    executePhase E K loc_init n m map mode st =
      some (traverseTree K map none (setLocation t0 (loc_init 4 1 .EAST)) 5,
        (if mode = 1 then
          (findPath [] (traverseTree K map none (setLocation t0 (loc_init 4 1 .EAST)) 5)).map
            Printed.path
        else if mode = 2 then
          match findBestPath []
              (traverseTree K map none (setLocation t0 (loc_init 4 1 .EAST)) 5) none with
          | some (p, bestNode) =>
            [Printed.bestPath
              { arrival := bestNode.info.location
                path := printPath (ancestorsAt
                  (traverseTree K map none (setLocation t0 (loc_init 4 1 .EAST)) 5) p)
                cost := bestNode.info.cost }]
          | none => []
        else [Printed.invalidMode]), st') := by
  simp only [executePhase, hb]

/-- `findBestPath` returns nothing exactly when no reachable node has found the base. -/
theorem findBestPath_none_iff (root : t_node) :
    findBestPath [] root none = none ↔
      ¬ ∃ p n, Reachable root p n ∧ n.info.found_base = true := by
  obtain ⟨h1, _⟩ := foldl_updateBest [] (reach root) none
  rw [findBestPath_eq_foldl, h1]
  constructor
  · rintro ⟨_, h⟩ ⟨p, n, hr, hf⟩
    have := h (p, n) ((mem_reach_iff root p n).2 hr)
    rw [hf] at this
    cases this
  · intro h
    refine ⟨rfl, ?_⟩
    intro e he
    cases hf : e.2.info.found_base with
    | false => rfl
    | true => exact absurd ⟨e.1, e.2, (mem_reach_iff root e.1 e.2).1 he, hf⟩ h

/-- Traversal keeps the number of children of every node. -/
theorem traverseTree_children_length (K : Collab) (map : t_map) (par : Option t_info)
    (t : t_node) (r : Int) (l : List t_node) (h : t.children = some l) :
    ∃ l', (traverseTree K map par t r).children = some l' ∧ l'.length = l.length := by
  cases t with
  | mk ch info =>
    simp only [t_node.children] at h
    subst h
    simp only [traverseTree]
    cases hs : traverseStep K map par false info r with
    | mk info' o =>
      cases o with
      | none => exact ⟨l, rfl, rfl⟩
      | some r' => exact ⟨_, rfl, traverseLoop_length K map info' l _ r'⟩
/-! ## The requests made by the build -/

theorem requests_congr {a b : t_node} (h : b.children = a.children) :
    requests b = requests a := by
  cases a with
  | mk cha ia =>
    cases b with
    | mk chb ib =>
      simp only [t_node.children] at h
      subst h
      cases chb <;> simp [requests]

theorem Stamped_congr (E : BuildEnv) (c : Nat) {a b : t_node} (h : b.children = a.children)
    (hn : b.info.num_children = a.info.num_children) (hs : Stamped E c a) : Stamped E c b := by
  cases a with
  | mk cha ia =>
    cases b with
    | mk chb ib =>
      simp only [t_node.children, t_node.info] at h hn
      subst h
      cases chb with
      | none => simp [Stamped]
      | some l =>
        simp only [Stamped] at hs ⊢
        rw [hn]
        exact hs

theorem MoveEq.num_children {a b : t_node} (h : MoveEq a b) :
    b.info.num_children = a.info.num_children := by
  obtain ⟨_, mv, hi⟩ := h
  rw [hi]

theorem MoveEq.trans {a b c : t_node} (h1 : MoveEq a b) (h2 : MoveEq b c) : MoveEq a c := by
  obtain ⟨hc1, mv1, hi1⟩ := h1
  obtain ⟨hc2, mv2, hi2⟩ := h2
  exact ⟨by rw [hc2, hc1], mv2, by rw [hi2, hi1]⟩

theorem setMoves_movement (rm : Nat → Int) :
    ∀ (l : List t_node) (k i j : Nat) (x : t_node), (setMoves rm l k i)[j]? = some x → j < k →
      x.info.movement = rm (i + j) := by
  intro l
  induction l with
  | nil => intro k i j x h; simp [setMoves] at h
  | cons y ys ih =>
    intro k i j x h hj
    cases k with
    | zero => omega
    | succ k =>
      cases y with
      | mk ch info =>
        simp only [setMoves] at h
        cases j with
        | zero =>
          simp only [List.getElem?_cons_zero, Option.some.injEq] at h
          subst h
          rfl
        | succ j =>
          simp only [List.getElem?_cons_succ] at h
          have := ih k (i + 1) j x h (by omega)
          rw [this]
          congr 1
          omega

/-- One call of `assignRandomMove` on a node with children: one more request is counted,
and when the request succeeds the children hold its moves in child order. -/
theorem assignRandomMove_moves (E : BuildEnv) (l : List t_node) (info : t_info)
    (st : BuildState) :
    ∃ l1 : List t_node, (assignRandomMove E (.mk (some l) info) st).1 = .mk (some l1) info ∧
      (assignRandomMove E (.mk (some l) info) st).2 = { st with calls := st.calls + 1 } ∧
      l1.length = l.length ∧
      (∀ (j : Nat) (c : t_node), l1[j]? = some c → ∃ c0, l[j]? = some c0 ∧ MoveEq c0 c) ∧
      ∀ rm, E.getRandomMoves st.calls (5 * info.num_children) = some rm →
        ∀ (j : Nat) (x : t_node), l1[j]? = some x → j < info.num_children.toNat →
          x.info.movement = rm j := by
  simp only [assignRandomMove, t_node.info, t_node.children]
  cases h : E.getRandomMoves st.calls (5 * info.num_children) with
  | none =>
    exact ⟨l, rfl, rfl, rfl, fun j c hc => ⟨c, hc, MoveEq.refl c⟩, fun rm hrm => by cases hrm⟩
  | some rm =>
    refine ⟨setMoves rm l info.num_children.toNat 0, rfl, rfl, setMoves_length rm l _ _,
      fun j c hc => setMoves_getElem rm l _ _ j c hc, ?_⟩
    intro rm' hrm j x hx hj
    cases hrm
    have := setMoves_movement rm l _ 0 j x hx hj
    simpa using this
theorem requestsList_cons (x : t_node) (xs : List t_node) :
    requestsList (x :: xs) = (1 + requests x) + requestsList xs := by
  simp [requestsList]

theorem requestsList_nil : requestsList [] = 0 := by
  simp [requestsList]

/-- The loop of `buildTree` with the requests counted: the state after the loop, the moves
that the last iteration leaves in the children, and the stamps of the children built. -/
theorem buildLoop_requests (E : BuildEnv)
    (build : t_node → BuildState → Option (t_node × BuildState)) (Pre : t_node → Prop)
    (hPre : ∀ a b, MoveEq a b → Pre a → Pre b)
    (hbuild : ∀ c st, Pre c → ∃ c' st', build c st = some (c', st') ∧ c'.info = c.info ∧
      st'.calls = st.calls + requests c' ∧ Stamped E st.calls c') :
    ∀ (todo i : Nat) (l : List t_node) (info : t_info) (st : BuildState),
      l.length = i + todo → l.length ≤ info.num_children.toNat →
      (∀ (j : Nat) (c : t_node), l[j]? = some c → i ≤ j → Pre c) →
      ∃ l' st', buildLoop E build todo i (.mk (some l) info) st = some (.mk (some l') info, st') ∧
        l'.length = l.length ∧
        (todo = 0 → l' = l) ∧
        (∀ (j : Nat) (c : t_node), j < i → l'[j]? = some c → ∃ c0, l[j]? = some c0 ∧ MoveEq c0 c) ∧
        st'.calls = st.calls + requestsList (l'.drop i) ∧
        StampedList E st.calls (l'.drop i) ∧
        (0 < todo → ∀ rm,
          E.getRandomMoves (st.calls + requestsList ((l'.drop i).take (todo - 1)))
            (5 * info.num_children) = some rm →
          ∀ (j : Nat) (x : t_node), l'[j]? = some x → x.info.movement = rm j) := by
  intro todo
  induction todo with
  | zero =>
    intro i l info st hlen _ _
    refine ⟨l, st, by simp [buildLoop], rfl, fun _ => rfl, ?_, ?_, ?_, ?_⟩
    · intro j c _ hc
      exact ⟨c, hc, MoveEq.refl c⟩
    · rw [List.drop_of_length_le (by omega), requestsList_nil]; rfl
    · rw [List.drop_of_length_le (by omega)]
      simp [StampedList]
    · intro h; omega
  | succ todo ih =>
    intro i l info st hlen hle hinv
    obtain ⟨l1, h1, hst1, hlen1, hmv, hrm⟩ := assignRandomMove_moves E l info st
    have hi : i < l1.length := by omega
    have hc1 : l1[i]? = some (l1[i]) := List.getElem?_eq_getElem hi
    obtain ⟨c0, hc0, hm0⟩ := hmv i _ hc1
    have hpre : Pre l1[i] := hPre _ _ hm0 (hinv i c0 hc0 (le_refl i))
    obtain ⟨c', st', hb, hinfo, hcalls, hstamp⟩ :=
      hbuild l1[i] (assignRandomMove E (.mk (some l) info) st).2 hpre
    rw [hst1] at hcalls hstamp
    simp only at hcalls hstamp
    obtain ⟨l', st'', hl', hlen', hzero, hbefore, hcalls', hstamps, hlast⟩ :=
      ih (i + 1) (l1.set i c') info st' (by simp; omega) (by simp; omega) (by
        intro j c hj hij
        rw [List.getElem?_set] at hj
        have hne : i ≠ j := by omega
        simp [hne] at hj
        obtain ⟨d0, hd0, hmd⟩ := hmv j c hj
        exact hPre _ _ hmd (hinv j d0 hd0 (by omega)))
    have hlen'' : l'.length = l.length := by simpa [hlen1] using hlen'
    have hi' : i < l'.length := by omega
    have hci : l'[i]? = some (l'[i]) := List.getElem?_eq_getElem hi'
    obtain ⟨d, hd, hmd⟩ := hbefore i _ (Nat.lt_succ_self i) hci
    have hdc : d = c' := by
      rw [List.getElem?_set] at hd
      simp [hi] at hd
      exact hd.symm
    subst hdc
    have hdrop : l'.drop i = l'[i] :: l'.drop (i + 1) := (List.drop_eq_getElem_cons hi')
    have hreq : requests l'[i] = requests d := requests_congr hmd.1
    refine ⟨l', st'', ?_, hlen'', fun h => by omega, ?_, ?_, ?_, ?_⟩
    · simp only [buildLoop, h1, t_node.children, t_node.info, hc1, hb]
      exact hl'
    · intro j c hj hc
      obtain ⟨e, he, hme⟩ := hbefore j c (by omega) hc
      rw [List.getElem?_set] at he
      have hne : i ≠ j := by omega
      simp [hne] at he
      obtain ⟨e0, he0, hme0⟩ := hmv j e he
      exact ⟨e0, he0, hme0.trans hme⟩
    · rw [hdrop, requestsList_cons, hcalls', hcalls, hreq]
      omega
    · rw [hdrop]
      simp only [StampedList]
      refine ⟨Stamped_congr E _ hmd.1 hmd.num_children hstamp, ?_⟩
      rw [hreq, ← hcalls]
      exact hstamps
    · intro _ rm hget j x hx
      rcases Nat.eq_zero_or_pos todo with h0 | hpos
      · subst h0
        have hl2 := hzero rfl
        subst hl2
        simp only [Nat.add_sub_cancel, List.take_zero, requestsList_nil, Nat.add_zero] at hget
        have hjlt : j < (l1.set i d).length := by
          rcases Nat.lt_or_ge j (l1.set i d).length with h | h
          · exact h
          · rw [List.getElem?_eq_none h] at hx; cases hx
        rw [List.getElem?_set] at hx
        by_cases hij : i = j
        · subst hij
          simp [hi] at hx
          subst hx
          rw [hinfo]
          exact hrm rm hget i _ hc1 (by omega)
        · simp [hij] at hx
          exact hrm rm hget j x hx (by simp at hjlt; omega)
      · have hidx : st.calls + requestsList ((l'.drop i).take (todo + 1 - 1)) =
            st'.calls + requestsList ((l'.drop (i + 1)).take (todo - 1)) := by
          have ht : todo + 1 - 1 = (todo - 1) + 1 := by omega
          rw [hdrop, hcalls, ht, List.take_succ_cons, requestsList_cons, hreq]
          omega
        rw [hidx] at hget
        exact hlast hpos rm hget j x hx
/-- With a recursion bound above the node's `num_children`, `buildTree` returns a tree whose
root record is the one given; the requests it has made are those counted by `requests`, and
the moves in the tree are those of the last request made for each node. -/
theorem buildTreeAux_requests (E : BuildEnv) (m : Int) :
    ∀ (fuel : Nat) (info : t_info) (st : BuildState), info.num_children.toNat < fuel →
      ∃ t st', buildTreeAux E m fuel (.mk none info) st = some (t, st') ∧ t.info = info ∧
        st'.calls = st.calls + requests t ∧ Stamped E st.calls t := by
  intro fuel
  induction fuel with
  | zero => intro info st h; omega
  | succ fuel ih =>
    intro info st hfuel
    by_cases hstop : info.num_children = m - 1
    · exact ⟨.mk none info, st, by simp [buildTreeAux, t_node.info, hstop], rfl,
        by simp [requests], by simp [Stamped]⟩
    · by_cases hneg : info.num_children < 0
      · have h0 : info.num_children.toNat = 0 := by omega
        exact ⟨.mk none info, { st with num := st.num },
          by simp [buildTreeAux, t_node.info, hstop, createChildren, hneg, h0, buildLoop],
          rfl, by simp [requests], by simp [Stamped]⟩
      · by_cases hzero : info.num_children.toNat = 0
        · exact ⟨.mk (some []) info, { st with num := st.num + info.num_children },
            by simp [buildTreeAux, t_node.info, hstop, createChildren, hneg, hzero, buildLoop,
              createLoop],
            rfl, by simp [requests, requestsList], by simp [Stamped, StampedList]⟩
        · have hloop := buildLoop_requests E (buildTreeAux E m fuel)
            (fun c => c.children = none ∧ c.info.num_children = info.num_children - 1)
            (by
              rintro a b ⟨hch, mv, hinfo⟩ ⟨h1, h2⟩
              exact ⟨by rw [hch, h1], by rw [hinfo]; exact h2⟩)
            (by
              rintro ⟨ch, ci⟩ st1 ⟨h1, h2⟩
              simp only [t_node.children, t_node.info] at h1 h2
              subst h1
              exact ih ci st1 (by omega))
            info.num_children.toNat 0 (createLoop E info info.num_children.toNat st.num) info
            { st with num := st.num + info.num_children }
            (by simp [createLoop_length])
            (by simp [createLoop_length])
            (by
              intro j c hj _
              obtain ⟨v, hv⟩ := createLoop_mem E info _ _ c (List.getElem?_mem hj)
              subst hv
              exact ⟨rfl, rfl⟩)
          obtain ⟨l', st', hl', hlen', _, _, hcalls, hstamps, hlast⟩ := hloop
          simp only [List.drop_zero] at hcalls hstamps hlast
          refine ⟨.mk (some l') info, st', ?_, rfl, ?_, ?_⟩
          · simp only [buildTreeAux, t_node.info, hstop, createChildren, hneg, if_false]
            exact hl'
          · simpa [requests] using hcalls
          · simp only [Stamped]
            refine ⟨?_, hstamps⟩
            have hl : l'.length = info.num_children.toNat := by
              rw [hlen', createLoop_length]
            intro rm hget
            refine hlast (by omega) rm ?_
            rw [requestAt, hl] at hget
            exact hget

/-- The requests of `buildTree` on the root made by `initializeTree`. -/
theorem buildTree_requests {E : BuildEnv} {n m : Int} {st st' : BuildState} {t : t_node}
    (hb : buildTree E (initializeTree E n) m st = some (t, st')) :
    st'.calls = st.calls + requests t ∧ Stamped E st.calls t := by
  obtain ⟨t1, st1, h, _, hc, hs⟩ := buildTreeAux_requests E m
    ((initializeTree E n).info.num_children.toNat + 1) (initializeTree E n).info st
    (Nat.lt_succ_self _)
  have h2 : buildTree E (initializeTree E n) m st = some (t1, st1) := h
  rw [h2] at hb
  cases hb
  exact ⟨hc, hs⟩

theorem StampedList_getElem (E : BuildEnv) :
    ∀ (l : List t_node) (c i : Nat) (x : t_node), StampedList E c l → l[i]? = some x →
      Stamped E (requestAt c l i + 1) x := by
  intro l
  induction l with
  | nil => intro c i x _ h; simp at h
  | cons y ys ih =>
    intro c i x hs hx
    simp only [StampedList] at hs
    cases i with
    | zero =>
      simp only [List.getElem?_cons_zero, Option.some.injEq] at hx
      subst hx
      simpa [requestAt, requestsList_nil] using hs.1
    | succ i =>
      simp only [List.getElem?_cons_succ] at hx
      have := ih (c + 1 + requests y) i x hs.2 hx
      have he : requestAt c (y :: ys) (i + 1) + 1 = requestAt (c + 1 + requests y) ys i + 1 := by
        simp only [requestAt, List.take_succ_cons, requestsList_cons]
        omega
      rw [he]
      exact this

/-- The stamps of a tree hold at each of its nodes, from the count of requests at which the
build of that node starts; this count is defined for every node of the tree. -/
theorem Stamped.stamps_at (E : BuildEnv) :
    ∀ (p : List Nat) (t node : t_node) (c : Nat), Stamped E c t → nodeAt t p = some node →
      ∃ c', startAt c t p = some c' ∧ Stamped E c' node := by
  intro p
  induction p with
  | nil =>
    intro t node c hs hn
    rw [nodeAt_nil] at hn
    cases hn
    exact ⟨c, by cases t; simp [startAt], hs⟩
  | cons i q ih =>
    intro t node c hs hn
    obtain ⟨l, x, hl, hx, hrec⟩ := (nodeAt_cons t i q node).1 hn
    cases t with
    | mk ch info =>
      simp only [t_node.children] at hl
      subst hl
      simp only [Stamped] at hs
      have hsx := StampedList_getElem E l c i x hs.2 hx
      obtain ⟨c', hc', hs'⟩ := ih x node _ hsx hrec
      refine ⟨c', ?_, hs'⟩
      simp only [startAt, hx]
      exact hc'

/-! ## The recursion depth of the build -/

/-- The loop of `buildTree` returns the same result with any recursive call that returns at
least what the given one returns. -/
theorem buildLoop_mono (E : BuildEnv)
    (build build' : t_node → BuildState → Option (t_node × BuildState))
    (h : ∀ c st r, build c st = some r → build' c st = some r) :
    ∀ (todo i : Nat) (root : t_node) (st : BuildState) (r : t_node × BuildState),
      buildLoop E build todo i root st = some r → buildLoop E build' todo i root st = some r := by
  intro todo
  induction todo with
  | zero =>
    intro i root st r hr
    simpa [buildLoop] using hr
  | succ todo ih =>
    intro i root st r hr
    simp only [buildLoop] at hr ⊢
    cases hch : (assignRandomMove E root st).1.children with
    | none =>
      simp only [hch] at hr ⊢
      exact ih _ _ _ _ hr
    | some l =>
      simp only [hch] at hr ⊢
      cases hc : l[i]? with
      | none =>
        simp only [hc] at hr ⊢
        exact ih _ _ _ _ hr
      | some c =>
        simp only [hc] at hr ⊢
        cases hb : build c (assignRandomMove E root st).2 with
        | none => simp [hb] at hr
        | some b =>
          obtain ⟨c', st'⟩ := b
          simp only [hb] at hr
          simp only [h _ _ _ hb]
          exact ih _ _ _ _ hr

/-- One more level of recursion allowed does not change what `buildTree` returns. -/
theorem buildTreeAux_succ (E : BuildEnv) (m : Int) :
    ∀ (fuel : Nat) (root : t_node) (st : BuildState) (r : t_node × BuildState),
      buildTreeAux E m fuel root st = some r → buildTreeAux E m (fuel + 1) root st = some r := by
  intro fuel
  induction fuel with
  | zero => intro root st r hr; simp [buildTreeAux] at hr
  | succ fuel ih =>
    intro root st r hr
    rw [buildTreeAux] at hr ⊢
    by_cases hstop : root.info.num_children = m - 1
    · simpa [hstop] using hr
    · simp only [hstop, if_false] at hr ⊢
      exact buildLoop_mono E _ _ ih _ _ _ _ _ hr

/-- A result obtained within a bound on the recursion depth is obtained within every
larger bound. -/
theorem buildTreeAux_le (E : BuildEnv) (m : Int) (fuel fuel' : Nat) (hle : fuel ≤ fuel')
    (root : t_node) (st : BuildState) (r : t_node × BuildState)
    (h : buildTreeAux E m fuel root st = some r) : buildTreeAux E m fuel' root st = some r := by
  induction hle with
  | refl => exact h
  | step _ ih => exact buildTreeAux_succ E m _ root st r ih

/-- Below a root entitled to no fewer than 0 children, no node of a built tree is entitled
to fewer than 0: a node entitled to 0 children gets no child. -/
theorem Built.nonneg {m : Int} : ∀ (p : List Nat) (t node : t_node), Built m t →
    0 ≤ t.info.num_children → nodeAt t p = some node → 0 ≤ node.info.num_children := by
  intro p
  induction p with
  | nil =>
    intro t node _ hle hn
    rw [nodeAt_nil] at hn
    cases hn
    exact hle
  | cons i q ih =>
    intro t node hB hle hn
    obtain ⟨l, c, hl, hc, hrec⟩ := (nodeAt_cons t i q node).1 hn
    cases hB with
    | leaf info hz hstop => simp [t_node.children] at hl
    | failed info hz hstop hneg => simp [t_node.children] at hl
    | node info l' hz hstop hpos hlen hnc hall =>
      simp only [t_node.children, Option.some.injEq] at hl
      subst hl
      have hmem := List.getElem?_mem hc
      refine ih c node (hall c hmem) ?_ hrec
      rw [hnc c hmem]
      have hlt : i < l'.length := by
        rcases Nat.lt_or_ge i l'.length with h | h
        · exact h
        · rw [List.getElem?_eq_none h] at hc; cases hc
      omega

/-- A built node entitled to 0 children has none: no array, or an empty one. -/
theorem Built.no_child {m : Int} {node : t_node} (h : Built m node)
    (h0 : node.info.num_children = 0) : node.children = none ∨ node.children = some [] := by
  cases h with
  | leaf info hz hstop => exact Or.inl rfl
  | failed info hz hstop hneg => exact Or.inl rfl
  | node info l hz hstop hpos hlen hnc hall =>
    simp only [info_mk] at h0
    rw [h0] at hlen
    exact Or.inr (by rw [List.length_eq_zero.1 hlen]; rfl)

/-- A built node entitled to a number of children that is not negative and differs from
`m - 1` has received an array of exactly that many children. -/
theorem Built.expanded {m : Int} {node : t_node} (h : Built m node)
    (hne : node.info.num_children ≠ m - 1) (h0 : 0 ≤ node.info.num_children) :
    ∃ l, node.children = some l ∧ (l.length : Int) = node.info.num_children ∧
      ∀ c ∈ l, Built m c ∧ c.info.num_children = node.info.num_children - 1 := by
  cases h with
  | leaf info hz hstop => exact absurd hstop hne
  | failed info hz hstop hneg => simp only [info_mk] at h0; omega
  | node info l hz hstop hpos hlen hnc hall =>
    refine ⟨l, rfl, ?_, fun c hc => ⟨hall c hc, hnc c hc⟩⟩
    simp only [info_mk]
    omega

/-- In a built tree whose root is entitled to `k` children, with `k` below `m - 1`, the
path of `k` first children exists: the tree has a node at depth `k`. -/
theorem Built.first_children {m : Int} : ∀ (k : Nat) (t : t_node), Built m t →
    t.info.num_children = (k : Int) → (k : Int) < m - 1 →
    ∃ node, nodeAt t (List.replicate k 0) = some node := by
  intro k
  induction k with
  | zero => intro t _ _ _; exact ⟨t, nodeAt_nil t⟩
  | succ k ih =>
    intro t hB hk hlt
    obtain ⟨l, hl, hlen, hall⟩ := hB.expanded (by omega) (by omega)
    have hpos : 0 < l.length := by omega
    have hc : l[0]? = some l[0] := List.getElem?_eq_getElem hpos
    obtain ⟨hBc, hnc⟩ := hall _ (List.getElem?_mem hc)
    obtain ⟨node, hnode⟩ := ih l[0] hBc (by rw [hnc, hk]; push_cast; ring) (by push_cast at hlt; omega)
    refine ⟨node, ?_⟩
    rw [List.replicate_succ]
    exact (nodeAt_cons t 0 _ node).2 ⟨l, l[0], hl, hc, hnode⟩

/-! ## The children read by traversal -/

/-- A node with a parent and without an array of children never reaches the loop of
`traverseTree`. -/
theorem traverseStep_some_no_children (K : Collab) (map : t_map) (p info : t_info) (r : Int) :
    (traverseStep K map (some p) true info r).2 = none := by
  rw [traverseStep_some]
  split_ifs
  · rfl
  · rfl
  · rw [endTests_snd]
    simp [endMark]

theorem childReadsOkLoop_of_forall (K : Collab) (map : t_map) (parent : t_info) :
    ∀ (l : List t_node) (k : Nat) (r : Int),
      (∀ c ∈ l, childReadsOk K map (some parent) c r = true) →
      childReadsOkLoop K map parent l k r = true := by
  intro l
  induction l with
  | nil => intro k r _; simp [childReadsOkLoop]
  | cons x xs ih =>
    intro k r h
    cases k with
    | zero => simp [childReadsOkLoop]
    | succ k =>
      simp only [childReadsOkLoop, Bool.and_eq_true]
      exact ⟨h x (List.mem_cons_self x xs),
        ih k r (fun c hc => h c (List.mem_cons_of_mem x hc))⟩

/-- On a built tree `traverseTree` reads only children that exist, unless it is started on
a root that has no array of children and is entitled to at least one child. -/
theorem Built.reads_ok {m : Int} (K : Collab) (map : t_map) {t : t_node}
    (h : Built m t) :
    ∀ (par : Option t_info) (r : Int),
      (par = none → t.children = none → t.info.num_children ≤ 0) →
      childReadsOk K map par t r = true := by
  have hleaf : ∀ (info : t_info) (par : Option t_info) (r : Int),
      (par = none → info.num_children ≤ 0) →
      childReadsOk K map par (.mk none info) r = true := by
    intro info par r hroot
    simp only [childReadsOk]
    cases hs : traverseStep K map par true info r with
    | mk info' o =>
      cases o with
      | none => rfl
      | some r' =>
        cases par with
        | some p =>
          have := traverseStep_some_no_children K map p info r
          rw [hs] at this
          cases this
        | none =>
          have hn := traverseStep_num_children K map none true info r
          rw [hs] at hn
          simp only at hn
          simpa [hn] using hroot rfl
  induction h with
  | leaf info hz hn => exact fun par r hroot => hleaf info par r (fun hp => hroot hp rfl)
  | failed info hz hn hneg =>
    exact fun par r hroot => hleaf info par r (fun hp => hroot hp rfl)
  | node info l hz hn hpos hlen hnc hall ih =>
    intro par r _
    simp only [childReadsOk]
    cases hs : traverseStep K map par false info r with
    | mk info' o =>
      cases o with
      | none => rfl
      | some r' =>
        have hnum := traverseStep_num_children K map par false info r
        rw [hs] at hnum
        simp only at hnum
        simp only [Bool.and_eq_true, decide_eq_true_eq]
        refine ⟨by rw [hnum, hlen], ?_⟩
        exact childReadsOkLoop_of_forall K map info' l _ r'
          (fun c hc => ih c hc (some info') r' (fun hp => by cases hp))

/-- Started on a root inside the map that has no array of children and is entitled to at
least one child, `traverseTree` reads a child that does not exist. -/
theorem childReadsOk_unset_root (K : Collab) (map : t_map) (info : t_info) (B : Int)
    (hv : K.isValidLocalisation info.location.pos map.x_max map.y_max = true)
    (hn : 0 < info.num_children) :
    childReadsOk K map none (.mk none info) B = false := by
  simp only [childReadsOk, traverseStep_root, boundsCheck, hv]
  simpa using hn

theorem Built.of_setLocation {m : Int} {t : t_node} (h : Built m t) (loc : t_localisation) :
    Built m (setLocation t loc) := by
  cases h with
  | leaf info hz hn => exact Built.leaf _ hz hn
  | failed info hz hn hneg => exact Built.failed _ hz hn hneg
  | node info l hz hn hpos hlen hnc hall => exact Built.node _ l hz hn hpos hlen hnc hall

/-! ## Costs within the range of `int` -/

/-- A node of the tree built for `numChoices = n ≥ 0` lies at depth at most `n`. -/
theorem built_depth_le {E : BuildEnv} {n m : Int} {st st' : BuildState} {t0 : t_node}
    (hb : buildTree E (initializeTree E n) m st = some (t0, st')) (hn : 0 ≤ n)
    (loc : t_localisation) (p : List Nat) (node : t_node)
    (h : nodeAt (setLocation t0 loc) p = some node) : (p.length : Int) ≤ n := by
  obtain ⟨hB, hi⟩ := built_of_buildTree hb
  have hnc : t0.info.num_children = n := by rw [hi]; rfl
  cases p with
  | nil => simpa using hn
  | cons i q =>
    rw [nodeAt_setLocation_cons] at h
    obtain ⟨_, hd⟩ := Built.node_at (i :: q) t0 node hB h
    have h0 := Built.nonneg (i :: q) t0 node hB (by rw [hnc]; exact hn) h
    rw [hnc] at hd
    omega

/-- On a map whose cells all cost `c > 0`, with `c * n` in the range of `int`, a visited node
of the tree built for `numChoices = n ≥ 0` has cost exactly `c` times its depth. -/
theorem visited_cost_uniform_exact {E : BuildEnv} {n m : Int} {st st' : BuildState}
    {t0 : t_node} (hb : buildTree E (initializeTree E n) m st = some (t0, st'))
    (K : Collab) (map : t_map) (loc : t_localisation) (B c : Int) (hn : 0 ≤ n) (hc : 0 < c)
    (hcn : c * n < 2147483648) (hmap : ∀ y x, map.costs y x = c)
    (p : List Nat) (x : Option t_info × t_node × Int)
    (hv : callAt K map none (setLocation t0 loc) B p = some x) :
    ∃ N, nodeAt (traverseTree K map none (setLocation t0 loc) B) p = some N ∧
      N.info.cost = c * (p.length : Int) := by
  obtain ⟨N, hN, hcost⟩ := visited_cost_uniform hb K map loc B c hmap p x hv
  refine ⟨N, hN, ?_⟩
  have hd := built_depth_le hb hn loc p x.2.1 (callAt_nodeAt K map p none _ B x hv)
  have h1 : 0 ≤ c * (p.length : Int) := mul_nonneg (le_of_lt hc) (by positivity)
  have h2 : c * (p.length : Int) ≤ c * n := mul_le_mul_of_nonneg_left hd (le_of_lt hc)
  rw [hcost, wrapInt_of_range _ (by omega) (by omega)]

/-! ## Claims -/

/-- C1: for `numChoices = n ≥ 0` and `1 ≤ minChoices = m ≤ n + 1`, `initializeTree n`
followed by `buildTree root m` returns a tree that has exactly `n (n-1) ... (n-d+1)` nodes at
every depth `d ≤ n - m + 1` and no node at any greater depth. -/
theorem C1_nodes_per_depth (E : BuildEnv) (st : BuildState) (n m : Int) (hn : 0 ≤ n)
    (hm1 : 1 ≤ m) (hm2 : m ≤ n + 1) :
    ∃ t st', buildTree E (initializeTree E n) m st = some (t, st') ∧
      (∀ d : Nat, (d : Int) ≤ n - m + 1 →
        (nodesAtDepth t d : Int) = ∏ i ∈ Finset.range d, (n - (i : Int))) ∧
      (∀ d : Nat, n - m + 1 < (d : Int) → nodesAtDepth t d = 0) := by
  obtain ⟨t, st', hb, hB, hi⟩ := buildTree_built E n m st
  have hnc : t.info.num_children = n := by rw [hi]; rfl
  have hcount := hB.count hm1 (n - m + 1).toNat (by rw [hnc]; omega)
  refine ⟨t, st', hb, ?_, ?_⟩
  · intro d hd
    rw [hcount d, if_pos (by omega), hnc, Nat.descFactorial_eq_prod_range, Nat.cast_prod]
    apply Finset.prod_congr rfl
    intro i hi
    have := Finset.mem_range.1 hi
    omega
  · intro d hd
    rw [hcount d, if_neg (by omega)]

/-- C1, witness: `(n, m) = (3, 2)` gives 1, 3 and 6 nodes at depths 0, 1 and 2, and none
at depth 3. -/
theorem C1_nodes_per_depth_witness :
    (0 : Int) ≤ 3 ∧ (1 : Int) ≤ 2 ∧ (2 : Int) ≤ 3 + 1 ∧
    ∃ t st', buildTree demoEnv (initializeTree demoEnv 3) 2 ⟨0, 0⟩ = some (t, st') ∧
      nodesAtDepth t 0 = 1 ∧ nodesAtDepth t 1 = 3 ∧ nodesAtDepth t 2 = 6 ∧
      nodesAtDepth t 3 = 0 := by
  refine ⟨by decide, by decide, by decide, ?_⟩
  obtain ⟨t, st', hb, h1, h2⟩ :=
    C1_nodes_per_depth demoEnv ⟨0, 0⟩ 3 2 (by decide) (by decide) (by decide)
  refine ⟨t, st', hb, ?_, ?_, ?_, h2 3 (by decide)⟩
  · have := h1 0 (by decide)
    simpa using this
  · have := h1 1 (by decide)
    simp [Finset.prod_range_succ] at this
    exact_mod_cast this
  · have := h1 2 (by decide)
    simp [Finset.prod_range_succ] at this
    exact_mod_cast this

/-- C2 (amended): after `traverseTree` has run on a freshly built tree, the cost of every
visited non-root node is the value that an `int` holds for its parent's cost plus the map
cost of the cell of the parent's resolved position, the cell the node's move starts from;
when that sum lies in the range of `int`, from -2^31 to 2^31 - 1, the cost is that sum. -/
theorem C2_cost_adds_start_cell (E : BuildEnv) (K : Collab) (map : t_map) (n m : Int)
    (st st' : BuildState) (t0 : t_node) (loc : t_localisation) (B : Int) (p : List Nat) (i : Nat)
    (x : Option t_info × t_node × Int)
    (hb : buildTree E (initializeTree E n) m st = some (t0, st'))
    (hv : callAt K map none (setLocation t0 loc) B (p ++ [i]) = some x) :
    ∃ P N, nodeAt (traverseTree K map none (setLocation t0 loc) B) p = some P ∧
      nodeAt (traverseTree K map none (setLocation t0 loc) B) (p ++ [i]) = some N ∧
      N.info.cost = wrapInt (P.info.cost + costUnder map P.info.location) ∧
      (-2147483648 ≤ P.info.cost + costUnder map P.info.location →
        P.info.cost + costUnder map P.info.location < 2147483648 →
        N.info.cost = P.info.cost + costUnder map P.info.location) := by
  have hfresh := ((built_of_buildTree hb).1.fresh).setLocation loc
  obtain ⟨y, P, N, _, hP, hN, hc, _, _, _, hNi⟩ := visit_child K map none _ B p i x hv
  have hcost : N.info.cost = wrapInt (P.info.cost + costUnder map P.info.location) := by
    rw [hNi, traverseStep_some_cost, (hfresh _ _ hc).1, zero_add]
  refine ⟨P, N, hP, hN, hcost, ?_⟩
  intro h1 h2
  rw [hcost, wrapInt_of_range _ h1 h2]

/-- C2 (amended), witness: in the 2x2 scenario the node whose move reaches the goal cell
has cost 1, the cost of the start cell. -/
theorem C2_cost_adds_start_cell_witness :
    ∃ x, buildTree demoEnv (initializeTree demoEnv 2) 1 ⟨0, 0⟩ = some (tree21, ⟨4, 4⟩) ∧
      callAt demoCollab scenarioMap none (setLocation tree21 startLoc) 5 ([] ++ [0]) = some x ∧
      (∃ P N, nodeAt (traverseTree demoCollab scenarioMap none (setLocation tree21 startLoc) 5)
          [] = some P ∧
        nodeAt (traverseTree demoCollab scenarioMap none (setLocation tree21 startLoc) 5)
          ([] ++ [0]) = some N ∧
        N.info.cost = wrapInt (P.info.cost + costUnder scenarioMap P.info.location) ∧
        (-2147483648 ≤ P.info.cost + costUnder scenarioMap P.info.location →
          P.info.cost + costUnder scenarioMap P.info.location < 2147483648 →
          N.info.cost = P.info.cost + costUnder scenarioMap P.info.location)) ∧
      (nodeAt (traverseTree demoCollab scenarioMap none (setLocation tree21 startLoc) 5)
        [0]).map (fun N => N.info.cost) = some 1 :=
  ⟨_, rfl, rfl,
    C2_cost_adds_start_cell demoEnv demoCollab scenarioMap 2 1 ⟨0, 0⟩ ⟨4, 4⟩ tree21 startLoc 5
      [] 0 _ rfl rfl,
    by decide⟩

/-- C2, counterexample: in the 2x2 scenario the child 0 of the root moves from the start
cell (cost 1) onto the goal cell (cost 0); its cost is 1, not its parent's cost 0 plus the
cost 0 of the cell its move resolves to. -/
theorem C2_counterexample :
    buildTree demoEnv (initializeTree demoEnv 2) 1 ⟨0, 0⟩ = some (tree21, ⟨4, 4⟩) ∧
    (callAt demoCollab scenarioMap none (setLocation tree21 startLoc) 5 [0]).isSome = true ∧
    ∃ P N, nodeAt (traverseTree demoCollab scenarioMap none (setLocation tree21 startLoc) 5)
        [] = some P ∧
      nodeAt (traverseTree demoCollab scenarioMap none (setLocation tree21 startLoc) 5)
        [0] = some N ∧
      N.info.location.pos = ⟨0, 1⟩ ∧
      N.info.cost ≠ P.info.cost + costUnder scenarioMap N.info.location :=
  ⟨rfl, by decide, _, _, rfl, rfl, by decide, by decide⟩

/-- C3 (amended): for every non-root node visited by `traverseTree` on a freshly built
tree whose terrain, read at the cell inherited from its parent, is ERG: a move among F_10,
B_10, T_LEFT, T_RIGHT is not applied (the node keeps its move and the location of its
parent); any other move is replaced by the move of code one less, and the location is
advanced by that replaced move; in both cases the node does not find the base and is marked
`is_end` only by the tests that follow (budget exactly zero, no children, out of bounds). -/
theorem C3_erg_rule (E : BuildEnv) (K : Collab) (map : t_map) (n m : Int)
    (st st' : BuildState) (t0 : t_node) (loc : t_localisation) (B : Int) (p : List Nat) (i : Nat)
    (par : Option t_info) (c : t_node) (r : Int)
    (hb : buildTree E (initializeTree E n) m st = some (t0, st'))
    (hv : callAt K map none (setLocation t0 loc) B (p ++ [i]) = some (par, c, r)) :
    ∃ P N, nodeAt (traverseTree K map none (setLocation t0 loc) B) p = some P ∧
      nodeAt (traverseTree K map none (setLocation t0 loc) B) (p ++ [i]) = some N ∧
      nodeAt t0 (p ++ [i]) = some c ∧
      (soilUnder map P.info.location = t_soil.ERG →
        (listedMove K c.info.movement →
          N.info.movement = c.info.movement ∧ N.info.location = P.info.location) ∧
        (¬ listedMove K c.info.movement →
          N.info.movement = c.info.movement - 1 ∧
          N.info.location = K.updateLocalisation P.info.location (c.info.movement - 1)) ∧
        N.info.found_base = false ∧
        (N.info.is_end = true ↔
          r - 1 = 0 ∨ c.children = none ∨
            K.isValidLocalisation N.info.location.pos map.x_max map.y_max = false)) := by
  have hfresh := ((built_of_buildTree hb).1.fresh).setLocation loc
  obtain ⟨y, P, N, _, hP, hN, hc, _, _, _, hNi⟩ := visit_child K map none _ B p i _ hv
  simp only at hc hNi
  have hz := hfresh _ _ hc
  refine ⟨P, N, hP, hN, ?_, ?_⟩
  · rw [← hc]
    cases p with
    | nil => exact (nodeAt_setLocation_cons t0 loc i []).symm
    | cons j q => exact (nodeAt_setLocation_cons t0 loc j (q ++ [i])).symm
  · intro hs
    have hgo := traverseStep_some_go K map P.info c.children.isNone c.info r
      (by rw [hs]; decide) (by rw [hs]; decide)
    rw [hgo, endTests_fst] at hNi
    have hbud : budgetAfter map P.info r = r - 1 := by
      unfold budgetAfter; rw [hs]; simp
    have hloc : N.info.location = (movedInfo K map P.info c.info).location := by rw [hNi]
    have hmv : N.info.movement = (movedInfo K map P.info c.info).movement := by rw [hNi]
    have hfb : N.info.found_base = (movedInfo K map P.info c.info).found_base := by rw [hNi]
    have hend : N.info.is_end = ((movedInfo K map P.info c.info).is_end ||
        endMark K map c.children.isNone (movedInfo K map P.info c.info)
          (budgetAfter map P.info r)) := by rw [hNi]
    refine ⟨?_, ?_, ?_, ?_⟩
    · intro hl
      rw [hmv, hloc]
      simp [movedInfo, hs, hl, inherited]
    · intro hl
      rw [hmv, hloc]
      simp [movedInfo, hs, hl]
    · rw [hfb, movedInfo_found_base]; exact hz.2.2
    · rw [hend, movedInfo_is_end, hz.2.1, hbud]
      unfold endMark
      rw [← hloc]
      simp [Option.isNone_iff_eq_none, or_assoc]

/-- C3 (amended), witness: on an all-ERG map the child 0 of the root holds the listed move
F_10 and keeps the root's location; the child 1 holds the move of code 1, which is replaced
by the move of code 0 and applied, taking the node one cell forward. -/
theorem C3_erg_rule_witness :
    buildTree demoEnv (initializeTree demoEnv 2) 1 ⟨0, 0⟩ = some (tree21, ⟨4, 4⟩) ∧
    (∃ par c r,
      callAt demoCollab ergMap none (setLocation tree21 startLoc) 5 ([] ++ [1]) =
        some (par, c, r) ∧
      ∃ P N, nodeAt (traverseTree demoCollab ergMap none (setLocation tree21 startLoc) 5)
          [] = some P ∧
        nodeAt (traverseTree demoCollab ergMap none (setLocation tree21 startLoc) 5)
          ([] ++ [1]) = some N ∧
        nodeAt tree21 ([] ++ [1]) = some c ∧
        (soilUnder ergMap P.info.location = t_soil.ERG →
          (listedMove demoCollab c.info.movement →
            N.info.movement = c.info.movement ∧ N.info.location = P.info.location) ∧
          (¬ listedMove demoCollab c.info.movement →
            N.info.movement = c.info.movement - 1 ∧
            N.info.location =
              demoCollab.updateLocalisation P.info.location (c.info.movement - 1)) ∧
          N.info.found_base = false ∧
          (N.info.is_end = true ↔
            r - 1 = 0 ∨ c.children = none ∨
              demoCollab.isValidLocalisation N.info.location.pos ergMap.x_max ergMap.y_max =
                false))) ∧
    (nodeAt (traverseTree demoCollab ergMap none (setLocation tree21 startLoc) 5) [0]).map
      (fun N => (N.info.movement, N.info.location)) = some (0, ⟨⟨0, 0⟩, .SOUTH⟩) ∧
    (nodeAt (traverseTree demoCollab ergMap none (setLocation tree21 startLoc) 5) [1]).map
      (fun N => (N.info.movement, N.info.location)) = some (0, ⟨⟨0, 1⟩, .SOUTH⟩) :=
  ⟨rfl,
    ⟨_, _, _, rfl,
      C3_erg_rule demoEnv demoCollab ergMap 2 1 ⟨0, 0⟩ ⟨4, 4⟩ tree21 startLoc 5 [] 1 _ _ _
        rfl rfl⟩,
    by decide, by decide⟩

/-- C3, counterexample: on an all-ERG map, with the root at x = 0, y = 0 facing south, the
child 0 of the root holds the listed move F_10 (which would take it to y = 1) and is not
advanced; the child 1 holds the unlisted move of code 1, which is replaced by the move of
code 0, and is advanced to y = 1. -/
theorem C3_counterexample :
    buildTree demoEnv (initializeTree demoEnv 2) 1 ⟨0, 0⟩ = some (tree21, ⟨4, 4⟩) ∧
    (callAt demoCollab ergMap none (setLocation tree21 startLoc) 5 [0]).isSome = true ∧
    (callAt demoCollab ergMap none (setLocation tree21 startLoc) 5 [1]).isSome = true ∧
    soilUnder ergMap startLoc = t_soil.ERG ∧
    ∃ P N0 N1 c0 c1,
      nodeAt (traverseTree demoCollab ergMap none (setLocation tree21 startLoc) 5) [] = some P ∧
      nodeAt (traverseTree demoCollab ergMap none (setLocation tree21 startLoc) 5) [0] = some N0 ∧
      nodeAt (traverseTree demoCollab ergMap none (setLocation tree21 startLoc) 5) [1] = some N1 ∧
      nodeAt tree21 [0] = some c0 ∧ nodeAt tree21 [1] = some c1 ∧
      (listedMove demoCollab c0.info.movement ∧
        demoCollab.updateLocalisation P.info.location c0.info.movement ≠ P.info.location ∧
        N0.info.location = P.info.location) ∧
      (¬ listedMove demoCollab c1.info.movement ∧
        N1.info.movement ≠ c1.info.movement ∧
        N1.info.location ≠ P.info.location) :=
  ⟨rfl, by decide, by decide, by decide, _, _, _, _, _, rfl, rfl, rfl, rfl, rfl,
    ⟨by decide, by decide, by decide⟩, ⟨by decide, by decide, by decide⟩⟩

/-- C4 (amended): after `traverseTree` has run on a freshly built tree: a root that has
received its array of children and is given a positive budget has `is_end = true` iff its
position is out of bounds; a visited non-root node whose budget after its own decrements
(2 on REG, 1 otherwise) has not gone below zero has `is_end = true` iff the terrain of the
cell it inherits from its parent (the parent's resolved position, where its move starts) is
Goal or Obstacle, or that budget has reached zero, or its `children` pointer is null, or its
resolved position is out of bounds. -/
theorem C4_is_end_iff (E : BuildEnv) (K : Collab) (map : t_map) (n m : Int)
    (st st' : BuildState) (t0 : t_node) (loc : t_localisation) (B : Int)
    (hb : buildTree E (initializeTree E n) m st = some (t0, st')) :
    (t0.children ≠ none → 0 < B →
      ((traverseTree K map none (setLocation t0 loc) B).info.is_end = true ↔
        K.isValidLocalisation loc.pos map.x_max map.y_max = false)) ∧
    ∀ (p : List Nat) (i : Nat) (par : Option t_info) (c : t_node) (r : Int),
      callAt K map none (setLocation t0 loc) B (p ++ [i]) = some (par, c, r) →
      ∃ P N, nodeAt (traverseTree K map none (setLocation t0 loc) B) p = some P ∧
        nodeAt (traverseTree K map none (setLocation t0 loc) B) (p ++ [i]) = some N ∧
        (0 ≤ budgetAfter map P.info r →
          (N.info.is_end = true ↔
            soilUnder map P.info.location = t_soil.BASE_STATION ∨
            soilUnder map P.info.location = t_soil.CREVASSE ∨
            budgetAfter map P.info r ≤ 0 ∨ c.children = none ∨
            K.isValidLocalisation N.info.location.pos map.x_max map.y_max = false)) := by
  have hfresh := ((built_of_buildTree hb).1.fresh).setLocation loc
  constructor
  · intro _ _
    rw [traverseTree_info, traverseStep_root, boundsCheck_fst]
    have h0 := (hfresh [] _ (nodeAt_nil _)).2.1
    cases t0 with
    | mk ch info =>
      simp only [setLocation, t_node.info] at h0 ⊢
      simp [h0]
  · intro p i par c r hv
    obtain ⟨y, P, N, _, hP, hN, hc, _, _, _, hNi⟩ := visit_child K map none _ B p i _ hv
    simp only at hc hNi
    have hz := hfresh _ _ hc
    refine ⟨P, N, hP, hN, ?_⟩
    intro hguard
    have hz0 : budgetAfter map P.info r ≤ 0 ↔ budgetAfter map P.info r = 0 := by omega
    rw [hz0]
    rw [traverseStep_some] at hNi
    by_cases h1 : soilUnder map P.info.location = t_soil.BASE_STATION
    · rw [if_pos h1] at hNi
      simp [hNi, h1]
    · by_cases h2 : soilUnder map P.info.location = t_soil.CREVASSE
      · rw [if_neg h1, if_pos h2] at hNi
        simp [hNi, h2]
      · rw [if_neg h1, if_neg h2, endTests_fst] at hNi
        have hloc : N.info.location = (movedInfo K map P.info c.info).location := by rw [hNi]
        have hend : N.info.is_end = ((movedInfo K map P.info c.info).is_end ||
            endMark K map c.children.isNone (movedInfo K map P.info c.info)
              (budgetAfter map P.info r)) := by rw [hNi]
        rw [hend, movedInfo_is_end, hz.2.1]
        unfold endMark
        rw [← hloc]
        simp [Option.isNone_iff_eq_none, or_assoc, h1, h2]

/-- C4 (amended), witness: in the 2x2 scenario the root has children, is in bounds and is not
marked; the child 0 of the root starts on an Open cell with budget 5 (3 after its
decrements), has children and resolves in bounds, and is not marked; its own child inherits
the goal cell and is marked. -/
theorem C4_is_end_iff_witness :
    buildTree demoEnv (initializeTree demoEnv 2) 1 ⟨0, 0⟩ = some (tree21, ⟨4, 4⟩) ∧
    ((tree21.children ≠ none → (0 : Int) < 5 →
      ((traverseTree demoCollab scenarioMap none (setLocation tree21 startLoc) 5).info.is_end
          = true ↔
        demoCollab.isValidLocalisation startLoc.pos scenarioMap.x_max scenarioMap.y_max
          = false)) ∧
    ∀ (p : List Nat) (i : Nat) (par : Option t_info) (c : t_node) (r : Int),
      callAt demoCollab scenarioMap none (setLocation tree21 startLoc) 5 (p ++ [i]) =
        some (par, c, r) →
      ∃ P N, nodeAt (traverseTree demoCollab scenarioMap none (setLocation tree21 startLoc) 5)
          p = some P ∧
        nodeAt (traverseTree demoCollab scenarioMap none (setLocation tree21 startLoc) 5)
          (p ++ [i]) = some N ∧
        (0 ≤ budgetAfter scenarioMap P.info r →
          (N.info.is_end = true ↔
            soilUnder scenarioMap P.info.location = t_soil.BASE_STATION ∨
            soilUnder scenarioMap P.info.location = t_soil.CREVASSE ∨
            budgetAfter scenarioMap P.info r ≤ 0 ∨ c.children = none ∨
            demoCollab.isValidLocalisation N.info.location.pos scenarioMap.x_max
              scenarioMap.y_max = false))) ∧
    tree21.children ≠ none ∧
    (callAt demoCollab scenarioMap none (setLocation tree21 startLoc) 5 [0]).map
      (fun x => budgetAfter scenarioMap (setLocation tree21 startLoc).info x.2.2) = some 3 ∧
    (nodeAt (traverseTree demoCollab scenarioMap none (setLocation tree21 startLoc) 5) [0]).map
      (fun N => N.info.is_end) = some false ∧
    (nodeAt (traverseTree demoCollab scenarioMap none (setLocation tree21 startLoc) 5)
      [0, 0]).map (fun N => N.info.is_end) = some true :=
  ⟨rfl,
    C4_is_end_iff demoEnv demoCollab scenarioMap 2 1 ⟨0, 0⟩ ⟨4, 4⟩ tree21 startLoc 5 rfl,
    fun h => Option.noConfusion h, by decide, by decide, by decide⟩

/-- C4, counterexample: in the 2x2 scenario with the tree built for `(2, 1)` and budget 5.
(1) Started on the goal cell x = 0, y = 1, the root, which has children, is not marked,
although the terrain at its position is Goal. (2) Started on the cell x = 0, y = 0, the
child 0 of the root resolves onto the goal cell, yet its `is_end` is false: the terrain is
read at the cell the node inherits, before its move. -/
theorem C4_counterexample :
    buildTree demoEnv (initializeTree demoEnv 2) 1 ⟨0, 0⟩ = some (tree21, ⟨4, 4⟩) ∧
    (soilUnder scenarioMap ⟨⟨0, 1⟩, .SOUTH⟩ = t_soil.BASE_STATION ∧
      (setLocation tree21 ⟨⟨0, 1⟩, .SOUTH⟩).children ≠ none ∧
      (traverseTree demoCollab scenarioMap none (setLocation tree21 ⟨⟨0, 1⟩, .SOUTH⟩)
        5).info.is_end = false) ∧
    ((callAt demoCollab scenarioMap none (setLocation tree21 startLoc) 5 [0]).isSome = true ∧
      ∃ N, nodeAt (traverseTree demoCollab scenarioMap none (setLocation tree21 startLoc) 5)
          [0] = some N ∧
        soilUnder scenarioMap N.info.location = t_soil.BASE_STATION ∧
        N.info.is_end = false) :=
  ⟨rfl, ⟨by decide, fun h => Option.noConfusion h, by decide⟩,
    ⟨by decide, _, rfl, by decide, by decide⟩⟩

/-- C5 (amended): after `traverseTree` has run on a freshly built tree, the root never has
`found_base = true`, and a visited non-root node has `found_base = true` iff the terrain
of the cell it inherits from its parent (the parent's resolved position) is Goal; such a
node keeps that inherited location, so its own location is the goal cell, and it has
`is_end = true`. -/
theorem C5_found_base_iff (E : BuildEnv) (K : Collab) (map : t_map) (n m : Int)
    (st st' : BuildState) (t0 : t_node) (loc : t_localisation) (B : Int)
    (hb : buildTree E (initializeTree E n) m st = some (t0, st')) :
    (traverseTree K map none (setLocation t0 loc) B).info.found_base = false ∧
    ∀ (p : List Nat) (i : Nat) (x : Option t_info × t_node × Int),
      callAt K map none (setLocation t0 loc) B (p ++ [i]) = some x →
      ∃ P N, nodeAt (traverseTree K map none (setLocation t0 loc) B) p = some P ∧
        nodeAt (traverseTree K map none (setLocation t0 loc) B) (p ++ [i]) = some N ∧
        (N.info.found_base = true ↔ soilUnder map P.info.location = t_soil.BASE_STATION) ∧
        (N.info.found_base = true →
          N.info.location = P.info.location ∧
          soilUnder map N.info.location = t_soil.BASE_STATION ∧ N.info.is_end = true) := by
  have hfresh := ((built_of_buildTree hb).1.fresh).setLocation loc
  constructor
  · rw [traverseTree_info, traverseStep_root, boundsCheck_fst]
    have h0 := (hfresh [] _ (nodeAt_nil _)).2.2
    cases t0 with
    | mk ch info =>
      simp only [setLocation, t_node.info] at h0 ⊢
      exact h0
  · intro p i x hv
    obtain ⟨y, P, N, _, hP, hN, hc, _, _, _, hNi⟩ := visit_child K map none _ B p i _ hv
    have hz := hfresh _ _ hc
    have hfb : N.info.found_base =
        (x.2.1.info.found_base || decide (soilUnder map P.info.location = t_soil.BASE_STATION)) := by
      rw [hNi, traverseStep_some_found_base]
    rw [hz.2.2] at hfb
    have hiff : N.info.found_base = true ↔ soilUnder map P.info.location = t_soil.BASE_STATION := by
      rw [hfb]; simp
    refine ⟨P, N, hP, hN, hiff, ?_⟩
    intro h
    have h1 := hiff.1 h
    rw [traverseStep_some, if_pos h1] at hNi
    have hloc : N.info.location = P.info.location := by rw [hNi]; rfl
    refine ⟨hloc, by rw [hloc]; exact h1, by rw [hNi]⟩

/-- C5 (amended), witness: in the 2x2 scenario the only node with `found_base = true`
below the child 0 of the root is the child of that child, which inherits the goal cell. -/
theorem C5_found_base_iff_witness :
    buildTree demoEnv (initializeTree demoEnv 2) 1 ⟨0, 0⟩ = some (tree21, ⟨4, 4⟩) ∧
    ((traverseTree demoCollab scenarioMap none (setLocation tree21 startLoc) 5).info.found_base
        = false ∧
    ∀ (p : List Nat) (i : Nat) (x : Option t_info × t_node × Int),
      callAt demoCollab scenarioMap none (setLocation tree21 startLoc) 5 (p ++ [i]) = some x →
      ∃ P N, nodeAt (traverseTree demoCollab scenarioMap none (setLocation tree21 startLoc) 5)
          p = some P ∧
        nodeAt (traverseTree demoCollab scenarioMap none (setLocation tree21 startLoc) 5)
          (p ++ [i]) = some N ∧
        (N.info.found_base = true ↔
          soilUnder scenarioMap P.info.location = t_soil.BASE_STATION) ∧
        (N.info.found_base = true →
          N.info.location = P.info.location ∧
          soilUnder scenarioMap N.info.location = t_soil.BASE_STATION ∧
          N.info.is_end = true)) ∧
    (nodeAt (traverseTree demoCollab scenarioMap none (setLocation tree21 startLoc) 5)
      [0, 0]).map (fun N => (N.info.found_base, N.info.location.pos)) = some (true, ⟨0, 1⟩) :=
  ⟨rfl,
    C5_found_base_iff demoEnv demoCollab scenarioMap 2 1 ⟨0, 0⟩ ⟨4, 4⟩ tree21 startLoc 5 rfl,
    by decide⟩

/-- C5, counterexample: in the 2x2 scenario the child 0 of the root is the depth-1 node
whose move takes the rover from the start cell onto the goal cell; after traversal its
location is the goal cell but its `found_base` and `is_end` are false. The one node with
`found_base = true` is at depth 2: the child of that node. The child 1 of the root leaves
the map and its child is not visited. -/
theorem C5_counterexample :
    buildTree demoEnv (initializeTree demoEnv 2) 1 ⟨0, 0⟩ = some (tree21, ⟨4, 4⟩) ∧
    (callAt demoCollab scenarioMap none (setLocation tree21 startLoc) 5 [0]).isSome = true ∧
    (∃ N, nodeAt (traverseTree demoCollab scenarioMap none (setLocation tree21 startLoc) 5)
        [0] = some N ∧
      N.info.location.pos = ⟨0, 1⟩ ∧
      soilUnder scenarioMap N.info.location = t_soil.BASE_STATION ∧
      N.info.found_base = false ∧ N.info.is_end = false) ∧
    (traverseTree demoCollab scenarioMap none (setLocation tree21 startLoc) 5).info.found_base
      = false ∧
    (nodeAt (traverseTree demoCollab scenarioMap none (setLocation tree21 startLoc) 5)
      [0, 0]).map (fun N => N.info.found_base) = some true ∧
    (nodeAt (traverseTree demoCollab scenarioMap none (setLocation tree21 startLoc) 5)
      [1]).map (fun N => N.info.found_base) = some false ∧
    (nodeAt (traverseTree demoCollab scenarioMap none (setLocation tree21 startLoc) 5)
      [1, 0]).map (fun N => N.info.found_base) = some false :=
  ⟨rfl, by decide, ⟨_, rfl, by decide, by decide, by decide, by decide⟩, by decide, by decide,
    by decide, by decide⟩

/-- C6: called with `best = none`, `findBestPath` returns nothing iff no node with
`found_base = true` is reachable under the pruning rule; otherwise it returns a reachable
node with `found_base = true` whose cost is at most the cost of every reachable node with
`found_base = true`. This holds on every tree, in particular on a traversed one. -/
theorem C6_findBestPath_minimal (root : t_node) :
    (findBestPath [] root none = none ↔
      ¬ ∃ p n, Reachable root p n ∧ n.info.found_base = true) ∧
    ∀ p n, findBestPath [] root none = some (p, n) →
      Reachable root p n ∧ n.info.found_base = true ∧
      ∀ q k, Reachable root q k → k.info.found_base = true → n.info.cost ≤ k.info.cost := by
  obtain ⟨h1, h2⟩ := foldl_updateBest [] (reach root) none
  rw [findBestPath_eq_foldl]
  constructor
  · rw [h1]
    constructor
    · rintro ⟨_, h⟩ ⟨p, n, hr, hf⟩
      have := h (p, n) ((mem_reach_iff root p n).2 hr)
      rw [hf] at this
      cases this
    · intro h
      refine ⟨rfl, ?_⟩
      intro e he
      cases hf : e.2.info.found_base with
      | false => rfl
      | true => exact absurd ⟨e.1, e.2, (mem_reach_iff root e.1 e.2).1 he, hf⟩ h
  · intro p n hres
    obtain ⟨hsrc, _, hmin⟩ := h2 (p, n) hres
    rcases hsrc with h | ⟨e, he, heq, hf⟩
    · cases h
    · simp only [List.nil_append, Prod.mk.injEq] at heq
      obtain ⟨rfl, rfl⟩ := heq
      refine ⟨(mem_reach_iff root e.1 e.2).1 he, hf, ?_⟩
      intro q k hr hk
      exact hmin (q, k) ((mem_reach_iff root q k).2 hr) hk

/-- C7: `findPath` prints a block for exactly the nodes with `found_base = true` that are
reachable under the pruning rule, each once and in depth-first left-to-right pre-order (the
paths of the nodes are strictly increasing in lexicographic order); the block carries the
node's cost, and its table, printed from the chain of the node's ancestors, has as
many lines as the node's depth. This holds on every tree, in particular on a traversed
one. -/
theorem C7_findPath_blocks (root : t_node) :
    ∃ L : List (List Nat × t_node),
      (∀ p n, (p, n) ∈ L ↔ Reachable root p n ∧ n.info.found_base = true) ∧
      L.Pairwise (fun a b => List.Lex (fun x y : Nat => x < y) a.1 b.1) ∧
      findPath [] root =
        L.map (fun e =>
          { arrival := e.2.info.location, path := printPath (ancestorsAt root e.1),
            cost := e.2.info.cost }) ∧
      ∀ e ∈ L, (printPath (ancestorsAt root e.1)).length = e.1.length := by
  refine ⟨(reach root).filter (fun e => e.2.info.found_base), ?_, ?_, ?_, ?_⟩
  · intro p n
    rw [List.mem_filter, mem_reach_iff]
  · exact (reach_pairwise root).sublist (List.filter_sublist _)
  · rw [findPath_eq_map]
    simp
  · intro e he
    have hr := (mem_reach_iff root e.1 e.2).1 (List.mem_filter.1 he).1
    rw [printPath_length, ancestorsAt_length e.1 root e.2 hr.nodeAt]

/-- C8 (counterexample): with the tree built for `(2, 1)`, started at x = 0, y = 0 facing
south with budget 5. (1) On `ergStartMap` the child 1 of the root starts on the Restricted
cell and resolves onto an Open (REG) cell; it receives 5 and hands 4 to its child, not 3.
(2) On `regStartMap` the child 0 of the root starts on the Open cell and resolves onto a
Restricted cell; it receives 5 and hands 3 to its child, not 4. -/
theorem C8_counterexample :
    buildTree demoEnv (initializeTree demoEnv 2) 1 ⟨0, 0⟩ = some (tree21, ⟨4, 4⟩) ∧
    ((nodeAt (traverseTree demoCollab ergStartMap none (setLocation tree21 startLoc) 5) [1]).map
        (fun N => (N.info.location.pos, soilUnder ergStartMap N.info.location)) =
        some (⟨0, 1⟩, t_soil.REG) ∧
      (callAt demoCollab ergStartMap none (setLocation tree21 startLoc) 5 [1]).map
        (fun y => y.2.2) = some 5 ∧
      (callAt demoCollab ergStartMap none (setLocation tree21 startLoc) 5 [1, 0]).map
        (fun x => x.2.2) = some 4) ∧
    ((nodeAt (traverseTree demoCollab regStartMap none (setLocation tree21 startLoc) 5) [0]).map
        (fun N => (N.info.location.pos, soilUnder regStartMap N.info.location)) =
        some (⟨0, 1⟩, t_soil.ERG) ∧
      (callAt demoCollab regStartMap none (setLocation tree21 startLoc) 5 [0]).map
        (fun y => y.2.2) = some 5 ∧
      (callAt demoCollab regStartMap none (setLocation tree21 startLoc) 5 [0, 0]).map
        (fun x => x.2.2) = some 3) :=
  ⟨rfl, ⟨by decide, by decide, by decide⟩, ⟨by decide, by decide, by decide⟩⟩

/-- C8 (amended): in `traverseTree` the children of the root receive the initial budget
unchanged, and the children of a visited non-root node (which are visited only when Goal or
Obstacle terrain has not stopped that node) receive the budget that node received minus 2
when the terrain of the cell that node inherits from its parent (the parent's resolved
position, where the node's move starts) is REG, and minus 1 for any other terrain of that
cell; this for a received budget of at least -2^31 + 2, which the decrements keep in the
range of `int`. -/
theorem C8_budget_handed_down (K : Collab) (map : t_map) (t : t_node) (B : Int)
    (p : List Nat) (i : Nat) (y x : Option t_info × t_node × Int)
    (hy : callAt K map none t B p = some y)
    (hx : callAt K map none t B (p ++ [i]) = some x)
    (hr : -2147483646 ≤ y.2.2) :
    (p = [] → x.2.2 = B) ∧
    (p ≠ [] → ∃ g, y.1 = some g ∧
      soilUnder map g.location ≠ t_soil.BASE_STATION ∧
      soilUnder map g.location ≠ t_soil.CREVASSE ∧
      (x.2.2 = if soilUnder map g.location = t_soil.REG then y.2.2 - 2 else y.2.2 - 1) ∧
      -2147483648 ≤ x.2.2) := by
  obtain ⟨y', P, N, hy', _, _, _, _, hstep, _, _⟩ := visit_child K map none t B p i x hx
  rw [hy] at hy'
  cases hy'
  have hsnd : (traverseStep K map y.1 false y.2.1.info y.2.2).2 = some x.2.2 := by rw [hstep]
  constructor
  · intro hp
    subst hp
    rw [callAt_nil] at hy
    cases hy
    rw [traverseStep_root, boundsCheck_snd] at hsnd
    split_ifs at hsnd
    simp only [Option.some.injEq] at hsnd
    exact hsnd.symm
  · intro hp
    rcases List.eq_nil_or_concat p with h | ⟨q, j, h⟩
    · exact absurd h hp
    · rw [List.concat_eq_append] at h
      subst h
      obtain ⟨_, G, _, _, _, _, _, hg, _, _, _⟩ := visit_child K map none t B q j y hy
      refine ⟨G.info, hg, ?_⟩
      rw [hg] at hsnd
      obtain ⟨h1, h2, h3, _⟩ := traverseStep_some_snd K map G.info false y.2.1.info y.2.2 _ hsnd
      have hx2 : x.2.2 =
          if soilUnder map G.info.location = t_soil.REG then y.2.2 - 2 else y.2.2 - 1 := by
        rw [h1]; rfl
      refine ⟨h2, h3, hx2, ?_⟩
      rw [hx2]
      split_ifs <;> omega

/-- C8 (amended), witness: on the all-REG map with budget 5, the child 0 of the root
receives 5 and its own child receives 3. -/
theorem C8_budget_handed_down_witness :
    ∃ y x, callAt demoCollab regMap none (setLocation tree21 startLoc) 5 [0] = some y ∧
      callAt demoCollab regMap none (setLocation tree21 startLoc) 5 ([0] ++ [0]) = some x ∧
      -2147483646 ≤ y.2.2 ∧
      (([0] : List Nat) = [] → x.2.2 = 5) ∧
      (([0] : List Nat) ≠ [] → ∃ g, y.1 = some g ∧
        soilUnder regMap g.location ≠ t_soil.BASE_STATION ∧
        soilUnder regMap g.location ≠ t_soil.CREVASSE ∧
        (x.2.2 = if soilUnder regMap g.location = t_soil.REG then y.2.2 - 2 else y.2.2 - 1) ∧
        -2147483648 ≤ x.2.2) ∧
      y.2.2 = 5 ∧ x.2.2 = 3 :=
  ⟨_, _, rfl, rfl, by decide,
    (C8_budget_handed_down demoCollab regMap (setLocation tree21 startLoc) 5 [0] 0 _ _
      rfl rfl (by decide)).1,
    (C8_budget_handed_down demoCollab regMap (setLocation tree21 startLoc) 5 [0] 0 _ _
      rfl rfl (by decide)).2,
    by decide, by decide⟩

/-- C9, the code at two failing inputs, on an all-REG map. (1) Budget 5, the tree built
for `(4, 1)`: along the first children the budgets received are 5, 3, 1; the node at depth
3 receives 1, spends 2, and since -1 is not 0 its child at depth 4 is visited with the
budget -1. (2) Budget 1, the tree built for `(2, 1)`: the child 0 of the root receives 1
and is not marked `is_end`; its child, at depth 2, is visited with the budget -1. -/
theorem C9_budget_overrun :
    ((buildTree demoEnv (initializeTree demoEnv 4) 1 ⟨0, 0⟩).bind (fun b =>
        (callAt demoCollab regMap none (setLocation b.1 startLoc) 5 [0, 0, 0]).map
          (fun x => x.2.2)) = some 1 ∧
      (buildTree demoEnv (initializeTree demoEnv 4) 1 ⟨0, 0⟩).bind (fun b =>
        (callAt demoCollab regMap none (setLocation b.1 startLoc) 5 [0, 0, 0, 0]).map
          (fun x => x.2.2)) = some (-1)) ∧
    (buildTree demoEnv (initializeTree demoEnv 2) 1 ⟨0, 0⟩ = some (tree21, ⟨4, 4⟩) ∧
      (callAt demoCollab regMap none (setLocation tree21 startLoc) 1 [0]).map
        (fun x => x.2.2) = some 1 ∧
      (callAt demoCollab regMap none (setLocation tree21 startLoc) 1 [0, 0]).map
        (fun x => x.2.2) = some (-1) ∧
      (nodeAt (traverseTree demoCollab regMap none (setLocation tree21 startLoc) 1) [0]).map
        (fun N => N.info.is_end) = some false) :=
  ⟨⟨by decide, by decide⟩, rfl, by decide, by decide, by decide⟩

/-- C10: after `traverseTree` has run on a freshly built tree, below a visited node that
has `is_end = true` no node is visited, and every strict descendant is exactly the node
that was built, with cost 0 and both flags false. -/
theorem C10_pruned_subtree_untouched (E : BuildEnv) (K : Collab) (map : t_map) (n m : Int)
    (st st' : BuildState) (t0 : t_node) (loc : t_localisation) (B : Int) (p q : List Nat)
    (x : Option t_info × t_node × Int) (N : t_node)
    (hb : buildTree E (initializeTree E n) m st = some (t0, st'))
    (hv : callAt K map none (setLocation t0 loc) B p = some x)
    (hN : nodeAt (traverseTree K map none (setLocation t0 loc) B) p = some N)
    (hend : N.info.is_end = true) (hq : q ≠ []) :
    callAt K map none (setLocation t0 loc) B (p ++ q) = none ∧
    nodeAt (traverseTree K map none (setLocation t0 loc) B) (p ++ q) = nodeAt t0 (p ++ q) ∧
    ∀ d, nodeAt t0 (p ++ q) = some d →
      d.info.cost = 0 ∧ d.info.is_end = false ∧ d.info.found_base = false := by
  have hfresh0 := (built_of_buildTree hb).1.fresh
  have hfresh := hfresh0.setLocation loc
  have hc := callAt_nodeAt K map p none _ B x hv
  have hN' := nodeAt_traverseTree K map p none _ B x hv
  rw [hN] at hN'
  simp only [Option.some.injEq] at hN'
  have hz := hfresh _ _ hc
  obtain ⟨i, q', rfl⟩ : ∃ i q', q = i :: q' := by
    cases q with
    | nil => exact absurd rfl hq
    | cons i q' => exact ⟨i, q', rfl⟩
  have hstop : (traverseStep K map x.1 x.2.1.children.isNone x.2.1.info x.2.2).2 = none := by
    cases hs : (traverseStep K map x.1 x.2.1.children.isNone x.2.1.info x.2.2).2 with
    | none => rfl
    | some r' =>
      have := traverseStep_continue K map x.1 _ x.2.1.info x.2.2 r' hs
      rw [← traverseTree_info, ← hN', hend, hz.2.1] at this
      cases this
  have hsame : nodeAt (setLocation t0 loc) (p ++ i :: q') = nodeAt t0 (p ++ i :: q') := by
    cases p with
    | nil => exact nodeAt_setLocation_cons t0 loc i q'
    | cons j p' => exact nodeAt_setLocation_cons t0 loc j (p' ++ i :: q')
  refine ⟨?_, ?_, fun d hd => hfresh0 _ d hd⟩
  · rw [callAt_append, hv]
    simp only [Option.some_bind]
    cases hcall : callAt K map x.1 x.2.1 x.2.2 (i :: q') with
    | none => rfl
    | some z =>
      obtain ⟨l, r', c, hl, hr, _⟩ := (callAt_cons K map _ _ _ i q' z).1 hcall
      rw [hl] at hstop
      simp only [Option.isNone_some] at hstop
      rw [hstop] at hr
      cases hr
  · rw [← hsame, nodeAt_append, hN, nodeAt_append, hc]
    simp only [Option.some_bind]
    rw [hN']
    exact nodeAt_cons_congr (traverseTree_children_of_stop K map _ _ _ hstop) i q'

/-- C10, witness: in the 2x2 scenario the child 1 of the root leaves the map and is marked
`is_end`; its child is not visited and is the node that was built. -/
theorem C10_pruned_subtree_untouched_witness :
    ∃ x N, buildTree demoEnv (initializeTree demoEnv 2) 1 ⟨0, 0⟩ = some (tree21, ⟨4, 4⟩) ∧
      callAt demoCollab scenarioMap none (setLocation tree21 startLoc) 5 [1] = some x ∧
      nodeAt (traverseTree demoCollab scenarioMap none (setLocation tree21 startLoc) 5) [1]
        = some N ∧
      N.info.is_end = true ∧ ([0] : List Nat) ≠ [] ∧
      (callAt demoCollab scenarioMap none (setLocation tree21 startLoc) 5 ([1] ++ [0]) = none ∧
        nodeAt (traverseTree demoCollab scenarioMap none (setLocation tree21 startLoc) 5)
          ([1] ++ [0]) = nodeAt tree21 ([1] ++ [0]) ∧
        ∀ d, nodeAt tree21 ([1] ++ [0]) = some d →
          d.info.cost = 0 ∧ d.info.is_end = false ∧ d.info.found_base = false) :=
  ⟨_, _, rfl, rfl, rfl, by decide, by decide,
    C10_pruned_subtree_untouched demoEnv demoCollab scenarioMap 2 1 ⟨0, 0⟩ ⟨4, 4⟩ tree21
      startLoc 5 [1] [0] _ _ rfl rfl rfl (by decide) (by decide)⟩

/-- C11 (counterexample): for `numChoices = 1`, `minChoices = 3`, on a map of Open cells
with a Goal cell away from the route, nothing is rejected: the run returns a root that was
given one child (identifier 0), and traversal has resolved this child (cost 1, one cell east
of the start). -/
theorem C11_counterexample :
    executePhase demoEnv demoCollab demoLocInit 1 3 farGoalMap 1 ⟨0, 0⟩ =
      some (.mk (some [.mk (some []) ⟨0, false, 0, false, 1, ⟨⟨5, 1⟩, .EAST⟩, 0⟩])
          ⟨-1, false, -1, false, 0, ⟨⟨4, 1⟩, .EAST⟩, 1⟩, [], ⟨1, 1⟩) := by
  rfl

/-- C11 (amended): the run rejects no pair of parameters with `minChoices = m >
numChoices = n`. For each of them `initializeTree` allocates the root (identifier -1,
`num_children = n`) and `buildTree` runs on it and returns. Either `m = n + 1`, and
`buildTree` returns the root as it is, without an array of children (the traversal of that
root is the subject of C18 and is left out here); or `m > n + 1`, and the root is expanded:
the tree is traversed from the location `loc_init(4, 1, EAST)` with budget 5, reading only
children that exist, and the traversed root is returned, and for `n ≥ 0` it has an array of
`n` children, so nodes are allocated below it. -/
theorem C11_no_rejection (E : BuildEnv) (K : Collab)
    (loc_init : Int → Int → t_orientation → t_localisation) (n m : Int) (map : t_map)
    (mode : Int) (st : BuildState) (h : n < m) :
    ∃ t0 st', buildTree E (initializeTree E n) m st = some (t0, st') ∧
      t0.info.value = -1 ∧ t0.info.num_children = n ∧
      ((m = n + 1 ∧ t0 = initializeTree E n) ∨
      (n + 1 < m ∧
        childReadsOk K map none (setLocation t0 (loc_init 4 1 .EAST)) 5 = true ∧
        (∃ out, executePhase E K loc_init n m map mode st =
          some (traverseTree K map none (setLocation t0 (loc_init 4 1 .EAST)) 5, out, st')) ∧
        (traverseTree K map none (setLocation t0 (loc_init 4 1 .EAST)) 5).info.value = -1 ∧
        (traverseTree K map none (setLocation t0 (loc_init 4 1 .EAST)) 5).info.num_children
          = n ∧
        (0 ≤ n →
          ∃ l, (traverseTree K map none (setLocation t0 (loc_init 4 1 .EAST)) 5).children =
            some l ∧ (l.length : Int) = n))) := by
  obtain ⟨t0, st', hb, hB, hi⟩ := buildTree_built E n m st
  have hnc : t0.info.num_children = n := by rw [hi]; rfl
  refine ⟨t0, st', hb, by rw [hi]; rfl, hnc, ?_⟩
  rcases (show m = n + 1 ∨ n + 1 < m by omega) with hm | hm
  · left
    have hb' : buildTree E (initializeTree E n) m st = some (initializeTree E n, st) := by
      simp [buildTree, buildTreeAux, initializeTree, t_node.info, hm]
    rw [hb'] at hb
    cases hb
    exact ⟨hm, rfl⟩
  · right
    refine ⟨hm, ?_, ⟨_, executePhase_of_build hb K loc_init map mode⟩, ?_, ?_, ?_⟩
    · refine (hB.of_setLocation (loc_init 4 1 .EAST)).reads_ok K map none 5 ?_
      intro _ hch
      cases hB with
      | leaf info hz hstop => simp only [info_mk] at hnc; omega
      | failed info hz hstop hneg => exact le_of_lt hneg
      | node info l hz hstop hpos hlen hch' hall => cases hch
    · rw [traverseTree_root_info]
      simp only [setLocation, info_mk, hi]
      rfl
    · rw [traverseTree_root_info]
      simp only [setLocation, info_mk, hi]
      rfl
    · intro hn
      cases hB with
      | leaf info hz hstop => simp only [info_mk] at hnc; omega
      | failed info hz hstop hneg => simp only [info_mk] at hnc; omega
      | node info l hz hstop hpos hlen hch hall =>
        simp only [info_mk] at hnc
        obtain ⟨l', hl', hlen'⟩ := traverseTree_children_length K map none
          (setLocation (.mk (some l) info) (loc_init 4 1 .EAST)) 5 l rfl
        refine ⟨l', hl', ?_⟩
        rw [hlen', hlen, hnc]
        omega

/-- C11 (amended), witness: `numChoices = 1`, `minChoices = 3`. -/
theorem C11_no_rejection_witness :
    (1 : Int) < 3 ∧
    ∃ t0 st', buildTree demoEnv (initializeTree demoEnv 1) 3 ⟨0, 0⟩ = some (t0, st') ∧
      t0.info.value = -1 ∧ t0.info.num_children = 1 ∧
      (((3 : Int) = 1 + 1 ∧ t0 = initializeTree demoEnv 1) ∨
      ((1 : Int) + 1 < 3 ∧
        childReadsOk demoCollab farGoalMap none (setLocation t0 (demoLocInit 4 1 .EAST)) 5 = true ∧
        (∃ out, executePhase demoEnv demoCollab demoLocInit 1 3 farGoalMap 1 ⟨0, 0⟩ =
          some (traverseTree demoCollab farGoalMap none (setLocation t0 (demoLocInit 4 1 .EAST)) 5,
            out, st')) ∧
        (traverseTree demoCollab farGoalMap none
          (setLocation t0 (demoLocInit 4 1 .EAST)) 5).info.value = -1 ∧
        (traverseTree demoCollab farGoalMap none
          (setLocation t0 (demoLocInit 4 1 .EAST)) 5).info.num_children = 1 ∧
        ((0 : Int) ≤ 1 →
          ∃ l, (traverseTree demoCollab farGoalMap none
            (setLocation t0 (demoLocInit 4 1 .EAST)) 5).children = some l ∧
            (l.length : Int) = 1))) :=
  ⟨by decide, C11_no_rejection demoEnv demoCollab demoLocInit 1 3 farGoalMap 1 ⟨0, 0⟩ (by decide)⟩

/-- C12 (counterexample): a second run changes resolved values. On the 2x2 scenario with the
tree built for `numChoices = 2`, `minChoices = 1`, budget 5, the child of index 0 has cost 1
after the first run and cost 2 after the second. On `ergGoalMap`, with the tree built from a
sampler whose first move is a three-cell advance, the node at path 0, 0 has
`found_base = false` after the first run and `found_base = true` after the second: the first
run has left the shortened move in its parent. -/
theorem C12_counterexample :
    buildTree demoEnv (initializeTree demoEnv 2) 1 ⟨0, 0⟩ = some (tree21, ⟨4, 4⟩) ∧
    (nodeAt (traverseTree demoCollab scenarioMap none (setLocation tree21 startLoc) 5) [0]).map
        (fun k => k.info.cost) = some 1 ∧
    (nodeAt (traverseTree demoCollab scenarioMap none
        (traverseTree demoCollab scenarioMap none (setLocation tree21 startLoc) 5) 5) [0]).map
        (fun k => k.info.cost) = some 2 ∧
    (buildTree farEnv (initializeTree farEnv 2) 1 ⟨0, 0⟩).bind (fun b =>
      (nodeAt (traverseTree demoCollab ergGoalMap none (setLocation b.1 startLoc) 5)
        [0, 0]).map (fun k => k.info.found_base)) = some false ∧
    (buildTree farEnv (initializeTree farEnv 2) 1 ⟨0, 0⟩).bind (fun b =>
      (nodeAt (traverseTree demoCollab ergGoalMap none
        (traverseTree demoCollab ergGoalMap none (setLocation b.1 startLoc) 5) 5)
        [0, 0]).map (fun k => k.info.found_base)) = some true := by
  have hb : buildTree farEnv (initializeTree farEnv 2) 1 ⟨0, 0⟩ =
      some (.mk (some [.mk (some [.mk none (demoInfo 2 2 0)]) (demoInfo 0 2 1),
        .mk (some [.mk none (demoInfo 3 2 0)]) (demoInfo 1 3 1)]) (demoInfo (-1) (-1) 2),
        ⟨4, 4⟩) := rfl
  have h1 : traverseTree demoCollab ergGoalMap none (setLocation
      (.mk (some [.mk (some [.mk none (demoInfo 2 2 0)]) (demoInfo 0 2 1),
        .mk (some [.mk none (demoInfo 3 2 0)]) (demoInfo 1 3 1)]) (demoInfo (-1) (-1) 2))
      startLoc) 5 =
      .mk (some [
        .mk (some [.mk none ⟨2, true, 2, false, 2, ⟨⟨0, 5⟩, .SOUTH⟩, 0⟩])
          ⟨1, false, 0, false, 1, ⟨⟨0, 2⟩, .SOUTH⟩, 1⟩,
        .mk (some [.mk none ⟨1, true, 3, false, 2, ⟨⟨0, 2⟩, .SOUTH⟩, 0⟩])
          ⟨3, false, 1, false, 1, ⟨⟨0, 0⟩, .SOUTH⟩, 1⟩])
        ⟨-1, false, -1, false, 0, ⟨⟨0, 0⟩, .SOUTH⟩, 2⟩ := rfl
  refine ⟨rfl, by decide, by decide, ?_, ?_⟩
  · rw [hb]
    simp only [Option.bind]
    rw [h1]
    decide
  · rw [hb]
    simp only [Option.bind]
    rw [h1]
    decide

/-- C12 (amended): on a map without Restricted (ERG) cells, a second run of `traverseTree`
on the tree left by a first run, with the same map and budget, leaves `is_end`,
`found_base`, the location and the move of every node as the first run left them, and the
cost of the root; the cost of every node with a parent that the second run visits is not
kept: to its cost after the first run are added, in the arithmetic of `int` (modulo 2^32,
into the range from -2^31 to 2^31 - 1), the cost that its parent has after the second run and
the cost of the parent's cell. -/
theorem C12_second_run (K : Collab) (map : t_map) (t : t_node) (B : Int)
    (hERG : ∀ y x, map.soils y x ≠ t_soil.ERG) :
    (∀ (p : List Nat) (N1 : t_node), nodeAt (traverseTree K map none t B) p = some N1 →
      ∃ N2, nodeAt (traverseTree K map none (traverseTree K map none t B) B) p = some N2 ∧
        N2.info.is_end = N1.info.is_end ∧ N2.info.found_base = N1.info.found_base ∧
        N2.info.location = N1.info.location ∧ N2.info.movement = N1.info.movement) ∧
    (traverseTree K map none (traverseTree K map none t B) B).info.cost =
      (traverseTree K map none t B).info.cost ∧
    (∀ (p : List Nat) (i : Nat) (x : Option t_info × t_node × Int),
      callAt K map none (traverseTree K map none t B) B (p ++ [i]) = some x →
      ∃ P2 N1 N2, nodeAt (traverseTree K map none (traverseTree K map none t B) B) p = some P2 ∧
        nodeAt (traverseTree K map none t B) (p ++ [i]) = some N1 ∧
        nodeAt (traverseTree K map none (traverseTree K map none t B) B) (p ++ [i]) = some N2 ∧
        N2.info.cost =
          wrapInt (N1.info.cost + (P2.info.cost + costUnder map P2.info.location)) ∧
        (-2147483648 ≤ N1.info.cost + (P2.info.cost + costUnder map P2.info.location) →
          N1.info.cost + (P2.info.cost + costUnder map P2.info.location) < 2147483648 →
          N2.info.cost = N1.info.cost + (P2.info.cost + costUnder map P2.info.location))) := by
  refine ⟨?_, ?_, ?_⟩
  · intro p N1 hN1
    obtain ⟨N2, hN2, he⟩ := traverseTree_again K map hERG t none none B
      (fun nc info => ⟨(traverseStep K map none nc info B).1.cost, by
        rw [traverseStep_root_again]⟩) p N1 hN1
    refine ⟨N2, hN2, ?_⟩
    unfold EqExceptCost at he
    rw [he]
    exact ⟨rfl, rfl, rfl, rfl⟩
  · rw [traverseTree_root_info, traverseTree_root_info]
  · intro p i x hv
    obtain ⟨P, N, hP, hN, hc⟩ := visit_child_cost K map _ B p i x hv
    exact ⟨P, x.2.1, N, hP, callAt_nodeAt K map _ none _ B x hv, hN, hc,
      fun h1 h2 => by rw [hc, wrapInt_of_range _ h1 h2]⟩

/-- C12 (witness): the 2x2 scenario has no Restricted cell. -/
theorem C12_second_run_witness :
    (∀ y x, scenarioMap.soils y x ≠ t_soil.ERG) ∧
    (traverseTree demoCollab scenarioMap none
        (traverseTree demoCollab scenarioMap none (setLocation tree21 startLoc) 5) 5).info.cost =
      (traverseTree demoCollab scenarioMap none (setLocation tree21 startLoc) 5).info.cost :=
  ⟨fun y x => by unfold scenarioMap; dsimp only; split_ifs <;> decide,
    (C12_second_run demoCollab scenarioMap (setLocation tree21 startLoc) 5
      (fun y x => by unfold scenarioMap; dsimp only; split_ifs <;> decide)).2.1⟩

set_option maxHeartbeats 4000000 in
/-- C13 (counterexample): on `bigCostMap`, where every cell costs 1000000000, the tree built
for `numChoices = 3`, `minChoices = 1` is traversed with budget 5. The nodes at depth 3 get
the cost 3000000000, which an `int` holds as -1294967296, less than the cost 2000000000 of
the nodes at depth 2. `findBestPath` returns the node at path 0, 0, 0, of depth 3, although
the node at path 1, 0, of depth 2, is reachable and has found the base. -/
theorem C13_counterexample :
    (∀ y x, bigCostMap.costs y x = 1000000000) ∧
    ∃ T, (buildTree demoEnv (initializeTree demoEnv 3) 1 ⟨0, 0⟩).map
        (fun b => traverseTree demoCollab bigCostMap none (setLocation b.1 startLoc) 5) =
          some T ∧
      (findBestPath [] T none).map (fun r => (r.1, r.2.info.found_base, r.2.info.cost)) =
        some ([0, 0, 0], true, -1294967296) ∧
      ∃ k, Reachable T [1, 0] k ∧ k.info.found_base = true ∧ k.info.cost = 2000000000 := by
  have hb : buildTree demoEnv (initializeTree demoEnv 3) 1 ⟨0, 0⟩ = some (
      .mk (some [
        .mk (some [
          .mk (some [
            .mk none ⟨0, false, 5, false, 0, ⟨⟨0, 0⟩, .NORTH⟩, 0⟩])
            ⟨0, false, 3, false, 0, ⟨⟨0, 0⟩, .NORTH⟩, 1⟩,
          .mk (some [
            .mk none ⟨0, false, 6, false, 0, ⟨⟨0, 0⟩, .NORTH⟩, 0⟩])
            ⟨1, false, 4, false, 0, ⟨⟨0, 0⟩, .NORTH⟩, 1⟩])
          ⟨0, false, 0, false, 0, ⟨⟨0, 0⟩, .NORTH⟩, 2⟩,
        .mk (some [
          .mk (some [
            .mk none ⟨0, false, 9, false, 0, ⟨⟨0, 0⟩, .NORTH⟩, 0⟩])
            ⟨0, false, 7, false, 0, ⟨⟨0, 0⟩, .NORTH⟩, 1⟩,
          .mk (some [
            .mk none ⟨0, false, 10, false, 0, ⟨⟨0, 0⟩, .NORTH⟩, 0⟩])
            ⟨1, false, 8, false, 0, ⟨⟨0, 0⟩, .NORTH⟩, 1⟩])
          ⟨1, false, 1, false, 0, ⟨⟨0, 0⟩, .NORTH⟩, 2⟩,
        .mk (some [
          .mk (some [
            .mk none ⟨0, false, 13, false, 0, ⟨⟨0, 0⟩, .NORTH⟩, 0⟩])
            ⟨0, false, 11, false, 0, ⟨⟨0, 0⟩, .NORTH⟩, 1⟩,
          .mk (some [
            .mk none ⟨0, false, 14, false, 0, ⟨⟨0, 0⟩, .NORTH⟩, 0⟩])
            ⟨1, false, 12, false, 0, ⟨⟨0, 0⟩, .NORTH⟩, 1⟩])
          ⟨2, false, 2, false, 0, ⟨⟨0, 0⟩, .NORTH⟩, 2⟩])
        ⟨(-1), false, (-1), false, 0, ⟨⟨0, 0⟩, .NORTH⟩, 3⟩,
      ⟨15, 15⟩) := rfl
  have ht : traverseTree demoCollab bigCostMap none (setLocation (
      .mk (some [
        .mk (some [
          .mk (some [
            .mk none ⟨0, false, 5, false, 0, ⟨⟨0, 0⟩, .NORTH⟩, 0⟩])
            ⟨0, false, 3, false, 0, ⟨⟨0, 0⟩, .NORTH⟩, 1⟩,
          .mk (some [
            .mk none ⟨0, false, 6, false, 0, ⟨⟨0, 0⟩, .NORTH⟩, 0⟩])
            ⟨1, false, 4, false, 0, ⟨⟨0, 0⟩, .NORTH⟩, 1⟩])
          ⟨0, false, 0, false, 0, ⟨⟨0, 0⟩, .NORTH⟩, 2⟩,
        .mk (some [
          .mk (some [
            .mk none ⟨0, false, 9, false, 0, ⟨⟨0, 0⟩, .NORTH⟩, 0⟩])
            ⟨0, false, 7, false, 0, ⟨⟨0, 0⟩, .NORTH⟩, 1⟩,
          .mk (some [
            .mk none ⟨0, false, 10, false, 0, ⟨⟨0, 0⟩, .NORTH⟩, 0⟩])
            ⟨1, false, 8, false, 0, ⟨⟨0, 0⟩, .NORTH⟩, 1⟩])
          ⟨1, false, 1, false, 0, ⟨⟨0, 0⟩, .NORTH⟩, 2⟩,
        .mk (some [
          .mk (some [
            .mk none ⟨0, false, 13, false, 0, ⟨⟨0, 0⟩, .NORTH⟩, 0⟩])
            ⟨0, false, 11, false, 0, ⟨⟨0, 0⟩, .NORTH⟩, 1⟩,
          .mk (some [
            .mk none ⟨0, false, 14, false, 0, ⟨⟨0, 0⟩, .NORTH⟩, 0⟩])
            ⟨1, false, 12, false, 0, ⟨⟨0, 0⟩, .NORTH⟩, 1⟩])
          ⟨2, false, 2, false, 0, ⟨⟨0, 0⟩, .NORTH⟩, 2⟩])
        ⟨(-1), false, (-1), false, 0, ⟨⟨0, 0⟩, .NORTH⟩, 3⟩)
      startLoc) 5 =
      .mk (some [
        .mk (some [
          .mk (some [
            .mk none ⟨0, true, 5, true, (-1294967296), ⟨⟨0, 2⟩, .SOUTH⟩, 0⟩])
            ⟨0, false, 3, false, 2000000000, ⟨⟨0, 2⟩, .SOUTH⟩, 1⟩,
          .mk (some [
            .mk none ⟨0, true, 6, false, (-1294967296), ⟨⟨0, 4⟩, .SOUTH⟩, 0⟩])
            ⟨1, false, 4, false, 2000000000, ⟨⟨0, 3⟩, .SOUTH⟩, 1⟩])
          ⟨0, false, 0, false, 1000000000, ⟨⟨0, 1⟩, .SOUTH⟩, 2⟩,
        .mk (some [
          .mk (some [
            .mk none ⟨0, false, 9, false, 0, ⟨⟨0, 0⟩, .NORTH⟩, 0⟩])
            ⟨0, true, 7, true, 2000000000, ⟨⟨0, 2⟩, .SOUTH⟩, 1⟩,
          .mk (some [
            .mk none ⟨0, false, 10, false, 0, ⟨⟨0, 0⟩, .NORTH⟩, 0⟩])
            ⟨1, true, 8, true, 2000000000, ⟨⟨0, 2⟩, .SOUTH⟩, 1⟩])
          ⟨1, false, 1, false, 1000000000, ⟨⟨0, 2⟩, .SOUTH⟩, 2⟩,
        .mk (some [
          .mk (some [
            .mk none ⟨0, true, 13, false, (-1294967296), ⟨⟨0, 5⟩, .SOUTH⟩, 0⟩])
            ⟨0, false, 11, false, 2000000000, ⟨⟨0, 4⟩, .SOUTH⟩, 1⟩,
          .mk (some [
            .mk none ⟨0, true, 14, false, (-1294967296), ⟨⟨0, 6⟩, .SOUTH⟩, 0⟩])
            ⟨1, false, 12, false, 2000000000, ⟨⟨0, 5⟩, .SOUTH⟩, 1⟩])
          ⟨2, false, 2, false, 1000000000, ⟨⟨0, 3⟩, .SOUTH⟩, 2⟩])
        ⟨(-1), false, (-1), false, 0, ⟨⟨0, 0⟩, .SOUTH⟩, 3⟩ := rfl
  refine ⟨fun _ _ => rfl, ?_⟩
  rw [hb]
  simp only [Option.map]
  rw [ht]
  refine ⟨_, rfl, by decide, _, Reachable.child _ _ 1 _ [0] _ rfl (by decide) rfl
    (Reachable.child _ _ 0 _ [] _ rfl (by decide) rfl (Reachable.here _)), ?_, ?_⟩ <;> rfl

/-- C13 (amended): on a map whose cells all have the same cost `c > 0`, for the tree built
for `numChoices = n ≥ 0` with `c * n` in the range of `int` (`c * n < 2^31`), after
`traverseTree` has run on the freshly built tree every visited node's cost is `c` times its
depth, and the node returned by `findBestPath` (from an empty best) is a node with
`found_base = true` of minimal depth among the reachable nodes with `found_base = true`. -/
theorem C13_uniform_cost_min_depth (E : BuildEnv) (K : Collab) (map : t_map) (n m : Int)
    (st st' : BuildState) (t0 : t_node) (loc : t_localisation) (B c : Int)
    (hb : buildTree E (initializeTree E n) m st = some (t0, st'))
    (hn : 0 ≤ n) (hc : 0 < c) (hcn : c * n < 2147483648) (hmap : ∀ y x, map.costs y x = c) :
    (∀ (p : List Nat) (x : Option t_info × t_node × Int),
      callAt K map none (setLocation t0 loc) B p = some x →
      ∃ N, nodeAt (traverseTree K map none (setLocation t0 loc) B) p = some N ∧
        N.info.cost = c * (p.length : Int)) ∧
    ∀ (p : List Nat) (b : t_node),
      findBestPath [] (traverseTree K map none (setLocation t0 loc) B) none = some (p, b) →
      nodeAt (traverseTree K map none (setLocation t0 loc) B) p = some b ∧
      b.info.found_base = true ∧
      ∀ q k, Reachable (traverseTree K map none (setLocation t0 loc) B) q k →
        k.info.found_base = true → p.length ≤ q.length := by
  have hcost := visited_cost_uniform_exact hb K map loc B c hn hc hcn hmap
  refine ⟨hcost, ?_⟩
  intro p b hbest
  obtain ⟨hr, hf, hmin⟩ := findBestPath_some_spec _ p b hbest
  refine ⟨hr.nodeAt, hf, ?_⟩
  intro q k hq hk
  obtain ⟨x, hx⟩ := found_base_visited hb K map loc B p b hr.nodeAt hf
  obtain ⟨y, hy⟩ := found_base_visited hb K map loc B q k hq.nodeAt hk
  obtain ⟨N1, hN1, hc1⟩ := hcost p x hx
  obtain ⟨N2, hN2, hc2⟩ := hcost q y hy
  rw [hr.nodeAt] at hN1
  rw [hq.nodeAt] at hN2
  cases hN1
  cases hN2
  have hle := hmin q k hq hk
  rw [hc1, hc2] at hle
  have := le_of_mul_le_mul_left hle hc
  exact_mod_cast this

/-- C13 (amended), witness: on the map of two goal cells, where every cell costs 1,
`findBestPath` returns the node at path `[0, 0]`, of depth 2 and cost 2. -/
theorem C13_uniform_cost_min_depth_witness :
    buildTree demoEnv (initializeTree demoEnv 2) 1 ⟨0, 0⟩ = some (tree21, ⟨4, 4⟩) ∧
    (0 : Int) ≤ 2 ∧ (0 : Int) < 1 ∧ (1 : Int) * 2 < 2147483648 ∧
    (∀ y x, twoGoalMap.costs y x = 1) ∧
    ((∀ (p : List Nat) (x : Option t_info × t_node × Int),
      callAt demoCollab twoGoalMap none (setLocation tree21 startLoc) 5 p = some x →
      ∃ N, nodeAt (traverseTree demoCollab twoGoalMap none (setLocation tree21 startLoc) 5)
          p = some N ∧
        N.info.cost = 1 * (p.length : Int)) ∧
    ∀ (p : List Nat) (b : t_node),
      findBestPath [] (traverseTree demoCollab twoGoalMap none (setLocation tree21 startLoc) 5)
        none = some (p, b) →
      nodeAt (traverseTree demoCollab twoGoalMap none (setLocation tree21 startLoc) 5) p
        = some b ∧
      b.info.found_base = true ∧
      ∀ q k, Reachable (traverseTree demoCollab twoGoalMap none (setLocation tree21 startLoc) 5)
          q k →
        k.info.found_base = true → p.length ≤ q.length) ∧
    (findBestPath [] (traverseTree demoCollab twoGoalMap none (setLocation tree21 startLoc) 5)
      none).map (fun b => (b.1, b.2.info.cost)) = some ([0, 0], 2) :=
  ⟨rfl, by decide, by decide, by decide, fun _ _ => rfl,
    C13_uniform_cost_min_depth demoEnv demoCollab twoGoalMap 2 1 ⟨0, 0⟩ ⟨4, 4⟩ tree21
      startLoc 5 1 rfl (by decide) (by decide) (by decide) (fun _ _ => rfl),
    by decide⟩

/-- C14: `findBestPath` is stable. The node it returns (from an empty best) is reachable,
has `found_base = true`, is strictly cheaper than every reachable node with
`found_base = true` that comes before it in depth-first, left-to-right pre-order, and at
most as expensive as every one that comes after it; so among the nodes of minimal cost it is
the first. A best that is set is replaced by a node only if that node has found the base and
its cost is strictly smaller. -/
theorem C14_findBestPath_stable (root : t_node) (p : List Nat) (b : t_node)
    (h : findBestPath [] root none = some (p, b)) :
    (Reachable root p b ∧ b.info.found_base = true) ∧
    (∀ q k, Reachable root q k → k.info.found_base = true →
      (List.Lex (fun x y : Nat => x < y) q p → b.info.cost < k.info.cost) ∧
      b.info.cost ≤ k.info.cost ∧
      (k.info.cost = b.info.cost → q = p ∨ List.Lex (fun x y : Nat => x < y) p q)) ∧
    ∀ (here : List Nat) (node : t_node) (best : List Nat × t_node),
      updateBest here node (some best) ≠ some best →
      node.info.found_base = true ∧ node.info.cost < best.2.info.cost := by
  obtain ⟨hr, hf, hmin⟩ := findBestPath_some_spec root p b h
  refine ⟨⟨hr, hf⟩, ?_, ?_⟩
  · intro q k hq hk
    obtain ⟨h1, h2⟩ := findBestPath_first root p b h q k hq hk
    refine ⟨h1, hmin q k hq hk, ?_⟩
    intro hcost
    apply h2
    intro hlex
    have := h1 hlex
    omega
  · intro here node best hne
    rw [updateBest_some] at hne
    by_cases hc : node.info.found_base = true ∧ node.info.cost < best.2.info.cost
    · exact hc
    · rw [if_neg hc] at hne
      exact absurd rfl hne

/-- C14, witness: on the map of two goal cells the nodes at paths `[0, 0]` and `[1, 0]` both
found the base at cost 2; `findBestPath` returns the first, `[0, 0]`. -/
theorem C14_findBestPath_stable_witness :
    ∃ b, findBestPath []
        (traverseTree demoCollab twoGoalMap none (setLocation tree21 startLoc) 5) none
        = some ([0, 0], b) ∧
      ((Reachable (traverseTree demoCollab twoGoalMap none (setLocation tree21 startLoc) 5)
          [0, 0] b ∧ b.info.found_base = true) ∧
      (∀ q k, Reachable (traverseTree demoCollab twoGoalMap none (setLocation tree21 startLoc) 5)
          q k → k.info.found_base = true →
        (List.Lex (fun x y : Nat => x < y) q [0, 0] → b.info.cost < k.info.cost) ∧
        b.info.cost ≤ k.info.cost ∧
        (k.info.cost = b.info.cost →
          q = [0, 0] ∨ List.Lex (fun x y : Nat => x < y) [0, 0] q)) ∧
      ∀ (here : List Nat) (node : t_node) (best : List Nat × t_node),
        updateBest here node (some best) ≠ some best →
        node.info.found_base = true ∧ node.info.cost < best.2.info.cost) ∧
      (nodeAt (traverseTree demoCollab twoGoalMap none (setLocation tree21 startLoc) 5)
        [0, 0]).map (fun k => (k.info.found_base, k.info.cost)) = some (true, 2) ∧
      (nodeAt (traverseTree demoCollab twoGoalMap none (setLocation tree21 startLoc) 5)
        [1, 0]).map (fun k => (k.info.found_base, k.info.cost)) = some (true, 2) :=
  ⟨_, rfl,
    C14_findBestPath_stable
      (traverseTree demoCollab twoGoalMap none (setLocation tree21 startLoc) 5) [0, 0] _ rfl,
    by decide, by decide⟩

/-- C15: in the tree built for `numChoices = n` and `1 ≤ minChoices = m ≤ n + 1`, every
node at depth `d` has `num_children = n - d`, at least `m - 1`, with cost 0 and both flags
false; a node with `num_children = m - 1` has no children; a node with
`num_children > m - 1` has exactly `num_children` children, each of them the node one step
below it in the tree (its parent is the expanding node), with `num_children` one less than
its parent's, cost 0 and both flags false. -/
theorem C15_built_shape (E : BuildEnv) (st : BuildState) (n m : Int) (hm1 : 1 ≤ m) (hm2 : m ≤ n + 1) :
    ∃ t st', buildTree E (initializeTree E n) m st = some (t, st') ∧
      ∀ (p : List Nat) (node : t_node), nodeAt t p = some node →
        node.info.num_children = n - (p.length : Int) ∧
        m - 1 ≤ node.info.num_children ∧
        (node.info.cost = 0 ∧ node.info.is_end = false ∧ node.info.found_base = false) ∧
        (node.info.num_children = m - 1 → node.children = none) ∧
        (m - 1 < node.info.num_children →
          ∃ l, node.children = some l ∧ (l.length : Int) = node.info.num_children ∧
            ∀ (i : Nat) (c : t_node), l[i]? = some c →
              nodeAt t (p ++ [i]) = some c ∧
              c.info.num_children = node.info.num_children - 1 ∧
              c.info.cost = 0 ∧ c.info.is_end = false ∧ c.info.found_base = false) := by
  obtain ⟨t, st', hb, hB, hi⟩ := buildTree_built E n m st
  have hnc : t.info.num_children = n := by rw [hi]; rfl
  refine ⟨t, st', hb, ?_⟩
  intro p node hp
  obtain ⟨hBn, hd⟩ := Built.node_at p t node hB hp
  have hlow := Built.lower p t node hB (by rw [hnc]; omega) hp
  obtain ⟨hz, hleaf, hexp⟩ := hBn.shape
  refine ⟨by rw [hd, hnc], hlow, hz, hleaf, ?_⟩
  intro hlt
  obtain ⟨l, hl, hlen, hall⟩ := hexp hlt hm1
  refine ⟨l, hl, hlen, ?_⟩
  intro i c hc
  obtain ⟨h1, h2, _⟩ := hall c (List.getElem?_mem hc)
  refine ⟨?_, h1, h2⟩
  rw [nodeAt_append, hp]
  simp only [Option.some_bind]
  rw [nodeAt_single node l i hl, hc]

/-- C15, witness: the tree built for `(3, 2)`: the root has 3 children entitled to 2
children each, and the nodes at depth 2, entitled to 1 = m - 1 child, have none. -/
theorem C15_built_shape_witness :
    (1 : Int) ≤ 2 ∧ (2 : Int) ≤ 3 + 1 ∧
    ∃ t st', buildTree demoEnv (initializeTree demoEnv 3) 2 ⟨0, 0⟩ = some (t, st') ∧
      ∀ (p : List Nat) (node : t_node), nodeAt t p = some node →
        node.info.num_children = 3 - (p.length : Int) ∧
        2 - 1 ≤ node.info.num_children ∧
        (node.info.cost = 0 ∧ node.info.is_end = false ∧ node.info.found_base = false) ∧
        (node.info.num_children = 2 - 1 → node.children = none) ∧
        (2 - 1 < node.info.num_children →
          ∃ l, node.children = some l ∧ (l.length : Int) = node.info.num_children ∧
            ∀ (i : Nat) (c : t_node), l[i]? = some c →
              nodeAt t (p ++ [i]) = some c ∧
              c.info.num_children = node.info.num_children - 1 ∧
              c.info.cost = 0 ∧ c.info.is_end = false ∧ c.info.found_base = false) :=
  ⟨by decide, by decide,
    C15_built_shape demoEnv ⟨0, 0⟩ 3 2 (by decide) (by decide)⟩

/-- C16: `printPath` prints the nodes of the parent chain of a node in root-first order:
for the null pointer it prints nothing; for a chain whose reverse is the root followed by
the other nodes down to the node itself, it prints the root's line, with its position and
orientation and `START` in place of a move, and then the line of each further node, with
its own position, orientation and move, ending with the node itself. -/
theorem C16_printPath_root_first :
    printPath [] = [] ∧
    ∀ (chain : List t_info) (root : t_info) (rest : List t_info),
      chain.reverse = root :: rest →
      printPath chain =
        { y := root.location.pos.y, x := root.location.pos.x, ori := root.location.ori,
          move := none } ::
        rest.map (fun a =>
          { y := a.location.pos.y, x := a.location.pos.x, ori := a.location.ori,
            move := some a.movement }) :=
  ⟨rfl, fun chain root rest h => printPath_reverse chain root rest h⟩

/-- C17 (counterexample): on a map without Goal cell, the run in best mode
(`numChoices = 2`, `minChoices = 1`) finds no node with `found_base = true` and prints
nothing at all. -/
theorem C17_counterexample :
    (¬ ∃ p n, Reachable
        (traverseTree demoCollab regMap none (setLocation tree21 (demoLocInit 4 1 .EAST)) 5)
        p n ∧ n.info.found_base = true) ∧
    buildTree demoEnv (initializeTree demoEnv 2) 1 ⟨0, 0⟩ = some (tree21, ⟨4, 4⟩) ∧
    executePhase demoEnv demoCollab demoLocInit 2 1 regMap 2 ⟨0, 0⟩ =
      some (traverseTree demoCollab regMap none (setLocation tree21 (demoLocInit 4 1 .EAST)) 5,
        [], ⟨4, 4⟩) := by
  have hnone : findBestPath []
      (traverseTree demoCollab regMap none (setLocation tree21 (demoLocInit 4 1 .EAST)) 5)
      none = none := by rfl
  refine ⟨(findBestPath_none_iff _).1 hnone, rfl, ?_⟩
  rw [executePhase_of_build (show buildTree demoEnv (initializeTree demoEnv 2) 1 ⟨0, 0⟩ =
    some (tree21, ⟨4, 4⟩) from rfl), hnone]
  rfl

/-- C17 (amended): in best mode (`mode = 2`) the run prints nothing when no node reachable
under pruning has `found_base = true` (there is no line for "no path found"); when such a
node exists it prints exactly one block, headed `Best Path`, for the node chosen by
`findBestPath`: a reachable node with `found_base = true` of least cost, with the arrival
line of that node, the table of its ancestors and that node's cost. -/
theorem C17_best_mode (E : BuildEnv) (K : Collab)
    (loc_init : Int → Int → t_orientation → t_localisation) (n m : Int) (map : t_map)
    (st : BuildState) :
    ∃ t0 st' T, buildTree E (initializeTree E n) m st = some (t0, st') ∧
      T = traverseTree K map none (setLocation t0 (loc_init 4 1 .EAST)) 5 ∧
      ((¬ ∃ p k, Reachable T p k ∧ k.info.found_base = true) →
        executePhase E K loc_init n m map 2 st = some (T, [], st')) ∧
      ((∃ p k, Reachable T p k ∧ k.info.found_base = true) →
        ∃ p k, findBestPath [] T none = some (p, k) ∧ Reachable T p k ∧
          k.info.found_base = true ∧
          (∀ q j, Reachable T q j → j.info.found_base = true → k.info.cost ≤ j.info.cost) ∧
          executePhase E K loc_init n m map 2 st =
            some (T, [Printed.bestPath
              { arrival := k.info.location
                path := printPath (ancestorsAt T p)
                cost := k.info.cost }], st')) := by
  obtain ⟨t0, st', hb, _, _⟩ := buildTree_built E n m st
  refine ⟨t0, st', _, hb, rfl, ?_, ?_⟩
  · intro hno
    rw [executePhase_of_build hb, (findBestPath_none_iff _).2 hno]
    rfl
  · intro hex
    cases hbest : findBestPath []
        (traverseTree K map none (setLocation t0 (loc_init 4 1 .EAST)) 5) none with
    | none => exact absurd hex ((findBestPath_none_iff _).1 hbest)
    | some b =>
      obtain ⟨p, k⟩ := b
      obtain ⟨hr, hf, hmin⟩ := findBestPath_some_spec _ p k hbest
      refine ⟨p, k, rfl, hr, hf, hmin, ?_⟩
      rw [executePhase_of_build hb, hbest]
      rfl

/-- C18: for `minChoices = numChoices + 1` the root made by `initializeTree` meets the stop
test of `buildTree` at once and is returned as it is: with `num_children = numChoices` and
without an array of children (`initializeTree` never sets the field). On a root without
children whose position is in bounds, `traverseTree` reaches its loop with the budget it was
given: the test `children == NULL` is made only for a node with a parent. For
`numChoices = 1`, `minChoices = 2` the loop then runs for `i = 0 < num_children = 1` and
reads `children[0]`, which does not exist. -/
theorem C18_root_loop_without_children :
    (∀ (E : BuildEnv) (n : Int) (st : BuildState),
      buildTree E (initializeTree E n) (n + 1) st = some (initializeTree E n, st) ∧
      (initializeTree E n).children = none ∧ (initializeTree E n).info.num_children = n) ∧
    (∀ (K : Collab) (map : t_map) (info : t_info) (B : Int),
      K.isValidLocalisation info.location.pos map.x_max map.y_max = true →
      traverseStep K map none true info B = (info, some B)) ∧
    buildTree demoEnv (initializeTree demoEnv 1) 2 ⟨0, 0⟩ =
      some (.mk none (demoInfo (-1) (-1) 1), ⟨0, 0⟩) ∧
    traverseStep demoCollab regMap none true
        (setLocation (.mk none (demoInfo (-1) (-1) 1)) startLoc).info 5 =
      ({ demoInfo (-1) (-1) 1 with location := startLoc }, some 5) ∧
    (0 : Int) < (demoInfo (-1) (-1) 1).num_children := by
  refine ⟨?_, ?_, rfl, by decide, by decide⟩
  · intro E n st
    refine ⟨?_, rfl, rfl⟩
    simp [buildTree, buildTreeAux, initializeTree, t_node.info]
  · intro K map info B h
    simp [traverseStep, boundsCheck, h]

/-- C19: when `isValidLocalisation(pos, x_max, y_max)` holds exactly for `0 ≤ x < x_max` and
`0 ≤ y < y_max`, every call of `validateAndUpdateMove` made by `traverseTree`, on any tree
and from any root location, reads `map.costs[y][x]` and `map.soils[y][x]` at an in-bounds
position: the call made for a visited node with a parent receives a parent record whose
position is in bounds, and its result depends on the map only through the cell at that
position. -/
theorem C19_reads_in_bounds (K : Collab) (map : t_map) (t : t_node) (B : Int)
    (p : List Nat) (i : Nat) (x : Option t_info × t_node × Int)
    (hvalid : ∀ (pos : t_position) (x_max y_max : Int),
      K.isValidLocalisation pos x_max y_max = true ↔
        0 ≤ pos.x ∧ pos.x < x_max ∧ 0 ≤ pos.y ∧ pos.y < y_max)
    (hv : callAt K map none t B (p ++ [i]) = some x) :
    ∃ g, x.1 = some g ∧
      (0 ≤ g.location.pos.x ∧ g.location.pos.x < map.x_max ∧
        0 ≤ g.location.pos.y ∧ g.location.pos.y < map.y_max) ∧
      ∀ map' : t_map,
        map'.soils g.location.pos.y g.location.pos.x =
          map.soils g.location.pos.y g.location.pos.x →
        map'.costs g.location.pos.y g.location.pos.x =
          map.costs g.location.pos.y g.location.pos.x →
        validateAndUpdateMove K g x.2.1.info map' x.2.2 =
          validateAndUpdateMove K g x.2.1.info map x.2.2 := by
  obtain ⟨y, P, N, _, _, _, _, hg, hstep, _, _⟩ := visit_child K map none t B p i x hv
  refine ⟨P.info, hg, ?_, fun map' hs hc => validateAndUpdateMove_congr K map map' _ _ _ hs hc⟩
  have hsnd : (traverseStep K map y.1 false y.2.1.info y.2.2).2 = some x.2.2 := by rw [hstep]
  have := traverseStep_loop_valid K map y.1 false y.2.1.info y.2.2 x.2.2 hsnd
  rw [hstep] at this
  exact (hvalid _ _ _).1 this

/-- C19, witness: in the 2x2 scenario the call made for the child of the child 0 of the root
reads the map at the goal cell x = 0, y = 1, inside the 2x2 grid. -/
theorem C19_reads_in_bounds_witness :
    ∃ x, (∀ (pos : t_position) (x_max y_max : Int),
        demoCollab.isValidLocalisation pos x_max y_max = true ↔
          0 ≤ pos.x ∧ pos.x < x_max ∧ 0 ≤ pos.y ∧ pos.y < y_max) ∧
      callAt demoCollab scenarioMap none (setLocation tree21 startLoc) 5 ([0] ++ [0]) = some x ∧
      (∃ g, x.1 = some g ∧
        (0 ≤ g.location.pos.x ∧ g.location.pos.x < scenarioMap.x_max ∧
          0 ≤ g.location.pos.y ∧ g.location.pos.y < scenarioMap.y_max) ∧
        ∀ map' : t_map,
          map'.soils g.location.pos.y g.location.pos.x =
            scenarioMap.soils g.location.pos.y g.location.pos.x →
          map'.costs g.location.pos.y g.location.pos.x =
            scenarioMap.costs g.location.pos.y g.location.pos.x →
          validateAndUpdateMove demoCollab g x.2.1.info map' x.2.2 =
            validateAndUpdateMove demoCollab g x.2.1.info scenarioMap x.2.2) ∧
      x.1.map (fun g => g.location.pos) = some ⟨0, 1⟩ :=
  ⟨_, fun pos x_max y_max => by simp [demoCollab], rfl,
    C19_reads_in_bounds demoCollab scenarioMap (setLocation tree21 startLoc) 5 [0] 0 _
      (fun pos x_max y_max => by simp [demoCollab]) rfl,
    by decide⟩

/-- C20 (counterexample): with a sampler that stamps its batches (slot `i` of the batch of
request `k` holds `10 * k + i`), the build for `numChoices = 2`, `minChoices = 1` expands 3
nodes and makes 4 requests; the children of the root hold 20 and 21, the moves of the
request of index 2, and not 0 and 1, the moves of the first request made for the root. -/
theorem C20_counterexample :
    buildTree stampEnv (initializeTree stampEnv 2) 1 ⟨0, 0⟩ =
      some (.mk (some [.mk (some [.mk none (demoInfo 2 10 0)]) (demoInfo 0 20 1),
                       .mk (some [.mk none (demoInfo 3 30 0)]) (demoInfo 1 21 1)])
              (demoInfo (-1) (-1) 2), ⟨4, 4⟩) ∧
    expansions (.mk (some [.mk (some [.mk none (demoInfo 2 10 0)]) (demoInfo 0 20 1),
                           .mk (some [.mk none (demoInfo 3 30 0)]) (demoInfo 1 21 1)])
                  (demoInfo (-1) (-1) 2)) = 3 ∧
    (stampEnv.getRandomMoves 0 (5 * 2)).map (fun rm => (rm 0, rm 1)) = some (0, 1) ∧
    (stampEnv.getRandomMoves 2 (5 * 2)).map (fun rm => (rm 0, rm 1)) = some (20, 21) := by
  refine ⟨rfl, by decide, by decide, by decide⟩

/-- C20 (amended): `buildTree` makes one request to the sampler per iteration of its loop,
that is one per child of each expanded node: the requests made during the build are as many
as the nodes below the root (`requests`). After the build, the children of every expanded
node hold, in child order, the moves of the batch requested by the last iteration of the
loop for that node, when that request succeeded: for a node whose build starts after `c`
requests and whose children are `l`, this is the request of index
`requestAt c l (l.length - 1)`, asked for `5 * num_children` moves. -/
theorem C20_requests_and_moves (E : BuildEnv) (n m : Int) (st : BuildState) :
    ∃ t st', buildTree E (initializeTree E n) m st = some (t, st') ∧
      st'.calls = st.calls + requests t ∧
      ∀ (p : List Nat) (node : t_node), nodeAt t p = some node →
        ∃ c, startAt st.calls t p = some c ∧
          ∀ l, node.children = some l →
            ∀ rm, E.getRandomMoves (requestAt c l (l.length - 1))
                (5 * node.info.num_children) = some rm →
              ∀ (i : Nat) (x : t_node), l[i]? = some x → x.info.movement = rm i := by
  obtain ⟨t, st', hb, _, _⟩ := buildTree_built E n m st
  obtain ⟨hc, hs⟩ := buildTree_requests hb
  refine ⟨t, st', hb, hc, ?_⟩
  intro p node hn
  obtain ⟨c, hstart, hstamp⟩ := Stamped.stamps_at E p t node st.calls hs hn
  refine ⟨c, hstart, ?_⟩
  intro l hl
  cases node with
  | mk ch info =>
    simp only [t_node.children] at hl
    subst hl
    simp only [Stamped] at hstamp
    exact hstamp.1

/-- C21: `buildTree` terminates for every `numChoices = n ≥ 0` and every `minChoices = m`:
the recursion returns within depth `n` (every bound of at least `n + 1` nested calls gives
the same tree), because every node at depth `d` is entitled to `n - d ≥ 0` children, so no
node lies deeper than `n`, and a node entitled to 0 children gets none. When `m > n + 1` no
node meets the stop test and the result is the full tree of depth `n`: every node at depth
`d` has exactly `n - d` children, and there is a node at depth `n`. -/
theorem C21_buildTree_terminates (E : BuildEnv) (st : BuildState) (n m : Int) (hn : 0 ≤ n) :
    ∃ t st', buildTree E (initializeTree E n) m st = some (t, st') ∧
      (∀ fuel, n.toNat + 1 ≤ fuel →
        buildTreeAux E m fuel (initializeTree E n) st = some (t, st')) ∧
      (∀ (p : List Nat) (node : t_node), nodeAt t p = some node →
        node.info.num_children = n - (p.length : Int) ∧ 0 ≤ node.info.num_children ∧
        (p.length : Int) ≤ n ∧
        (node.info.num_children = 0 → node.children = none ∨ node.children = some [])) ∧
      (n + 1 < m →
        (∀ (p : List Nat) (node : t_node), nodeAt t p = some node →
          node.info.num_children ≠ m - 1 ∧
          ∃ l, node.children = some l ∧ (l.length : Int) = n - (p.length : Int)) ∧
        ∃ node, nodeAt t (List.replicate n.toNat 0) = some node) := by
  obtain ⟨t, st', hb, hB, hi⟩ := buildTree_built E n m st
  have hnc : t.info.num_children = n := by rw [hi]; rfl
  have hdepth : ∀ (p : List Nat) (node : t_node), nodeAt t p = some node →
      Built m node ∧ node.info.num_children = n - (p.length : Int) ∧
        0 ≤ node.info.num_children := by
    intro p node hp
    obtain ⟨hBn, hd⟩ := Built.node_at p t node hB hp
    exact ⟨hBn, by rw [hd, hnc], Built.nonneg p t node hB (by rw [hnc]; exact hn) hp⟩
  refine ⟨t, st', hb, ?_, ?_, ?_⟩
  · intro fuel hfuel
    exact buildTreeAux_le E m _ fuel hfuel _ st (t, st') hb
  · intro p node hp
    obtain ⟨hBn, hd, h0⟩ := hdepth p node hp
    exact ⟨hd, h0, by omega, fun hz => hBn.no_child hz⟩
  · intro hm
    refine ⟨?_, ?_⟩
    · intro p node hp
      obtain ⟨hBn, hd, h0⟩ := hdepth p node hp
      have hne : node.info.num_children ≠ m - 1 := by omega
      obtain ⟨l, hl, hlen, _⟩ := hBn.expanded hne h0
      exact ⟨hne, l, hl, by rw [hlen, hd]⟩
    · exact Built.first_children n.toNat t hB (by rw [hnc]; omega) (by omega)

/-- C21, witness: `numChoices = 1`, `minChoices = 3`, where no node meets the stop test: the
build returns the root with its one child, a node at depth 1. -/
theorem C21_buildTree_terminates_witness :
    (0 : Int) ≤ 1 ∧
    ∃ t st', buildTree demoEnv (initializeTree demoEnv 1) 3 ⟨0, 0⟩ = some (t, st') ∧
      (∀ fuel, (1 : Int).toNat + 1 ≤ fuel →
        buildTreeAux demoEnv 3 fuel (initializeTree demoEnv 1) ⟨0, 0⟩ = some (t, st')) ∧
      (∀ (p : List Nat) (node : t_node), nodeAt t p = some node →
        node.info.num_children = 1 - (p.length : Int) ∧ 0 ≤ node.info.num_children ∧
        (p.length : Int) ≤ 1 ∧
        (node.info.num_children = 0 → node.children = none ∨ node.children = some [])) ∧
      ((1 : Int) + 1 < 3 →
        (∀ (p : List Nat) (node : t_node), nodeAt t p = some node →
          node.info.num_children ≠ 3 - 1 ∧
          ∃ l, node.children = some l ∧ (l.length : Int) = 1 - (p.length : Int)) ∧
        ∃ node, nodeAt t (List.replicate (1 : Int).toNat 0) = some node) :=
  ⟨by decide, C21_buildTree_terminates demoEnv ⟨0, 0⟩ 1 3 (by decide)⟩

end RoverRun
